import Mathlib

/-!
# R2C2 firmware: the G-code intake layer (`RepRap/Mendel/gcode_parse.c`)

A shallow embedding of `gcode_parse.c` / `gcode_parse.h`:

* machine integers are `Nat` / `Int` with the C conversion written out
  (`toInt32`, `toUInt8`, ...) at every store into a narrower field;
* the global variables of the translation unit are the fields of `Machine`;
* the three compile-time switches of `gcode_parse.h` are the fields of `Config`;
* the functions the parser calls but does not define (`process_gcode_command`,
  `sd_write_to_file`, `sd_close`, the serial writers, `enqueue`) are parameters
  (`Collaborators`) and every call is appended, in program order, to `Machine.trace`.
-/

namespace R2C2

/-! ## C integer conversions -/

/-- Conversion to `int32_t`: reduction modulo 2^32 into [-2^31, 2^31). -/
def toInt32 (r : Int) : Int := (r + 2147483648) % 4294967296 - 2147483648

/-- Conversion to `int16_t`. -/
def toInt16 (r : Int) : Int := (r + 32768) % 65536 - 32768

/-- Conversion to `uint32_t`. -/
def toUInt32 (r : Int) : Nat := (r % 4294967296).toNat

/-- Conversion to `uint16_t`. -/
def toUInt16 (r : Int) : Nat := (r % 65536).toNat

/-- Conversion to `uint8_t`. -/
def toUInt8 (r : Int) : Nat := (r % 256).toNat

/-! ## Data model (`gcode_parse.h`) -/

/-- The `decfloat` bit-field struct: `sign:1`, `mantissa:24`, `exponent:7`. -/
structure decfloat where
  sign : Bool
  mantissa : Nat
  exponent : Nat
deriving DecidableEq, Repr

/-- Modelled from the spec: the `TARGET` struct is declared in `dda.h`, which is not
among the sources.  The spec gives `target: x, y, z, e: i32 steps, f: u32 raw-feed`;
`g28` is the `options.g28` marker the synthetic moves set. -/
structure TARGET where
  X : Int
  Y : Int
  Z : Int
  E : Int
  F : Nat
  g28 : Bool
deriving DecidableEq, Repr

/-- The `GCODE_COMMAND` struct, field for field. -/
structure GCODE_COMMAND where
  seen_G : Bool
  seen_M : Bool
  seen_X : Bool
  seen_Y : Bool
  seen_Z : Bool
  seen_E : Bool
  seen_F : Bool
  seen_S : Bool
  seen_P : Bool
  seen_N : Bool
  seen_checksum : Bool
  seen_semi_comment : Bool
  seen_parens_comment : Bool
  getting_string : Bool
  option_relative : Bool
  option_inches : Bool
  G : Nat
  M : Nat
  target : TARGET
  S : Int
  P : Nat
  N : Nat
  N_expected : Nat
  checksum_read : Nat
  checksum_calculated : Nat
  chpos : Nat
  filename : List Nat
deriving DecidableEq, Repr

/-- The `tLineBuffer` struct (`MAX_LINE` = 120). -/
structure tLineBuffer where
  data : List Nat
  len : Nat
  seen_lf : Bool
deriving DecidableEq, Repr

/-- The compile-time switches of `gcode_parse.h`; the source leaves all three undefined. -/
structure Config where
  ASTERISK_IN_CHECKSUM_INCLUDED : Bool
  REQUIRE_LINENUMBER : Bool
  REQUIRE_CHECKSUM : Bool
deriving DecidableEq, Repr

/-- The configuration of the source as shipped: the three `#define`s are commented out. -/
def Config.source : Config := ⟨false, false, false⟩

/-- One call made by this module to a collaborator, with the arguments it passed.
For `process_gcode_command`, which takes its input from the global `next_target`,
the argument recorded is the value of `next_target` at the call.  For the serial
writers, whose prototypes are declared outside this module, the argument recorded is
the value of the argument expression. -/
inductive Event where
  | serial_writestr (s : String)
  | serwrite_uint8 (v : Nat)
  | serwrite_uint32 (v : Nat)
  | sd_close
  | sd_write_to_file (data : List Nat)
  | process_gcode_command (record : GCODE_COMMAND)
  | enqueue (t : TARGET)
deriving DecidableEq, Repr

/-- What one call of `process_gcode_command` leaves behind: its return value, the
globals it shares with the parser (`next_target`, `sd_writing_file`) and the state `W`
of everything else outside this module. -/
structure Dispatched (W : Type) where
  send_reply : Bool
  next_target : GCODE_COMMAND
  sd_writing_file : Bool
  world : W

/-- The functions called by `gcode_parse_char` whose code lives in other modules.
`W` is the state of those modules (motion queue, storage, ...). -/
structure Collaborators (W : Type) where
  process_gcode_command : W → GCODE_COMMAND → Bool → Dispatched W
  sd_write_to_file : W → List Nat → Bool × W
  sd_close : W → W

/-- The global variables of `gcode_parse.c`, the globals it reads from other modules
(`sd_writing_file`), the buffer `pLine` points to, and the trace of collaborator calls.
`steps_per_in_*` are `double`s in the source; they only occur as `int32_t` arguments
of `decfloat_to_int`, so the model carries the converted value. -/
structure Machine (W : Type) where
  steps_per_m_x : Nat
  steps_per_m_y : Nat
  steps_per_m_z : Nat
  steps_per_m_e : Nat
  steps_per_in_x : Int
  steps_per_in_y : Int
  steps_per_in_z : Int
  steps_per_in_e : Int
  last_field : Nat
  read_digit : decfloat
  next_target : GCODE_COMMAND
  sd_writing_file : Bool
  pLine : tLineBuffer
  world : W
  trace : List Event

/-! ## `decfloat_to_int` -/

/-- The loop `while (e >= 5) { r /= 100000; e -= 5; }`, returning the final `(r, e)`. -/
def exponent_loop : Int → Nat → Int × Nat
  | r, e + 5 => exponent_loop (r.tdiv 100000) e
  | r, e => (r, e)

/-- The function `decfloat_to_int` (lines 95-129).  `r` is an `int64_t`; with a 24-bit
mantissa and a 32-bit multiplicand no intermediate value leaves the 64-bit range, so
`r` is a mathematical integer until the final conversion to `int32_t`.  C division
truncates toward zero (`Int.tdiv`); a zero denominator is undefined in C. -/
def decfloat_to_int (df : decfloat) (multiplicand denominator : Int) : Int :=
  let r : Int := df.mantissa
  let e : Nat := df.exponent
  let e := if e ≠ 0 then e - 1 else e
  let r := if multiplicand ≠ 1 then r * multiplicand else r
  let r := if denominator ≠ 1 then r.tdiv denominator else r
  let r := if df.sign then -r else r
  let (r, e) := exponent_loop r e
  let r :=
    if e = 1 then r.tdiv 10
    else if e = 2 then r.tdiv 100
    else if e = 3 then r.tdiv 1000
    else if e = 4 then r.tdiv 10000
    else r
  toInt32 r

/-! ## The character parser (`gcode_parse_char`, lines 175-457) -/

/-- Appends collaborator calls to the trace. -/
def Machine.emit {W : Type} (m : Machine W) (evs : List Event) : Machine W :=
  { m with trace := m.trace ++ evs }

/-- The macro `crc(a, b)`, stored into the `uint8_t` field `checksum_calculated`. -/
def crc (a b : Nat) : Nat := (a ^^^ b) % 256

/-- Lines 179-180 and 358-359: `if (seen_checksum == 0) checksum_calculated = crc(..., c)`. -/
def checksum_step {W : Type} (c : Nat) (m : Machine W) : Machine W :=
  if m.next_target.seen_checksum = false then
    { m with next_target :=
        { m.next_target with
          checksum_calculated := crc m.next_target.checksum_calculated c } }
  else m

/-- Lines 184-185: `if (c >= 'a' && c <= 'z') c &= ~32;` on a `uint8_t`. -/
def uppercase (c : Nat) : Nat :=
  if 97 ≤ c ∧ c ≤ 122 then c &&& 223 else c

/-- The `switch (last_field)` of lines 192-253: stores the accumulated value `rd` into
the slot of the pending field.  The `uint32_t` globals `steps_per_m_*` and the
`steps_per_in_*` globals are converted to the `int32_t` parameter type at the call. -/
def commit_field {W : Type} (m : Machine W) : GCODE_COMMAND :=
  let nt := m.next_target
  let rd := m.read_digit
  let lf := m.last_field
  if lf = 71 then { nt with G := rd.mantissa % 256 }
  else if lf = 77 then
    let nt := { nt with M := rd.mantissa % 65536 }
    if nt.M = 23 ∨ nt.M = 28 then { nt with getting_string := true } else nt
  else if lf = 88 then
    if nt.option_inches then
      { nt with target := { nt.target with X := decfloat_to_int rd (toInt32 m.steps_per_in_x) 1 } }
    else
      { nt with target := { nt.target with X := decfloat_to_int rd (toInt32 m.steps_per_m_x) 1000 } }
  else if lf = 89 then
    if nt.option_inches then
      { nt with target := { nt.target with Y := decfloat_to_int rd (toInt32 m.steps_per_in_y) 1 } }
    else
      { nt with target := { nt.target with Y := decfloat_to_int rd (toInt32 m.steps_per_m_y) 1000 } }
  else if lf = 90 then
    if nt.option_inches then
      { nt with target := { nt.target with Z := decfloat_to_int rd (toInt32 m.steps_per_in_z) 1 } }
    else
      { nt with target := { nt.target with Z := decfloat_to_int rd (toInt32 m.steps_per_m_z) 1000 } }
  else if lf = 69 then
    if nt.option_inches then
      { nt with target := { nt.target with E := decfloat_to_int rd (toInt32 m.steps_per_in_e) 1 } }
    else
      { nt with target := { nt.target with E := decfloat_to_int rd (toInt32 m.steps_per_m_e) 1000 } }
  else if lf = 70 then
    if nt.option_inches then
      { nt with target := { nt.target with F := toUInt32 (decfloat_to_int rd 254 10) } }
    else
      { nt with target := { nt.target with F := toUInt32 (decfloat_to_int rd 1 1) } }
  else if lf = 83 then { nt with S := toInt16 (decfloat_to_int rd 1 1) }
  else if lf = 80 then
    if nt.G = 4 then { nt with P := toUInt16 (decfloat_to_int rd 1000 1) }
    else { nt with P := toUInt16 (decfloat_to_int rd 1 1) }
  else if lf = 78 then { nt with N := toUInt32 (decfloat_to_int rd 1 1) }
  else if lf = 42 then { nt with checksum_read := toUInt8 (decfloat_to_int rd 1 1) }
  else nt

/-- Lines 188-258, "process previous field": when a field is pending and `c` is a
letter, `*`, LF or CR, commit it, then clear `last_field` and the accumulator. -/
def process_previous_field {W : Type} (c : Nat) (m : Machine W) : Machine W :=
  if m.last_field ≠ 0 then
    if (65 ≤ c ∧ c ≤ 90) ∨ c = 42 ∨ c = 10 ∨ c = 13 then
      { m with next_target := commit_field m, last_field := 0, read_digit := ⟨false, 0, 0⟩ }
    else m
  else m

/-- The indices and values written to `filename` by lines 268-269 when the cursor is
`chpos`: `filename[chpos++] = c; filename[chpos] = 0;`. -/
def filename_writes (chpos c : Nat) : List (Nat × Nat) :=
  [(chpos, c), (chpos + 1, 0)]

/-- Lines 260-272: filename capture.  The array is a list of 120 bytes; a write whose
index is not below the length of the list leaves the list as it is. -/
def capture_string {W : Type} (c : Nat) (m : Machine W) : Machine W :=
  let nt := m.next_target
  if nt.getting_string then
    if c = 10 ∨ c = 13 ∨ c = 32 ∨ c = 42 then
      { m with next_target := { nt with getting_string := false } }
    else if nt.chpos < 120 then
      { m with next_target :=
          { nt with
            filename := (filename_writes nt.chpos c).foldl (fun buf w => buf.set w.1 w.2) nt.filename
            chpos := nt.chpos + 1 } }
    else m
  else m

/-- The `switch (c)` of lines 282-352. -/
def process_switch {W : Type} (c : Nat) (m : Machine W) : Machine W :=
  let nt := m.next_target
  let rd := m.read_digit
  if c = 71 then { m with next_target := { nt with seen_G := true, seen_M := false, M := 0 } }
  else if c = 77 then { m with next_target := { nt with seen_M := true, seen_G := false, G := 0 } }
  else if c = 88 then { m with next_target := { nt with seen_X := true } }
  else if c = 89 then { m with next_target := { nt with seen_Y := true } }
  else if c = 90 then { m with next_target := { nt with seen_Z := true } }
  else if c = 69 then { m with next_target := { nt with seen_E := true } }
  else if c = 70 then { m with next_target := { nt with seen_F := true } }
  else if c = 83 then { m with next_target := { nt with seen_S := true } }
  else if c = 80 then { m with next_target := { nt with seen_P := true } }
  else if c = 78 then { m with next_target := { nt with seen_N := true } }
  else if c = 42 then { m with next_target := { nt with seen_checksum := true } }
  else if c = 59 then { m with next_target := { nt with seen_semi_comment := true } }
  else if c = 40 then { m with next_target := { nt with seen_parens_comment := true } }
  else if c = 45 then { m with read_digit := { sign := true, exponent := 0, mantissa := 0 } }
  else if c = 46 then
    if rd.exponent = 0 then { m with read_digit := { rd with exponent := 1 } } else m
  else if 48 ≤ c ∧ c ≤ 57 then
    let mantissa := ((rd.mantissa <<< 3) + (rd.mantissa <<< 1) + (c - 48)) % 16777216
    let rd := { rd with mantissa := mantissa }
    if rd.exponent ≠ 0 then { m with read_digit := { rd with exponent := (rd.exponent + 1) % 128 } }
    else { m with read_digit := rd }
  else m

/-- Lines 275-354: outside comments and filename capture a letter or `*` opens a field
and the byte goes through the `switch`; inside a parenthesis comment `)` closes it. -/
def process_character {W : Type} (c : Nat) (m : Machine W) : Machine W :=
  let nt := m.next_target
  if nt.seen_semi_comment = false ∧ nt.seen_parens_comment = false ∧ nt.getting_string = false then
    let m := if (65 ≤ c ∧ c ≤ 90) ∨ c = 42 then { m with last_field := c } else m
    process_switch c m
  else if nt.seen_parens_comment = true ∧ c = 41 then
    { m with next_target := { nt with seen_parens_comment := false } }
  else m

/-- Lines 176-360: everything `gcode_parse_char` does with the byte before the
end-of-line test.  Returns the case-folded byte and the machine. -/
def parse_byte {W : Type} (cfg : Config) (c : Nat) (m : Machine W) : Nat × Machine W :=
  let m := if cfg.ASTERISK_IN_CHECKSUM_INCLUDED then checksum_step c m else m
  let c := uppercase c
  let m := process_previous_field c m
  let m := capture_string c m
  let m := process_character c m
  let m := if cfg.ASTERISK_IN_CHECKSUM_INCLUDED then m else checksum_step c m
  (c, m)

/-- The function `request_resend` (lines 467-471): the call
`serwrite_uint8(next_target.N)` is made with the line number of the record. -/
def request_resend {W : Type} (m : Machine W) : Machine W :=
  m.emit [Event.serial_writestr "rs ", Event.serwrite_uint8 m.next_target.N,
          Event.serial_writestr "\r\n"]

/-- Lines 378-421, the line-mode router, entered once a line has passed the
line-number and checksum tests.  In file-capture mode the last byte of the buffer is
`data[len - 1]`; `gcode_parse_line` only calls the parser with `len` at least 1.
`process_gcode_command` runs on the record as it stands and may change it; the
`N_expected` update that follows reads the record it left. -/
def route_line {W : Type} (env : Collaborators W) (m : Machine W) : Machine W :=
  let nt := m.next_target
  if m.sd_writing_file then
    if nt.seen_M ∧ 20 ≤ nt.M ∧ nt.M ≤ 29 then
      if nt.seen_M ∧ nt.M = 29 then
        { m with sd_writing_file := false, world := env.sd_close m.world
                 trace := m.trace ++ [Event.sd_close, Event.serial_writestr "Done saving file\r\n"] }
      else m.emit [Event.serial_writestr "ok\r\n"]
    else
      let line := m.pLine
      let line :=
        if line.data.getD (line.len - 1) 0 = 13 then
          { line with data := line.data.set (line.len - 1) 10 }
        else line
      let written := line.data.take line.len
      let res := env.sd_write_to_file m.world written
      { m with pLine := line, world := res.2
               trace := m.trace ++ [Event.sd_write_to_file written,
                 Event.serial_writestr (if res.1 then "ok\r\n" else "error writing to file\r\n")] }
  else
    let d := env.process_gcode_command m.world nt m.sd_writing_file
    let reply := if d.send_reply then [Event.serial_writestr "ok\r\n"] else []
    let nt := d.next_target
    let nt := if nt.seen_N then { nt with N_expected := (nt.N + 1) % 4294967296 } else nt
    { m with next_target := nt, sd_writing_file := d.sd_writing_file, world := d.world
             trace := m.trace ++ Event.process_gcode_command m.next_target :: reply }

/-- The line-number test of lines 364-370 under the `REQUIRE_LINENUMBER` switch. -/
def line_number_ok (cfg : Config) (nt : GCODE_COMMAND) : Bool :=
  if cfg.REQUIRE_LINENUMBER then decide (nt.N_expected ≤ nt.N) && nt.seen_N else true

/-- The checksum test of lines 371-377 under the `REQUIRE_CHECKSUM` switch. -/
def checksum_ok (cfg : Config) (nt : GCODE_COMMAND) : Bool :=
  if cfg.REQUIRE_CHECKSUM then
    decide (nt.checksum_calculated = nt.checksum_read) && nt.seen_checksum
  else
    decide (nt.checksum_calculated = nt.checksum_read) || !nt.seen_checksum

/-- Lines 364-435: the two tests and what each outcome emits. -/
def check_line {W : Type} (env : Collaborators W) (cfg : Config) (m : Machine W) : Machine W :=
  if line_number_ok cfg m.next_target then
    if checksum_ok cfg m.next_target then route_line env m
    else
      request_resend
        (m.emit [Event.serial_writestr "Expected checksum ",
                 Event.serwrite_uint8 m.next_target.checksum_calculated,
                 Event.serial_writestr "\r\n"])
  else
    request_resend
      (m.emit [Event.serial_writestr "Expected line number ",
               Event.serwrite_uint32 m.next_target.N_expected,
               Event.serial_writestr "\r\n"])

/-- Lines 437-455, "reset variables". -/
def reset_variables {W : Type} (m : Machine W) : Machine W :=
  let nt := m.next_target
  let nt := { nt with
    seen_X := false, seen_Y := false, seen_Z := false, seen_E := false, seen_F := false
    seen_S := false, seen_P := false, seen_N := false, seen_M := false
    seen_checksum := false, seen_semi_comment := false, seen_parens_comment := false
    checksum_read := 0, checksum_calculated := 0
    chpos := 0
    seen_G := true, G := 1 }
  let nt :=
    if nt.option_relative then
      { nt with target := { nt.target with X := 0, Y := 0, Z := 0, E := 0 } }
    else nt
  { m with next_target := nt, last_field := 0, read_digit := ⟨false, 0, 0⟩ }

/-- Lines 363-456: the end-of-line block. -/
def end_of_line {W : Type} (env : Collaborators W) (cfg : Config) (m : Machine W) : Machine W :=
  reset_variables (check_line env cfg m)

/-- The function `gcode_parse_char`. -/
def gcode_parse_char {W : Type} (env : Collaborators W) (cfg : Config) (c : Nat)
    (m : Machine W) : Machine W :=
  let p := parse_byte cfg c m
  if p.1 = 10 ∨ p.1 = 13 then end_of_line env cfg p.2 else p.2

/-- Feeding a sequence of bytes, one call of `gcode_parse_char` per byte. -/
def feed {W : Type} (env : Collaborators W) (cfg : Config) (m : Machine W) (bytes : List Nat) :
    Machine W :=
  bytes.foldl (fun m c => gcode_parse_char env cfg c m) m

/-- The loop of `gcode_parse_line` (lines 161-167) from index `j`, with `n` iterations
left: each iteration reads `pLine->data[j]` from the buffer as it then is. -/
def gcode_parse_line_from {W : Type} (env : Collaborators W) (cfg : Config) :
    Nat → Nat → Machine W → Machine W
  | 0, _, m => m
  | n + 1, j, m =>
    gcode_parse_line_from env cfg n (j + 1) (gcode_parse_char env cfg (m.pLine.data.getD j 0) m)

/-- The function `gcode_parse_line`: the caller's buffer becomes the buffer `pLine`
points to, and its `len` bytes are parsed in order. -/
def gcode_parse_line {W : Type} (env : Collaborators W) (cfg : Config) (line : tLineBuffer)
    (m : Machine W) : Machine W :=
  gcode_parse_line_from env cfg line.len 0 { m with pLine := line }

/-! ## Synthetic moves (lines 136-159) -/

/-- The function `SpecialMoveXY`; `startpoint` is a global of the motion module. -/
def SpecialMoveXY {W : Type} (startpoint : TARGET) (x y : Int) (f : Nat) (m : Machine W) :
    Machine W :=
  m.emit [Event.enqueue { startpoint with X := x, Y := y, F := f, g28 := true }]

/-- The function `SpecialMoveZ`. -/
def SpecialMoveZ {W : Type} (startpoint : TARGET) (z : Int) (f : Nat) (m : Machine W) :
    Machine W :=
  m.emit [Event.enqueue { startpoint with Z := z, F := f, g28 := true }]

/-- The function `SpecialMoveE`. -/
def SpecialMoveE {W : Type} (startpoint : TARGET) (e : Int) (f : Nat) (m : Machine W) :
    Machine W :=
  m.emit [Event.enqueue { startpoint with E := e, F := f, g28 := true }]

/-! ## Initial states and sample collaborators -/

/-- The zero-initialised `GCODE_COMMAND` (a C global without initialiser). -/
def GCODE_COMMAND.zero : GCODE_COMMAND :=
  { seen_G := false, seen_M := false, seen_X := false, seen_Y := false, seen_Z := false
    seen_E := false, seen_F := false, seen_S := false, seen_P := false, seen_N := false
    seen_checksum := false, seen_semi_comment := false, seen_parens_comment := false
    getting_string := false, option_relative := false, option_inches := false
    G := 0, M := 0, target := ⟨0, 0, 0, 0, 0, false⟩, S := 0, P := 0, N := 0, N_expected := 0
    checksum_read := 0, checksum_calculated := 0, chpos := 0
    filename := List.replicate 120 0 }

/-- The machine at program start with every global of this module zero, for given
per-axis scale factors (`x, y, z, e` steps per metre; the same order per inch). -/
def Machine.zero {W : Type} (w : W) (sm : Nat × Nat × Nat × Nat) (si : Int × Int × Int × Int) :
    Machine W :=
  { steps_per_m_x := sm.1, steps_per_m_y := sm.2.1, steps_per_m_z := sm.2.2.1
    steps_per_m_e := sm.2.2.2
    steps_per_in_x := si.1, steps_per_in_y := si.2.1, steps_per_in_z := si.2.2.1
    steps_per_in_e := si.2.2.2
    last_field := 0, read_digit := ⟨false, 0, 0⟩, next_target := GCODE_COMMAND.zero
    sd_writing_file := false, pLine := ⟨[], 0, false⟩, world := w, trace := [] }

/-- A freshly reset parser: the zero machine after the end-of-line reset. -/
def Machine.fresh {W : Type} (w : W) (sm : Nat × Nat × Nat × Nat) (si : Int × Int × Int × Int) :
    Machine W :=
  reset_variables (Machine.zero w sm si)

/-- A dispatcher that touches nothing and asks for the `ok` reply; storage that
accepts every write. -/
def Collaborators.quiet : Collaborators Unit :=
  { process_gcode_command := fun w nt sd => ⟨true, nt, sd, w⟩
    sd_write_to_file := fun w _ => (true, w)
    sd_close := fun w => w }

/-- The records passed to `process_gcode_command`, in call order. -/
def dispatched_records : List Event → List GCODE_COMMAND
  | [] => []
  | Event.process_gcode_command r :: es => r :: dispatched_records es
  | _ :: es => dispatched_records es

/-- The buffers passed to `sd_write_to_file`, in call order. -/
def storage_writes : List Event → List (List Nat)
  | [] => []
  | Event.sd_write_to_file d :: es => d :: storage_writes es
  | _ :: es => storage_writes es

/-! ## The reading of `decfloat_to_int` given in the specification -/

/-- The number of decimal digits to scale away: `exponent - 1` when a point was seen. -/
def decimal_digits (df : decfloat) : Nat :=
  if 0 < df.exponent then df.exponent - 1 else 0

/-- The specification's order of operations, before the conversion to 32 bits:
multiply, divide by the denominator, apply the sign, divide once by `10^digits`. -/
def scaled_value (df : decfloat) (multiplicand denominator : Int) : Int :=
  let r : Int := (df.mantissa : Int) * multiplicand
  let r := r.tdiv denominator
  let r := if df.sign then -r else r
  r.tdiv (10 ^ decimal_digits df)

/-- The bytes of an ASCII string. -/
def ascii (s : String) : List Nat := s.toList.map Char.toNat

/-- A caller's line buffer holding the given bytes, zero-padded to `MAX_LINE`. -/
def line_buffer (bytes : List Nat) : tLineBuffer :=
  ⟨bytes ++ List.replicate (120 - bytes.length) 0, bytes.length, false⟩

/-- The default command is armed and no `G` or `M` field is pending. -/
def default_G1 {W : Type} (m : Machine W) : Prop :=
  m.next_target.seen_G = true ∧ m.next_target.G = 1 ∧ m.next_target.seen_M = false
    ∧ m.last_field ≠ 71 ∧ m.last_field ≠ 77

/-- At most one command class is flagged, a flagged `M` goes with `G = 0`, and a
pending `G` (`M`) field goes with a clear `seen_M` (`seen_G`). -/
def gm_exclusive {W : Type} (m : Machine W) : Prop :=
  (m.last_field = 71 → m.next_target.seen_M = false)
    ∧ (m.last_field = 77 → m.next_target.seen_G = false)
    ∧ ¬ (m.next_target.seen_G = true ∧ m.next_target.seen_M = true)
    ∧ (m.next_target.seen_M = true → m.next_target.G = 0)

/-- A flagged `G` goes with `M = 0`. -/
def m_cleared {W : Type} (m : Machine W) : Prop :=
  m.next_target.seen_G = true → m.next_target.M = 0

/-- A pending `G` field goes with `M = 0`: the letter `G` has cleared `M` (line 287). -/
def pending_G_cleared {W : Type} (m : Machine W) : Prop :=
  m.last_field = 71 → m.next_target.M = 0

/-- Outside comments and filename capture: the condition of line 275 under which a
byte reaches the `switch`. -/
def outside_comment_and_capture {W : Type} (m : Machine W) : Prop :=
  m.next_target.seen_semi_comment = false ∧ m.next_target.seen_parens_comment = false
    ∧ m.next_target.getting_string = false

/-- Successive calls of `gcode_parse_line`, one per buffer. -/
def feed_buffers {W : Type} (env : Collaborators W) (cfg : Config) (m : Machine W)
    (buffers : List tLineBuffer) : Machine W :=
  buffers.foldl (fun m b => gcode_parse_line env cfg b m) m

/-- Lines 332-351 as a function of the accumulator alone: what the `switch` does to
`read_digit` for the byte `c` (`-`, `.`, a digit; any other byte leaves it). -/
def read_digit_step (c : Nat) (rd : decfloat) : decfloat :=
  if c = 45 then { sign := true, exponent := 0, mantissa := 0 }
  else if c = 46 then
    if rd.exponent = 0 then { rd with exponent := 1 } else rd
  else if 48 ≤ c ∧ c ≤ 57 then
    let mantissa := ((rd.mantissa <<< 3) + (rd.mantissa <<< 1) + (c - 48)) % 16777216
    let rd := { rd with mantissa := mantissa }
    if rd.exponent ≠ 0 then { rd with exponent := (rd.exponent + 1) % 128 } else rd
  else rd

/-- No field is pending only with a zero accumulator. -/
def idle_zero {W : Type} (m : Machine W) : Prop :=
  m.last_field = 0 → m.read_digit = ⟨false, 0, 0⟩

/-- The byte `c` is a sign, point or digit reaching the `switch` in state `m` while no
field is pending. -/
def stray_accumulation {W : Type} (c : Nat) (m : Machine W) : Prop :=
  m.last_field = 0 ∧ outside_comment_and_capture m ∧ (c = 45 ∨ c = 46 ∨ (48 ≤ c ∧ c ≤ 57))

/-- None of the bytes, fed in order from `m`, is a stray sign, point or digit. -/
def no_stray {W : Type} (env : Collaborators W) (cfg : Config) : Machine W → List Nat → Prop
  | _, [] => True
  | m, c :: bs => ¬ stray_accumulation c m ∧ no_stray env cfg (gcode_parse_char env cfg c m) bs

/-- The rational number an accumulator stands for: the signed mantissa with the
decimal point `decimal_digits` places from the right. -/
def literal_value (df : decfloat) : ℚ :=
  (if df.sign then -1 else 1) * (df.mantissa : ℚ) / (10 : ℚ) ^ decimal_digits df

/-- The exact value `decfloat_to_int` approximates: the literal times
`multiplicand / denominator`. -/
def exact_scaled (df : decfloat) (multiplicand denominator : Int) : ℚ :=
  (if df.sign then -1 else 1) * ((df.mantissa : ℚ) * (multiplicand : ℚ))
    / ((denominator : ℚ) * (10 : ℚ) ^ decimal_digits df)

/-- Truncation of a rational toward zero. -/
def truncate (q : ℚ) : Int := if 0 ≤ q then ⌊q⌋ else ⌈q⌉

/-- Filename capture is active with the cursor at `k`, no field pending, and the first
`k` bytes of the 120-byte array hold the byte `A`. -/
def capturing_at {W : Type} (k : Nat) (m : Machine W) : Prop :=
  m.next_target.getting_string = true ∧ m.last_field = 0 ∧ m.next_target.chpos = k
    ∧ m.next_target.filename.length = 120
    ∧ ∀ i, i < k → m.next_target.filename.getD i 0 = 65

/-- An `M23` or `M28` field is pending: committing it switches filename capture on. -/
def pending_filename_command {W : Type} (m : Machine W) : Prop :=
  m.last_field = 77 ∧ (m.read_digit.mantissa % 65536 = 23 ∨ m.read_digit.mantissa % 65536 = 28)

/-- The states in which a `;` opens (or continues) a semicolon comment: no parenthesis
comment is open, no filename is being captured, and no `M23`/`M28` field is pending. -/
def semicolon_starts_comment {W : Type} (m : Machine W) : Prop :=
  m.next_target.seen_parens_comment = false ∧ m.next_target.getting_string = false
    ∧ ¬ pending_filename_command m

/-- The record tested and routed by the end-of-line block when the bytes `body` and then
LF are fed from `m`: the value of `next_target` at line 363. -/
def record_at_end_of_line {W : Type} (env : Collaborators W) (cfg : Config) (m : Machine W)
    (body : List Nat) : GCODE_COMMAND :=
  (parse_byte cfg 10 (feed env cfg m body)).2.next_target

/-- The record a pending field settles into at the end of the line, with the running
checksum left out. -/
def settled_record {W : Type} (m : Machine W) : GCODE_COMMAND :=
  { (process_previous_field 10 m).next_target with checksum_calculated := 0 }

/-- The states inside a semicolon comment in which the rest of the line is skipped. -/
def inside_semicolon_comment {W : Type} (m : Machine W) : Prop :=
  m.next_target.seen_semi_comment = true ∧ semicolon_starts_comment m

/-- The caller's buffer for a line given as its bytes and its terminator byte. -/
def capture_buffer (l : List Nat × Nat) : tLineBuffer := line_buffer (l.1 ++ [l.2])

/-- A line of at most `MAX_LINE` bytes: no CR or LF before its terminator, which is one
CR or one LF. -/
def well_formed_line (l : List Nat × Nat) : Prop :=
  (∀ b ∈ l.1, b ≠ 10 ∧ b ≠ 13) ∧ (l.2 = 10 ∨ l.2 = 13) ∧ l.1.length < 120

/-- The record tested by the end-of-line block when `gcode_parse_line` parses the buffer
of the line `l` from `m`: the value of `next_target` at line 363. -/
def line_record {W : Type} (env : Collaborators W) (cfg : Config) (m : Machine W)
    (l : List Nat × Nat) : GCODE_COMMAND :=
  (parse_byte cfg l.2 (feed env cfg { m with pLine := capture_buffer l } l.1)).2.next_target

/-- A data line: its record passes the line-number and checksum tests and carries no
`M` code in 20..29. -/
def data_line {W : Type} (env : Collaborators W) (cfg : Config) (m : Machine W)
    (l : List Nat × Nat) : Prop :=
  well_formed_line l
    ∧ line_number_ok cfg (line_record env cfg m l) = true
    ∧ checksum_ok cfg (line_record env cfg m l) = true
    ∧ ¬ ((line_record env cfg m l).seen_M = true
          ∧ 20 ≤ (line_record env cfg m l).M ∧ (line_record env cfg m l).M ≤ 29)

/-- An `M29` line: its record passes both tests and carries `M29`. -/
def closing_line {W : Type} (env : Collaborators W) (cfg : Config) (m : Machine W)
    (l : List Nat × Nat) : Prop :=
  well_formed_line l
    ∧ line_number_ok cfg (line_record env cfg m l) = true
    ∧ checksum_ok cfg (line_record env cfg m l) = true
    ∧ (line_record env cfg m l).seen_M = true ∧ (line_record env cfg m l).M = 29

/-- Every line of the list is a data line in the state the lines before it leave. -/
def data_lines {W : Type} (env : Collaborators W) (cfg : Config) :
    Machine W → List (List Nat × Nat) → Prop
  | _, [] => True
  | m, l :: rest =>
    data_line env cfg m l ∧ data_lines env cfg (gcode_parse_line env cfg (capture_buffer l) m) rest

/-- The number of `Done saving file` replies in a trace. -/
def done_replies (tr : List Event) : Nat :=
  tr.count (Event.serial_writestr "Done saving file\r\n")

/-- A freshly reset parser in file-capture mode. -/
def Machine.capturing : Machine Unit :=
  { Machine.fresh () (1000, 0, 0, 0) (0, 0, 0, 0) with sd_writing_file := true }

/-! ## Truncating division -/

theorem tdiv_tdiv_nat (a : Int) (b c : Nat) :
    (a.tdiv (b : Int)).tdiv (c : Int) = a.tdiv ((b * c : Nat) : Int) := by
  obtain ⟨n, rfl | rfl⟩ := Int.eq_nat_or_neg a
  · rw [← Int.ofNat_tdiv, ← Int.ofNat_tdiv, ← Int.ofNat_tdiv, Nat.div_div_eq_div_mul]
  · rw [Int.neg_tdiv, Int.neg_tdiv, Int.neg_tdiv, ← Int.ofNat_tdiv, ← Int.ofNat_tdiv,
      ← Int.ofNat_tdiv, Nat.div_div_eq_div_mul]

theorem tdiv_tdiv_pow10 (a : Int) (i j : Nat) :
    (a.tdiv (10 ^ i)).tdiv (10 ^ j) = a.tdiv (10 ^ (i + j)) := by
  have h := tdiv_tdiv_nat a (10 ^ i) (10 ^ j)
  rw [pow_add]
  exact_mod_cast h

theorem exponent_loop_eq (r : Int) (q : Nat) :
    ∀ e, e < 5 → exponent_loop r (5 * q + e) = (r.tdiv (10 ^ (5 * q)), e) := by
  induction q generalizing r with
  | zero =>
    intro e he
    have h0 : 5 * 0 + e = e := by omega
    rw [h0]
    have h1 : r.tdiv (10 ^ (5 * 0)) = r := by simp
    rw [h1]
    interval_cases e <;> rfl
  | succ q ih =>
    intro e he
    have h0 : 5 * (q + 1) + e = (5 * q + e) + 5 := by omega
    rw [h0, exponent_loop, ih _ e he]
    have h := tdiv_tdiv_pow10 r 5 (5 * q)
    have h5 : (10 : Int) ^ 5 = 100000 := by norm_num
    rw [h5] at h
    rw [h]
    have h2 : 5 + 5 * q = 5 * (q + 1) := by omega
    rw [h2]

theorem decfloat_to_int_eq_scaled (df : decfloat) (k d : Int) :
    decfloat_to_int df k d = toInt32 (scaled_value df k d) := by
  have hk : (if k ≠ 1 then (df.mantissa : Int) * k else (df.mantissa : Int))
      = (df.mantissa : Int) * k := by
    by_cases h : k = 1 <;> simp [h]
  have hd : ∀ r : Int, (if d ≠ 1 then r.tdiv d else r) = r.tdiv d := by
    intro r
    by_cases h : d = 1 <;> simp [h]
  have he : (if df.exponent ≠ 0 then df.exponent - 1 else df.exponent) = decimal_digits df := by
    unfold decimal_digits
    by_cases h : df.exponent = 0
    · simp [h]
    · have : 0 < df.exponent := Nat.pos_of_ne_zero h
      simp [h, this]
  unfold decfloat_to_int scaled_value
  simp only [hk, hd, he]
  generalize (if df.sign = true then -((df.mantissa : Int) * k).tdiv d
    else ((df.mantissa : Int) * k).tdiv d) = r
  generalize decimal_digits df = n
  have hn : n = 5 * (n / 5) + n % 5 := (Nat.div_add_mod n 5).symm
  have hlt : n % 5 < 5 := Nat.mod_lt _ (by norm_num)
  rw [hn, exponent_loop_eq r (n / 5) (n % 5) hlt]
  simp only []
  congr 1
  generalize n / 5 = q at *
  generalize n % 5 = e at *
  interval_cases e
  · simp
  · simpa using tdiv_tdiv_pow10 r (5 * q) 1
  · simpa using tdiv_tdiv_pow10 r (5 * q) 2
  · simpa using tdiv_tdiv_pow10 r (5 * q) 3
  · simpa using tdiv_tdiv_pow10 r (5 * q) 4

/-- C1: for a 24-bit mantissa, a 7-bit exponent, 32-bit scale arguments and a non-zero
denominator, `decfloat_to_int` returns, converted to `int32_t`, the value obtained by
multiplying the mantissa by the multiplicand, dividing (truncating) by the denominator,
negating when the sign is set and dividing (truncating) once by `10^digits`, where
`digits` is `exponent - 1` when the exponent is positive and 0 otherwise: the loop of
divisions by 100000 followed by one division by 10, 100, 1000 or 10000 equals the single
division.  The product computed on the way fits the 64-bit accumulator. -/
theorem decfloat_to_int_order_of_operations (df : decfloat) (k d : Int)
    (hm : df.mantissa < 2 ^ 24) (_he : df.exponent < 2 ^ 7)
    (hk : -2 ^ 31 ≤ k ∧ k < 2 ^ 31) (_hd : -2 ^ 31 ≤ d ∧ d < 2 ^ 31) (_hd0 : d ≠ 0) :
    decfloat_to_int df k d
        = toInt32
            ((if df.sign then -(((df.mantissa : Int) * k).tdiv d)
              else ((df.mantissa : Int) * k).tdiv d).tdiv
              (10 ^ (if 0 < df.exponent then df.exponent - 1 else 0)))
      ∧ -2 ^ 63 < (df.mantissa : Int) * k ∧ (df.mantissa : Int) * k < 2 ^ 63 := by
  refine ⟨?_, ?_, ?_⟩
  · rw [decfloat_to_int_eq_scaled]
    rfl
  · have h1 : (0 : Int) ≤ df.mantissa := Int.ofNat_nonneg _
    have h2 : (df.mantissa : Int) < 2 ^ 24 := by exact_mod_cast hm
    nlinarith [hk.1, hk.2]
  · have h1 : (0 : Int) ≤ df.mantissa := Int.ofNat_nonneg _
    have h2 : (df.mantissa : Int) < 2 ^ 24 := by exact_mod_cast hm
    nlinarith [hk.1, hk.2]

/-- C1 at a concrete input: the accumulator of `-0.04567890` (sign set, mantissa
4567890, exponent 9) scaled by 1000/3 gives -15. -/
theorem decfloat_to_int_order_of_operations_witness :
    ((4567890 : Nat) < 2 ^ 24 ∧ (9 : Nat) < 2 ^ 7 ∧ (3 : Int) ≠ 0)
      ∧ decfloat_to_int ⟨true, 4567890, 9⟩ 1000 3 = -15 := by
  have h := decfloat_to_int_order_of_operations ⟨true, 4567890, 9⟩ 1000 3
    (by norm_num) (by norm_num) (by norm_num) (by norm_num) (by norm_num)
  refine ⟨by norm_num, ?_⟩
  rw [h.1]
  decide

/-! ## Frame lemmas for the phases of `gcode_parse_char` -/

theorem uppercase_eq (c : Nat) : uppercase c = if 97 ≤ c ∧ c ≤ 122 then c - 32 else c := by
  unfold uppercase
  split_ifs with h
  · obtain ⟨h1, h2⟩ := h
    interval_cases c <;> rfl
  · rfl

theorem checksum_step_target {W : Type} (c : Nat) (m : Machine W) :
    (checksum_step c m).next_target.target = m.next_target.target := by
  unfold checksum_step
  split_ifs <;> rfl

theorem capture_string_target {W : Type} (c : Nat) (m : Machine W) :
    (capture_string c m).next_target.target = m.next_target.target := by
  unfold capture_string
  simp only []
  split_ifs <;> rfl

theorem process_switch_target {W : Type} (c : Nat) (m : Machine W) :
    (process_switch c m).next_target.target = m.next_target.target := by
  unfold process_switch
  simp only [apply_ite Machine.next_target, apply_ite GCODE_COMMAND.target, ite_self]

theorem process_character_target {W : Type} (c : Nat) (m : Machine W) :
    (process_character c m).next_target.target = m.next_target.target := by
  unfold process_character
  simp only [apply_ite Machine.next_target, apply_ite GCODE_COMMAND.target,
    process_switch_target, ite_self]

theorem commit_field_checksum_step {W : Type} (c : Nat) (m : Machine W) :
    (commit_field (checksum_step c m)).target = (commit_field m).target := by
  unfold checksum_step
  split_ifs
  · unfold commit_field
    simp only [apply_ite GCODE_COMMAND.target]
  · rfl

theorem process_previous_field_target {W : Type} (u : Nat) (m : Machine W) :
    (process_previous_field u m).next_target.target
      = if m.last_field ≠ 0 ∧ ((65 ≤ u ∧ u ≤ 90) ∨ u = 42 ∨ u = 10 ∨ u = 13)
        then (commit_field m).target else m.next_target.target := by
  unfold process_previous_field
  split_ifs <;> simp_all

theorem parse_byte_target {W : Type} (cfg : Config) (c : Nat) (m : Machine W) :
    (parse_byte cfg c m).2.next_target.target
      = (process_previous_field (uppercase c) m).next_target.target := by
  unfold parse_byte
  cases cfg.ASTERISK_IN_CHECKSUM_INCLUDED
  · simp only [Bool.false_eq_true, if_false]
    rw [checksum_step_target, process_character_target, capture_string_target]
  · simp only [if_true]
    rw [process_character_target, capture_string_target, process_previous_field_target,
      process_previous_field_target, commit_field_checksum_step, checksum_step_target]
    have : (checksum_step c m).last_field = m.last_field := by
      unfold checksum_step; split_ifs <;> rfl
    rw [this]

/-- C2: when the byte fed is a letter (either case), `*`, LF or CR and an axis field is
pending, the record left by the byte has the axis slot of that field set to
`decfloat_to_int(value, steps_per_in_axis, 1)` in inches mode and to
`decfloat_to_int(value, steps_per_m_axis, 1000)` otherwise (the scale global converted
to the `int32_t` parameter), every other component of `target` being as before.
With `steps_per_m_x = 100000`, metric mode and a freshly reset parser, the bytes
`X12.5` and LF pass exactly one record to `process_gcode_command`, with `target.X = 1250`. -/
theorem axis_field_commit {W : Type} (cfg : Config) (c : Nat) (m : Machine W)
    (hc : (65 ≤ c ∧ c ≤ 90) ∨ (97 ≤ c ∧ c ≤ 122) ∨ c = 42 ∨ c = 10 ∨ c = 13) :
    (m.last_field = 88 →
        (parse_byte cfg c m).2.next_target.target
          = { m.next_target.target with
              X := if m.next_target.option_inches
                   then decfloat_to_int m.read_digit (toInt32 m.steps_per_in_x) 1
                   else decfloat_to_int m.read_digit (toInt32 m.steps_per_m_x) 1000 })
    ∧ (m.last_field = 89 →
        (parse_byte cfg c m).2.next_target.target
          = { m.next_target.target with
              Y := if m.next_target.option_inches
                   then decfloat_to_int m.read_digit (toInt32 m.steps_per_in_y) 1
                   else decfloat_to_int m.read_digit (toInt32 m.steps_per_m_y) 1000 })
    ∧ (m.last_field = 90 →
        (parse_byte cfg c m).2.next_target.target
          = { m.next_target.target with
              Z := if m.next_target.option_inches
                   then decfloat_to_int m.read_digit (toInt32 m.steps_per_in_z) 1
                   else decfloat_to_int m.read_digit (toInt32 m.steps_per_m_z) 1000 })
    ∧ (m.last_field = 69 →
        (parse_byte cfg c m).2.next_target.target
          = { m.next_target.target with
              E := if m.next_target.option_inches
                   then decfloat_to_int m.read_digit (toInt32 m.steps_per_in_e) 1
                   else decfloat_to_int m.read_digit (toInt32 m.steps_per_m_e) 1000 })
    ∧ (dispatched_records
          (feed Collaborators.quiet Config.source
            (Machine.fresh () (100000, 0, 0, 0) (0, 0, 0, 0)) (ascii "X12.5\n")).trace).map
        (fun r => r.target.X) = [1250] := by
  have hu : (65 ≤ uppercase c ∧ uppercase c ≤ 90) ∨ uppercase c = 42 ∨ uppercase c = 10
      ∨ uppercase c = 13 := by
    rw [uppercase_eq]
    split_ifs with h <;> omega
  have key : ∀ lf, lf ≠ 0 → m.last_field = lf →
      (parse_byte cfg c m).2.next_target.target = (commit_field m).target := by
    intro lf h0 hlf
    rw [parse_byte_target, process_previous_field_target, if_pos ⟨by rw [hlf]; exact h0, hu⟩]
  refine ⟨?_, ?_, ?_, ?_, ?_⟩
  · intro h
    rw [key 88 (by norm_num) h]
    unfold commit_field
    simp only [h]
    cases m.next_target.option_inches <;> simp
  · intro h
    rw [key 89 (by norm_num) h]
    unfold commit_field
    simp only [h]
    cases m.next_target.option_inches <;> simp
  · intro h
    rw [key 90 (by norm_num) h]
    unfold commit_field
    simp only [h]
    cases m.next_target.option_inches <;> simp
  · intro h
    rw [key 69 (by norm_num) h]
    unfold commit_field
    simp only [h]
    cases m.next_target.option_inches <;> simp
  · decide

/-- C2 at a concrete input: after the bytes `X12.5` in metric mode with
`steps_per_m_x = 100000`, a line feed commits `target.X = 1250` and leaves the other
components of `target` at 0. -/
theorem axis_field_commit_witness :
    ((10 : Nat) = 10)
      ∧ (parse_byte Config.source 10
          (feed Collaborators.quiet Config.source
            (Machine.fresh () (100000, 0, 0, 0) (0, 0, 0, 0)) (ascii "X12.5"))).2.next_target.target
        = ⟨1250, 0, 0, 0, 0, false⟩ := by
  refine ⟨rfl, ?_⟩
  rw [(axis_field_commit Config.source 10
    (feed Collaborators.quiet Config.source
      (Machine.fresh () (100000, 0, 0, 0) (0, 0, 0, 0)) (ascii "X12.5"))
    (Or.inr (Or.inr (Or.inr (Or.inl rfl))))).1 (by decide)]
  decide

/-- C3: the configuration of the source folds the byte to upper case before it reaches
the checksum.  From a freshly reset parser the line `g1*86` (86 is the exclusive-OR of
the bytes `g` and `1` as received) reaches its terminator with a running checksum of
118, the exclusive-OR of `G` and `1`; the line is refused with `Expected checksum 118`
and nothing is dispatched.  With `ASTERISK_IN_CHECKSUM_INCLUDED` defined the byte is
summed before the fold: the running checksum of `g1*` is then the exclusive-OR of the
three bytes as received. -/
theorem checksum_of_lowercase_line :
    (103 ^^^ 49 : Nat) = 86
      ∧ (71 ^^^ 49 : Nat) = 118
      ∧ (parse_byte Config.source 10
          (feed Collaborators.quiet Config.source
            (Machine.fresh () (0, 0, 0, 0) (0, 0, 0, 0)) (ascii "g1*86"))).2.next_target.checksum_calculated
          = 118
      ∧ (feed Collaborators.quiet Config.source
          (Machine.fresh () (0, 0, 0, 0) (0, 0, 0, 0)) (ascii "g1*86\n")).trace
          = [Event.serial_writestr "Expected checksum ", Event.serwrite_uint8 118,
             Event.serial_writestr "\r\n", Event.serial_writestr "rs ",
             Event.serwrite_uint8 0, Event.serial_writestr "\r\n"]
      ∧ (parse_byte ⟨true, false, false⟩ 10
          (feed Collaborators.quiet ⟨true, false, false⟩
            (Machine.fresh () (0, 0, 0, 0) (0, 0, 0, 0)) (ascii "g1*"))).2.next_target.checksum_calculated
          = 103 ^^^ 49 ^^^ 42 := by
  decide

/-! ## The end-of-line block -/

theorem uppercase_terminator (c : Nat) (hc : c = 10 ∨ c = 13) : uppercase c = c := by
  rcases hc with rfl | rfl <;> rfl

theorem gcode_parse_char_terminator {W : Type} (env : Collaborators W) (cfg : Config) (c : Nat)
    (m : Machine W) (hc : c = 10 ∨ c = 13) :
    gcode_parse_char env cfg c m = reset_variables (check_line env cfg (parse_byte cfg c m).2) := by
  have h1 : (parse_byte cfg c m).1 = c := uppercase_terminator c hc
  unfold gcode_parse_char end_of_line
  simp only [h1, hc, if_true]

theorem gcode_parse_char_inline {W : Type} (env : Collaborators W) (cfg : Config) (c : Nat)
    (m : Machine W) (hc : uppercase c ≠ 10 ∧ uppercase c ≠ 13) :
    gcode_parse_char env cfg c m = (parse_byte cfg c m).2 := by
  have h1 : (parse_byte cfg c m).1 = uppercase c := rfl
  unfold gcode_parse_char
  simp only [h1, hc, or_self, if_false]

theorem checksum_step_outside {W : Type} (c : Nat) (m : Machine W) :
    (checksum_step c m).trace = m.trace ∧ (checksum_step c m).world = m.world
      ∧ (checksum_step c m).sd_writing_file = m.sd_writing_file
      ∧ (checksum_step c m).pLine = m.pLine := by
  unfold checksum_step
  split_ifs <;> exact ⟨rfl, rfl, rfl, rfl⟩

theorem process_previous_field_outside {W : Type} (c : Nat) (m : Machine W) :
    (process_previous_field c m).trace = m.trace ∧ (process_previous_field c m).world = m.world
      ∧ (process_previous_field c m).sd_writing_file = m.sd_writing_file
      ∧ (process_previous_field c m).pLine = m.pLine := by
  unfold process_previous_field
  split_ifs <;> exact ⟨rfl, rfl, rfl, rfl⟩

theorem capture_string_outside {W : Type} (c : Nat) (m : Machine W) :
    (capture_string c m).trace = m.trace ∧ (capture_string c m).world = m.world
      ∧ (capture_string c m).sd_writing_file = m.sd_writing_file
      ∧ (capture_string c m).pLine = m.pLine := by
  unfold capture_string
  simp only [apply_ite Machine.trace, apply_ite Machine.world,
    apply_ite Machine.sd_writing_file, apply_ite Machine.pLine, ite_self, and_self]

theorem process_switch_outside {W : Type} (c : Nat) (m : Machine W) :
    (process_switch c m).trace = m.trace ∧ (process_switch c m).world = m.world
      ∧ (process_switch c m).sd_writing_file = m.sd_writing_file
      ∧ (process_switch c m).pLine = m.pLine := by
  unfold process_switch
  simp only [apply_ite Machine.trace, apply_ite Machine.world,
    apply_ite Machine.sd_writing_file, apply_ite Machine.pLine, ite_self, and_self]

theorem process_character_outside {W : Type} (c : Nat) (m : Machine W) :
    (process_character c m).trace = m.trace ∧ (process_character c m).world = m.world
      ∧ (process_character c m).sd_writing_file = m.sd_writing_file
      ∧ (process_character c m).pLine = m.pLine := by
  unfold process_character
  simp only [apply_ite Machine.trace, apply_ite Machine.world,
    apply_ite Machine.sd_writing_file, apply_ite Machine.pLine, process_switch_outside,
    ite_self, and_self]

/-- Before the end-of-line test a byte touches only the record, the pending field
and the accumulator. -/
theorem parse_byte_outside {W : Type} (cfg : Config) (c : Nat) (m : Machine W) :
    (parse_byte cfg c m).2.trace = m.trace ∧ (parse_byte cfg c m).2.world = m.world
      ∧ (parse_byte cfg c m).2.sd_writing_file = m.sd_writing_file
      ∧ (parse_byte cfg c m).2.pLine = m.pLine := by
  unfold parse_byte
  cases cfg.ASTERISK_IN_CHECKSUM_INCLUDED <;>
    simp only [Bool.false_eq_true, if_false, if_true, checksum_step_outside,
      process_character_outside, capture_string_outside, process_previous_field_outside,
      and_self]

theorem reset_variables_outside {W : Type} (m : Machine W) :
    (reset_variables m).trace = m.trace ∧ (reset_variables m).world = m.world
      ∧ (reset_variables m).sd_writing_file = m.sd_writing_file
      ∧ (reset_variables m).pLine = m.pLine :=
  ⟨rfl, rfl, rfl, rfl⟩

/-- The calls the router makes, by case. -/
theorem route_line_trace {W : Type} (env : Collaborators W) (m : Machine W) :
    ∃ evs, (route_line env m).trace = m.trace ++ evs
      ∧ (evs = [Event.sd_close, Event.serial_writestr "Done saving file\r\n"]
        ∨ evs = [Event.serial_writestr "ok\r\n"]
        ∨ (∃ d, evs = [Event.sd_write_to_file d, Event.serial_writestr "ok\r\n"])
        ∨ (∃ d, evs = [Event.sd_write_to_file d,
              Event.serial_writestr "error writing to file\r\n"])
        ∨ evs = [Event.process_gcode_command m.next_target, Event.serial_writestr "ok\r\n"]
        ∨ evs = [Event.process_gcode_command m.next_target]) := by
  unfold route_line
  simp only [Machine.emit]
  split_ifs <;> exact ⟨_, rfl, by simp⟩

/-- The router makes one or two calls; it never writes `rs ` or `Expected line number `. -/
theorem route_line_trace_shape {W : Type} (env : Collaborators W) (m : Machine W) :
    ∃ evs, (route_line env m).trace = m.trace ++ evs ∧ 1 ≤ evs.length ∧ evs.length ≤ 2
      ∧ Event.serial_writestr "rs " ∉ evs
      ∧ Event.serial_writestr "Expected line number " ∉ evs := by
  obtain ⟨evs, h, hcase⟩ := route_line_trace env m
  refine ⟨evs, h, ?_⟩
  rcases hcase with h | h | ⟨d, h⟩ | ⟨d, h⟩ | h | h <;> subst h <;> simp

/-- C4: with `REQUIRE_LINENUMBER` and `REQUIRE_CHECKSUM` both off, when a terminator
(LF or CR) is fed the line goes to the router if and only if the record then has no
checksum field seen or `checksum_read = checksum_calculated`.  Otherwise the calls
made for the line are exactly `Expected checksum `, the computed checksum, the line
end, and one resend request (`rs `, a number, the line end); `process_gcode_command`
and the storage functions are not called, the state outside the parser is untouched,
and the end-of-line reset is applied. -/
theorem checksum_acceptance {W : Type} (env : Collaborators W) (cfg : Config) (c : Nat)
    (m : Machine W) (hln : cfg.REQUIRE_LINENUMBER = false) (hcs : cfg.REQUIRE_CHECKSUM = false)
    (hc : c = 10 ∨ c = 13) :
    let r := (parse_byte cfg c m).2
    let ok := r.next_target.seen_checksum = false
      ∨ r.next_target.checksum_read = r.next_target.checksum_calculated
    let refusal := [Event.serial_writestr "Expected checksum ",
      Event.serwrite_uint8 r.next_target.checksum_calculated, Event.serial_writestr "\r\n",
      Event.serial_writestr "rs ", Event.serwrite_uint8 r.next_target.N,
      Event.serial_writestr "\r\n"]
    (check_line env cfg r = route_line env r ↔ ok)
      ∧ (ok → gcode_parse_char env cfg c m = reset_variables (route_line env r))
      ∧ (¬ ok →
          gcode_parse_char env cfg c m = reset_variables { r with trace := m.trace ++ refusal }
          ∧ (gcode_parse_char env cfg c m).trace = m.trace ++ refusal
          ∧ dispatched_records refusal = [] ∧ storage_writes refusal = []
          ∧ (gcode_parse_char env cfg c m).world = m.world
          ∧ (gcode_parse_char env cfg c m).sd_writing_file = m.sd_writing_file) := by
  intro r ok refusal
  have hr : r.trace = m.trace := (parse_byte_outside cfg c m).1
  have hline : line_number_ok cfg r.next_target = true := by
    unfold line_number_ok
    simp [hln]
  have hsum : checksum_ok cfg r.next_target = true ↔ ok := by
    unfold checksum_ok
    simp only [hcs, Bool.false_eq_true, if_false, Bool.or_eq_true, decide_eq_true_eq,
      Bool.not_eq_true']
    constructor
    · rintro (h | h)
      · exact Or.inr h.symm
      · exact Or.inl h
    · rintro (h | h)
      · exact Or.inr h
      · exact Or.inl h.symm
  have hyes : ok → check_line env cfg r = route_line env r := by
    intro h
    unfold check_line
    rw [hline, hsum.2 h]
    simp
  have hno : ¬ ok → check_line env cfg r = { r with trace := m.trace ++ refusal } := by
    intro h
    have h' : checksum_ok cfg r.next_target = false := by
      cases hb : checksum_ok cfg r.next_target
      · rfl
      · exact absurd (hsum.1 hb) h
    unfold check_line
    rw [hline, h']
    simp only [Bool.false_eq_true, if_false, if_true, request_resend, Machine.emit]
    rw [hr]
    simp [refusal]
  refine ⟨⟨?_, hyes⟩, ?_, ?_⟩
  · intro heq
    by_contra h
    obtain ⟨evs, he, _, h2, _⟩ := route_line_trace_shape env r
    have h3 := congrArg (fun x => x.trace.length) heq
    simp only [hno h, he, hr, List.length_append] at h3
    simp [refusal] at h3
    omega
  · intro h
    rw [gcode_parse_char_terminator env cfg c m hc, hyes h]
  · intro h
    have hfull : gcode_parse_char env cfg c m
        = reset_variables { r with trace := m.trace ++ refusal } := by
      rw [gcode_parse_char_terminator env cfg c m hc, hno h]
    refine ⟨hfull, ?_, rfl, rfl, ?_, ?_⟩
    · rw [hfull]; rfl
    · rw [hfull]; exact (parse_byte_outside cfg c m).2.1
    · rw [hfull]; exact (parse_byte_outside cfg c m).2.2.1

/-- C4 at a concrete input: the source configuration, the line `N3*0` and a line feed. -/
theorem checksum_acceptance_witness :
    (Config.source.REQUIRE_LINENUMBER = false ∧ Config.source.REQUIRE_CHECKSUM = false
        ∧ ((10 : Nat) = 10 ∨ (10 : Nat) = 13))
      ∧ (gcode_parse_char Collaborators.quiet Config.source 10
          (feed Collaborators.quiet Config.source
            (Machine.fresh () (0, 0, 0, 0) (0, 0, 0, 0)) (ascii "N3*0"))).trace
        = [Event.serial_writestr "Expected checksum ", Event.serwrite_uint8 125,
           Event.serial_writestr "\r\n", Event.serial_writestr "rs ", Event.serwrite_uint8 3,
           Event.serial_writestr "\r\n"] := by
  refine ⟨⟨rfl, rfl, Or.inl rfl⟩, ?_⟩
  have h := (checksum_acceptance Collaborators.quiet Config.source 10
    (feed Collaborators.quiet Config.source
      (Machine.fresh () (0, 0, 0, 0) (0, 0, 0, 0)) (ascii "N3*0")) rfl rfl (Or.inl rfl)).2.2
    (by decide)
  rw [h.2.1]
  decide

/-! ## Line numbers -/

theorem commit_field_N_expected {W : Type} (m : Machine W) :
    (commit_field m).N_expected = m.next_target.N_expected := by
  unfold commit_field
  simp only [apply_ite GCODE_COMMAND.N_expected, ite_self]

/-- Before the end-of-line test a byte never changes `N_expected`. -/
theorem parse_byte_N_expected {W : Type} (cfg : Config) (c : Nat) (m : Machine W) :
    (parse_byte cfg c m).2.next_target.N_expected = m.next_target.N_expected := by
  have h1 : ∀ (b : Nat) (x : Machine W),
      (checksum_step b x).next_target.N_expected = x.next_target.N_expected := by
    intro b x
    unfold checksum_step
    simp only [apply_ite Machine.next_target, apply_ite GCODE_COMMAND.N_expected, ite_self]
  have h2 : ∀ (b : Nat) (x : Machine W),
      (process_previous_field b x).next_target.N_expected = x.next_target.N_expected := by
    intro b x
    unfold process_previous_field
    simp only [apply_ite Machine.next_target, apply_ite GCODE_COMMAND.N_expected,
      commit_field_N_expected, ite_self]
  have h3 : ∀ (b : Nat) (x : Machine W),
      (capture_string b x).next_target.N_expected = x.next_target.N_expected := by
    intro b x
    unfold capture_string
    simp only [apply_ite Machine.next_target, apply_ite GCODE_COMMAND.N_expected, ite_self]
  have h4 : ∀ (b : Nat) (x : Machine W),
      (process_switch b x).next_target.N_expected = x.next_target.N_expected := by
    intro b x
    unfold process_switch
    simp only [apply_ite Machine.next_target, apply_ite GCODE_COMMAND.N_expected, ite_self]
  have h5 : ∀ (b : Nat) (x : Machine W),
      (process_character b x).next_target.N_expected = x.next_target.N_expected := by
    intro b x
    unfold process_character
    simp only [apply_ite Machine.next_target, apply_ite GCODE_COMMAND.N_expected, h4, ite_self]
  unfold parse_byte
  cases cfg.ASTERISK_IN_CHECKSUM_INCLUDED <;>
    simp only [Bool.false_eq_true, if_false, if_true, h1, h2, h3, h5]

/-- C5, as stated, fails: with `REQUIRE_LINENUMBER` defined and `N_expected = 5` (left
by the accepted line `N4`), the line `N7` is not refused.  It is dispatched like the
line before it, no `Expected line number ` is written, and `N_expected` becomes 8. -/
theorem line_number_gap_is_accepted :
    (feed Collaborators.quiet ⟨false, true, false⟩
        (Machine.zero () (0, 0, 0, 0) (0, 0, 0, 0)) (ascii "N4\n")).next_target.N_expected = 5
      ∧ (dispatched_records
          (feed Collaborators.quiet ⟨false, true, false⟩
            (Machine.zero () (0, 0, 0, 0) (0, 0, 0, 0)) (ascii "N4\nN7\n")).trace).map
          (fun r => r.N) = [4, 7]
      ∧ Event.serial_writestr "Expected line number " ∉
          (feed Collaborators.quiet ⟨false, true, false⟩
            (Machine.zero () (0, 0, 0, 0) (0, 0, 0, 0)) (ascii "N4\nN7\n")).trace
      ∧ (feed Collaborators.quiet ⟨false, true, false⟩
          (Machine.zero () (0, 0, 0, 0) (0, 0, 0, 0)) (ascii "N4\nN7\n")).next_target.N_expected
          = 8 := by
  decide

/-- C5, amended: with `REQUIRE_LINENUMBER` defined, a line reaching its terminator is
refused for its line number exactly when the record has no `N` field seen or an `N`
below `N_expected`.  The calls made are then `Expected line number `, `N_expected`,
the line end and one resend request; nothing is dispatched or stored, `N_expected`
keeps the value it had before the byte, and the end-of-line reset is applied.  A line
whose `N` is at least `N_expected` (a gap included) is not refused for its number. -/
theorem line_number_enforcement {W : Type} (env : Collaborators W) (cfg : Config) (c : Nat)
    (m : Machine W) (hln : cfg.REQUIRE_LINENUMBER = true) (hc : c = 10 ∨ c = 13) :
    let r := (parse_byte cfg c m).2
    let low := r.next_target.seen_N = false ∨ r.next_target.N < r.next_target.N_expected
    let refusal := [Event.serial_writestr "Expected line number ",
      Event.serwrite_uint32 r.next_target.N_expected, Event.serial_writestr "\r\n",
      Event.serial_writestr "rs ", Event.serwrite_uint8 r.next_target.N,
      Event.serial_writestr "\r\n"]
    (low →
        gcode_parse_char env cfg c m = reset_variables { r with trace := m.trace ++ refusal }
        ∧ (gcode_parse_char env cfg c m).trace = m.trace ++ refusal
        ∧ r.next_target.N_expected = m.next_target.N_expected
        ∧ dispatched_records refusal = [] ∧ storage_writes refusal = []
        ∧ (gcode_parse_char env cfg c m).next_target.N_expected = m.next_target.N_expected
        ∧ (gcode_parse_char env cfg c m).world = m.world)
      ∧ (¬ low →
          ∃ evs, (gcode_parse_char env cfg c m).trace = m.trace ++ evs
            ∧ Event.serial_writestr "Expected line number " ∉ evs) := by
  intro r low refusal
  have hr : r.trace = m.trace := (parse_byte_outside cfg c m).1
  have hline : line_number_ok cfg r.next_target = true ↔ ¬ low := by
    unfold line_number_ok
    simp only [hln, if_true, Bool.and_eq_true, decide_eq_true_eq, low]
    cases r.next_target.seen_N <;> simp
  constructor
  · intro h
    have h' : line_number_ok cfg r.next_target = false := by
      cases hb : line_number_ok cfg r.next_target
      · rfl
      · exact absurd h (hline.1 hb)
    have hcheck : check_line env cfg r = { r with trace := m.trace ++ refusal } := by
      unfold check_line
      rw [h']
      simp only [Bool.false_eq_true, if_false, request_resend, Machine.emit]
      rw [hr]
      simp [refusal]
    have hfull : gcode_parse_char env cfg c m
        = reset_variables { r with trace := m.trace ++ refusal } := by
      rw [gcode_parse_char_terminator env cfg c m hc, hcheck]
    have hN : r.next_target.N_expected = m.next_target.N_expected :=
      parse_byte_N_expected cfg c m
    refine ⟨hfull, ?_, hN, rfl, rfl, ?_, ?_⟩
    · rw [hfull]; rfl
    · rw [hfull, ← hN]
      unfold reset_variables
      simp only [apply_ite GCODE_COMMAND.N_expected, ite_self]
    · rw [hfull]; exact (parse_byte_outside cfg c m).2.1
  · intro h
    rw [gcode_parse_char_terminator env cfg c m hc]
    rw [(reset_variables_outside _).1]
    unfold check_line
    rw [hline.2 h]
    simp only [if_true]
    by_cases hs : checksum_ok cfg r.next_target = true
    · rw [if_pos hs]
      obtain ⟨evs, he, _, _, _, h5⟩ := route_line_trace_shape env r
      exact ⟨evs, by rw [he, hr], h5⟩
    · rw [if_neg hs]
      refine ⟨[Event.serial_writestr "Expected checksum ",
        Event.serwrite_uint8 r.next_target.checksum_calculated, Event.serial_writestr "\r\n",
        Event.serial_writestr "rs ", Event.serwrite_uint8 r.next_target.N,
        Event.serial_writestr "\r\n"], ?_, ?_⟩
      · simp only [request_resend, Machine.emit, List.append_assoc]
        rw [hr]
        rfl
      · simp

/-- C5, amended, at a concrete input: `N_expected = 5` after the line `N4`; the line
`N3` is refused with `Expected line number 5` and `N_expected` stays 5. -/
theorem line_number_enforcement_witness :
    ((⟨false, true, false⟩ : Config).REQUIRE_LINENUMBER = true
        ∧ ((10 : Nat) = 10 ∨ (10 : Nat) = 13))
      ∧ (gcode_parse_char Collaborators.quiet ⟨false, true, false⟩ 10
          (feed Collaborators.quiet ⟨false, true, false⟩
            (Machine.zero () (0, 0, 0, 0) (0, 0, 0, 0)) (ascii "N4\nN3"))).trace
        = (feed Collaborators.quiet ⟨false, true, false⟩
            (Machine.zero () (0, 0, 0, 0) (0, 0, 0, 0)) (ascii "N4\nN3")).trace
          ++ [Event.serial_writestr "Expected line number ", Event.serwrite_uint32 5,
              Event.serial_writestr "\r\n", Event.serial_writestr "rs ",
              Event.serwrite_uint8 3, Event.serial_writestr "\r\n"]
      ∧ (gcode_parse_char Collaborators.quiet ⟨false, true, false⟩ 10
          (feed Collaborators.quiet ⟨false, true, false⟩
            (Machine.zero () (0, 0, 0, 0) (0, 0, 0, 0)) (ascii "N4\nN3"))).next_target.N_expected
        = 5 := by
  have h := (line_number_enforcement Collaborators.quiet ⟨false, true, false⟩ 10
    (feed Collaborators.quiet ⟨false, true, false⟩
      (Machine.zero () (0, 0, 0, 0) (0, 0, 0, 0)) (ascii "N4\nN3")) rfl (Or.inl rfl)).1
    (by decide)
  refine ⟨⟨rfl, Or.inl rfl⟩, ?_, ?_⟩
  · rw [h.2.1]
    decide
  · rw [h.2.2.2.2.2.1]
    decide

/-- C6: in file-capture mode an accepted, numbered line does not advance `N_expected`.
The buffer `N5 G1 X1` + LF parsed with `sd_writing_file` set is written to storage
and acknowledged, and `N_expected` is still 0 afterwards (also with `REQUIRE_LINENUMBER`
defined); the same buffer in execution mode leaves `N_expected = 6`. -/
theorem line_number_not_advanced_in_file_capture :
    (gcode_parse_line Collaborators.quiet Config.source (line_buffer (ascii "N5 G1 X1\n"))
        { Machine.fresh () (0, 0, 0, 0) (0, 0, 0, 0) with sd_writing_file := true }).trace
        = [Event.sd_write_to_file (ascii "N5 G1 X1\n"), Event.serial_writestr "ok\r\n"]
      ∧ (gcode_parse_line Collaborators.quiet Config.source (line_buffer (ascii "N5 G1 X1\n"))
          { Machine.fresh () (0, 0, 0, 0) (0, 0, 0, 0) with
            sd_writing_file := true }).next_target.N_expected = 0
      ∧ (gcode_parse_line Collaborators.quiet ⟨false, true, false⟩
          (line_buffer (ascii "N5 G1 X1\n"))
          { Machine.fresh () (0, 0, 0, 0) (0, 0, 0, 0) with
            sd_writing_file := true }).next_target.N_expected = 0
      ∧ (gcode_parse_line Collaborators.quiet Config.source (line_buffer (ascii "N5 G1 X1\n"))
          (Machine.fresh () (0, 0, 0, 0) (0, 0, 0, 0))).next_target.N_expected = 6 := by
  decide

/-- C7, as stated, fails: the number after `rs ` is the record's `N`, not `N_expected`.
In the source configuration the line `N3*0` (wrong checksum) is answered `rs 3` while
`N_expected` is 0; with `REQUIRE_LINENUMBER` defined and `N_expected = 5`, the line `N3`
is answered `Expected line number 5` and `rs 3`. -/
theorem resend_request_carries_N_not_N_expected :
    (feed Collaborators.quiet Config.source
        (Machine.zero () (0, 0, 0, 0) (0, 0, 0, 0)) (ascii "N3*0\n")).trace
        = [Event.serial_writestr "Expected checksum ", Event.serwrite_uint8 125,
           Event.serial_writestr "\r\n", Event.serial_writestr "rs ", Event.serwrite_uint8 3,
           Event.serial_writestr "\r\n"]
      ∧ (feed Collaborators.quiet Config.source
          (Machine.zero () (0, 0, 0, 0) (0, 0, 0, 0)) (ascii "N3*0\n")).next_target.N_expected
          = 0
      ∧ (feed Collaborators.quiet ⟨false, true, false⟩
          (Machine.zero () (0, 0, 0, 0) (0, 0, 0, 0)) (ascii "N4\nN3\n")).trace.drop 2
          = [Event.serial_writestr "Expected line number ", Event.serwrite_uint32 5,
              Event.serial_writestr "\r\n", Event.serial_writestr "rs ",
              Event.serwrite_uint8 3, Event.serial_writestr "\r\n"]
      ∧ (feed Collaborators.quiet ⟨false, true, false⟩
          (Machine.zero () (0, 0, 0, 0) (0, 0, 0, 0)) (ascii "N4\nN3\n")).next_target.N_expected
          = 5 := by
  decide

/-- C7, amended: every resend request written by `gcode_parse_char`, whether caused by a
checksum mismatch or by a line-number failure, carries the line number `N` of the record
under test (`next_target.N`), not `N_expected`.  The calls made for one byte are either
free of `rs `, or they are a refusal (`Expected checksum ` or `Expected line number `
with its value) followed by `rs `, `N` and the line end. -/
theorem resend_request_carries_N {W : Type} (env : Collaborators W) (cfg : Config) (c : Nat)
    (m : Machine W) :
    ∃ evs, (gcode_parse_char env cfg c m).trace = m.trace ++ evs
      ∧ (Event.serial_writestr "rs " ∉ evs
        ∨ evs = [Event.serial_writestr "Expected checksum ",
              Event.serwrite_uint8 (parse_byte cfg c m).2.next_target.checksum_calculated,
              Event.serial_writestr "\r\n", Event.serial_writestr "rs ",
              Event.serwrite_uint8 (parse_byte cfg c m).2.next_target.N,
              Event.serial_writestr "\r\n"]
        ∨ evs = [Event.serial_writestr "Expected line number ",
              Event.serwrite_uint32 (parse_byte cfg c m).2.next_target.N_expected,
              Event.serial_writestr "\r\n", Event.serial_writestr "rs ",
              Event.serwrite_uint8 (parse_byte cfg c m).2.next_target.N,
              Event.serial_writestr "\r\n"]) := by
  have hr : (parse_byte cfg c m).2.trace = m.trace := (parse_byte_outside cfg c m).1
  unfold gcode_parse_char
  simp only []
  split_ifs with hterm
  · unfold end_of_line
    rw [(reset_variables_outside _).1]
    unfold check_line
    split_ifs with h1 h2
    · obtain ⟨evs, he, _, _, h4, _⟩ := route_line_trace_shape env (parse_byte cfg c m).2
      exact ⟨evs, by rw [he, hr], Or.inl h4⟩
    · refine ⟨_, ?_, Or.inr (Or.inl rfl)⟩
      simp only [request_resend, Machine.emit, List.append_assoc]
      rw [hr]
      rfl
    · refine ⟨_, ?_, Or.inr (Or.inr rfl)⟩
      simp only [request_resend, Machine.emit, List.append_assoc]
      rw [hr]
      rfl
  · exact ⟨[], by rw [hr]; simp, Or.inl (by simp)⟩

/-! ## The end-of-line reset -/

/-- The four command-class fields after a commit. -/
theorem commit_field_class {W : Type} (m : Machine W) :
    (commit_field m).seen_G = m.next_target.seen_G
      ∧ (commit_field m).seen_M = m.next_target.seen_M
      ∧ (commit_field m).G
          = (if m.last_field = 71 then m.read_digit.mantissa % 256 else m.next_target.G)
      ∧ (commit_field m).M
          = (if m.last_field = 71 then m.next_target.M
             else if m.last_field = 77 then m.read_digit.mantissa % 65536
             else m.next_target.M) := by
  unfold commit_field
  simp only [apply_ite GCODE_COMMAND.seen_G, apply_ite GCODE_COMMAND.seen_M,
    apply_ite GCODE_COMMAND.G, apply_ite GCODE_COMMAND.M, ite_self, and_self, true_and]

/-- The command-class fields and the pending field after the `switch`. -/
theorem process_switch_class {W : Type} (c : Nat) (m : Machine W) :
    (process_switch c m).last_field = m.last_field
      ∧ (process_switch c m).next_target.seen_G
          = (if c = 71 then true else if c = 77 then false else m.next_target.seen_G)
      ∧ (process_switch c m).next_target.seen_M
          = (if c = 71 then false else if c = 77 then true else m.next_target.seen_M)
      ∧ (process_switch c m).next_target.G
          = (if c = 71 then m.next_target.G else if c = 77 then 0 else m.next_target.G)
      ∧ (process_switch c m).next_target.M = (if c = 71 then 0 else m.next_target.M) := by
  unfold process_switch
  simp only [apply_ite Machine.last_field, apply_ite Machine.next_target,
    apply_ite GCODE_COMMAND.seen_G, apply_ite GCODE_COMMAND.seen_M,
    apply_ite GCODE_COMMAND.G, apply_ite GCODE_COMMAND.M, ite_self, and_self, true_and]

theorem checksum_step_class {W : Type} (c : Nat) (m : Machine W) :
    (checksum_step c m).last_field = m.last_field
      ∧ (checksum_step c m).next_target.seen_G = m.next_target.seen_G
      ∧ (checksum_step c m).next_target.seen_M = m.next_target.seen_M
      ∧ (checksum_step c m).next_target.G = m.next_target.G
      ∧ (checksum_step c m).next_target.M = m.next_target.M := by
  unfold checksum_step
  simp only [apply_ite Machine.last_field, apply_ite Machine.next_target,
    apply_ite GCODE_COMMAND.seen_G, apply_ite GCODE_COMMAND.seen_M,
    apply_ite GCODE_COMMAND.G, apply_ite GCODE_COMMAND.M, ite_self, and_self]

theorem capture_string_class {W : Type} (c : Nat) (m : Machine W) :
    (capture_string c m).last_field = m.last_field
      ∧ (capture_string c m).next_target.seen_G = m.next_target.seen_G
      ∧ (capture_string c m).next_target.seen_M = m.next_target.seen_M
      ∧ (capture_string c m).next_target.G = m.next_target.G
      ∧ (capture_string c m).next_target.M = m.next_target.M := by
  unfold capture_string
  simp only [apply_ite Machine.last_field, apply_ite Machine.next_target,
    apply_ite GCODE_COMMAND.seen_G, apply_ite GCODE_COMMAND.seen_M,
    apply_ite GCODE_COMMAND.G, apply_ite GCODE_COMMAND.M, ite_self, and_self]

theorem process_previous_field_class {W : Type} (u : Nat) (m : Machine W) :
    ((process_previous_field u m).last_field = m.last_field
        ∨ (process_previous_field u m).last_field = 0)
      ∧ (process_previous_field u m).next_target.seen_G = m.next_target.seen_G
      ∧ (process_previous_field u m).next_target.seen_M = m.next_target.seen_M
      ∧ ((process_previous_field u m).next_target.G = m.next_target.G ∨ m.last_field = 71)
      ∧ ((process_previous_field u m).next_target.M = m.next_target.M ∨ m.last_field = 77) := by
  unfold process_previous_field
  split_ifs with h1 h2
  · have h := commit_field_class m
    refine ⟨Or.inr rfl, h.1, h.2.1, ?_, ?_⟩
    · by_cases hl : m.last_field = 71
      · exact Or.inr hl
      · refine Or.inl ?_
        show (commit_field m).G = _
        rw [h.2.2.1, if_neg hl]
    · by_cases hl : m.last_field = 77
      · exact Or.inr hl
      · refine Or.inl ?_
        show (commit_field m).M = _
        rw [h.2.2.2]
        split_ifs <;> rfl
  · exact ⟨Or.inl rfl, rfl, rfl, Or.inl rfl, Or.inl rfl⟩
  · exact ⟨Or.inl rfl, rfl, rfl, Or.inl rfl, Or.inl rfl⟩

theorem process_character_class {W : Type} (c : Nat) (m : Machine W) :
    ((process_character c m).next_target.seen_G = m.next_target.seen_G
        ∧ (process_character c m).next_target.seen_M = m.next_target.seen_M
        ∧ (process_character c m).next_target.G = m.next_target.G
        ∧ (process_character c m).next_target.M = m.next_target.M
        ∧ ((process_character c m).last_field = m.last_field
          ∨ ((process_character c m).last_field = c ∧ c ≠ 71 ∧ c ≠ 77)))
      ∨ (c = 71 ∧ (process_character c m).next_target.seen_G = true
        ∧ (process_character c m).next_target.seen_M = false
        ∧ (process_character c m).next_target.G = m.next_target.G
        ∧ (process_character c m).next_target.M = 0
        ∧ (process_character c m).last_field = 71)
      ∨ (c = 77 ∧ (process_character c m).next_target.seen_G = false
        ∧ (process_character c m).next_target.seen_M = true
        ∧ (process_character c m).next_target.G = 0
        ∧ (process_character c m).next_target.M = m.next_target.M
        ∧ (process_character c m).last_field = 77) := by
  unfold process_character
  simp only []
  split_ifs with h1 h2 h3
  · have h := process_switch_class c { m with last_field := c }
    rw [h.1, h.2.1, h.2.2.1, h.2.2.2.1, h.2.2.2.2]
    by_cases h71 : c = 71
    · subst h71; simp
    · by_cases h77 : c = 77
      · subst h77; simp
      · simp [h71, h77]
  · have h := process_switch_class c m
    rw [h.1, h.2.1, h.2.2.1, h.2.2.2.1, h.2.2.2.2]
    have h71 : c ≠ 71 := by omega
    have h77 : c ≠ 77 := by omega
    simp [h71, h77]
  · exact Or.inl ⟨rfl, rfl, rfl, rfl, Or.inl rfl⟩
  · exact Or.inl ⟨rfl, rfl, rfl, rfl, Or.inl rfl⟩

/-! ### The default `G1` within a line -/

theorem default_G1_of_class {W : Type} (m x : Machine W) (h : default_G1 m)
    (h1 : x.next_target.seen_G = m.next_target.seen_G)
    (h2 : x.next_target.seen_M = m.next_target.seen_M)
    (h3 : x.next_target.G = m.next_target.G)
    (h4 : x.last_field ≠ 71 ∧ x.last_field ≠ 77) : default_G1 x := by
  unfold default_G1 at *
  rw [h1, h2, h3]
  exact ⟨h.1, h.2.1, h.2.2.1, h4.1, h4.2⟩

/-- A byte other than `G`, `g`, `M`, `m` keeps the default command armed. -/
theorem parse_byte_default_G1 {W : Type} (cfg : Config) (c : Nat) (m : Machine W)
    (h : default_G1 m) (hc : c ≠ 71 ∧ c ≠ 103 ∧ c ≠ 77 ∧ c ≠ 109) :
    default_G1 (parse_byte cfg c m).2 := by
  have hu : uppercase c ≠ 71 ∧ uppercase c ≠ 77 := by
    rw [uppercase_eq]
    split_ifs with h0 <;> omega
  have s1 : ∀ (b : Nat) (x : Machine W), default_G1 x → default_G1 (checksum_step b x) := by
    intro b x hx
    have k := checksum_step_class b x
    exact default_G1_of_class x _ hx k.2.1 k.2.2.1 k.2.2.2.1 (by rw [k.1]; exact ⟨hx.2.2.2.1, hx.2.2.2.2⟩)
  have s2 : ∀ (b : Nat) (x : Machine W), default_G1 x →
      default_G1 (process_previous_field b x) := by
    intro b x hx
    have k := process_previous_field_class b x
    have hG : (process_previous_field b x).next_target.G = x.next_target.G := by
      rcases k.2.2.2.1 with e | e
      · exact e
      · exact absurd e hx.2.2.2.1
    refine default_G1_of_class x _ hx k.2.1 k.2.2.1 hG ?_
    rcases k.1 with e | e <;> rw [e]
    · exact ⟨hx.2.2.2.1, hx.2.2.2.2⟩
    · exact ⟨by norm_num, by norm_num⟩
  have s3 : ∀ (b : Nat) (x : Machine W), default_G1 x → default_G1 (capture_string b x) := by
    intro b x hx
    have k := capture_string_class b x
    exact default_G1_of_class x _ hx k.2.1 k.2.2.1 k.2.2.2.1 (by rw [k.1]; exact ⟨hx.2.2.2.1, hx.2.2.2.2⟩)
  have s4 : ∀ (x : Machine W), default_G1 x → default_G1 (process_character (uppercase c) x) := by
    intro x hx
    rcases process_character_class (uppercase c) x with k | k | k
    · refine default_G1_of_class x _ hx k.1 k.2.1 k.2.2.1 ?_
      rcases k.2.2.2.2 with e | e
      · rw [e]; exact ⟨hx.2.2.2.1, hx.2.2.2.2⟩
      · rw [e.1]; exact hu
    · exact absurd k.1 hu.1
    · exact absurd k.1 hu.2
  unfold parse_byte
  cases cfg.ASTERISK_IN_CHECKSUM_INCLUDED
  · simp only [Bool.false_eq_true, if_false]
    exact s1 _ _ (s4 _ (s3 _ _ (s2 _ _ h)))
  · simp only [if_true]
    exact s4 _ (s3 _ _ (s2 _ _ (s1 _ _ h)))

theorem reset_variables_default_G1 {W : Type} (m : Machine W) :
    default_G1 (reset_variables m) := by
  unfold default_G1 reset_variables
  simp only [apply_ite GCODE_COMMAND.seen_G, apply_ite GCODE_COMMAND.G,
    apply_ite GCODE_COMMAND.seen_M, ite_self]
  exact ⟨trivial, trivial, trivial, by norm_num, by norm_num⟩

theorem feed_append {W : Type} (env : Collaborators W) (cfg : Config) (m : Machine W)
    (a b : List Nat) : feed env cfg m (a ++ b) = feed env cfg (feed env cfg m a) b := by
  unfold feed
  rw [List.foldl_append]

theorem feed_cons {W : Type} (env : Collaborators W) (cfg : Config) (m : Machine W)
    (c : Nat) (bs : List Nat) :
    feed env cfg m (c :: bs) = feed env cfg (gcode_parse_char env cfg c m) bs := rfl

theorem feed_default_G1 {W : Type} (env : Collaborators W) (cfg : Config) (bs : List Nat) :
    ∀ (m : Machine W), default_G1 m →
      (∀ b ∈ bs, b ≠ 10 ∧ b ≠ 13 ∧ b ≠ 71 ∧ b ≠ 103 ∧ b ≠ 77 ∧ b ≠ 109) →
      default_G1 (feed env cfg m bs) := by
  induction bs with
  | nil => intro m h _; exact h
  | cons b bs ih =>
    intro m h hb
    have hb0 := hb b (List.mem_cons_self _ _)
    rw [feed_cons]
    apply ih
    · have hu : uppercase b ≠ 10 ∧ uppercase b ≠ 13 := by
        rw [uppercase_eq]
        split_ifs with h0 <;> omega
      rw [gcode_parse_char_inline env cfg b m hu]
      exact parse_byte_default_G1 cfg b m h ⟨hb0.2.2.1, hb0.2.2.2.1, hb0.2.2.2.2.1, hb0.2.2.2.2.2⟩
    · intro b' hb'
      exact hb b' (List.mem_cons_of_mem _ hb')

/-- C9: after any terminated line `L1` (whatever it holds, whatever the tests and the
dispatcher did with it), a line `L2` without the bytes `G`, `g`, `M`, `m` reaches its
terminator with a record that has `seen_G = 1`, `G = 1` and `seen_M = 0`: this is the
record the end-of-line block tests and hands to the router. -/
theorem default_G1_rearmed {W : Type} (env : Collaborators W) (cfg : Config) (m : Machine W)
    (L1 L2 : List Nat) (t1 t2 : Nat) (ht1 : t1 = 10 ∨ t1 = 13) (ht2 : t2 = 10 ∨ t2 = 13)
    (hL2 : ∀ b ∈ L2, b ≠ 10 ∧ b ≠ 13 ∧ b ≠ 71 ∧ b ≠ 103 ∧ b ≠ 77 ∧ b ≠ 109) :
    let r := (parse_byte cfg t2 (feed env cfg m (L1 ++ [t1] ++ L2))).2
    (r.next_target.seen_G = true ∧ r.next_target.G = 1 ∧ r.next_target.seen_M = false)
      ∧ feed env cfg m (L1 ++ [t1] ++ L2 ++ [t2]) = reset_variables (check_line env cfg r) := by
  intro r
  have h1 : default_G1 (feed env cfg m (L1 ++ [t1])) := by
    rw [feed_append]
    show default_G1 (gcode_parse_char env cfg t1 _)
    rw [gcode_parse_char_terminator env cfg t1 _ ht1]
    exact reset_variables_default_G1 _
  have h2 : default_G1 (feed env cfg m (L1 ++ [t1] ++ L2)) := by
    rw [feed_append]
    exact feed_default_G1 env cfg L2 _ h1 hL2
  have h3 : default_G1 r := by
    apply parse_byte_default_G1 cfg t2 _ h2
    omega
  refine ⟨⟨h3.1, h3.2.1, h3.2.2.1⟩, ?_⟩
  rw [feed_append]
  show gcode_parse_char env cfg t2 _ = _
  rw [gcode_parse_char_terminator env cfg t2 _ ht2]

set_option maxRecDepth 8000 in
/-- C9 at a concrete input: after the line `M104 S200`, the line `X2` is dispatched
with `seen_G = 1`, `G = 1`, `seen_M = 0`. -/
theorem default_G1_rearmed_witness :
    (((10 : Nat) = 10 ∨ (10 : Nat) = 13)
        ∧ ∀ b ∈ ascii "X2", b ≠ 10 ∧ b ≠ 13 ∧ b ≠ 71 ∧ b ≠ 103 ∧ b ≠ 77 ∧ b ≠ 109)
      ∧ (dispatched_records
          (feed Collaborators.quiet Config.source (Machine.zero () (1000, 0, 0, 0) (0, 0, 0, 0))
            (ascii "M104 S200" ++ [10] ++ ascii "X2" ++ [10])).trace).map
          (fun r => (r.seen_G, r.G, r.seen_M, r.M)) = [(false, 0, true, 104), (true, 1, false, 104)]
      ∧ (parse_byte Config.source 10
          (feed Collaborators.quiet Config.source (Machine.zero () (1000, 0, 0, 0) (0, 0, 0, 0))
            (ascii "M104 S200" ++ [10] ++ ascii "X2"))).2.next_target.G = 1 := by
  have h := default_G1_rearmed Collaborators.quiet Config.source
    (Machine.zero () (1000, 0, 0, 0) (0, 0, 0, 0)) (ascii "M104 S200") (ascii "X2") 10 10
    (Or.inl rfl) (Or.inl rfl) (by decide)
  exact ⟨⟨Or.inl rfl, by decide⟩, by decide, h.1.2.1⟩

/-! ### Exclusiveness of `G` and `M` -/

theorem gm_exclusive_step {W : Type} (m x : Machine W) (h : gm_exclusive m)
    (hl : x.last_field = m.last_field ∨ (x.last_field ≠ 71 ∧ x.last_field ≠ 77))
    (h1 : x.next_target.seen_G = m.next_target.seen_G)
    (h2 : x.next_target.seen_M = m.next_target.seen_M)
    (h3 : x.next_target.G = m.next_target.G ∨ m.last_field = 71) : gm_exclusive x := by
  unfold gm_exclusive at *
  rw [h1, h2]
  obtain ⟨a, b, c, d⟩ := h
  refine ⟨?_, ?_, c, ?_⟩
  · intro e
    rcases hl with hl | hl
    · exact a (hl ▸ e)
    · exact absurd e hl.1
  · intro e
    rcases hl with hl | hl
    · exact b (hl ▸ e)
    · exact absurd e hl.2
  · intro e
    rcases h3 with h3 | h3
    · rw [h3]; exact d e
    · rw [a h3] at e
      exact absurd e (by decide)

theorem m_cleared_step {W : Type} (m x : Machine W) (h : gm_exclusive m) (hm : m_cleared m)
    (h1 : x.next_target.seen_G = m.next_target.seen_G)
    (h4 : x.next_target.M = m.next_target.M ∨ m.last_field = 77) : m_cleared x := by
  unfold m_cleared at *
  rw [h1]
  intro e
  rcases h4 with h4 | h4
  · rw [h4]; exact hm e
  · rw [h.2.1 h4] at e
    exact absurd e (by decide)

theorem process_character_gm {W : Type} (c : Nat) (m : Machine W) (h : gm_exclusive m) :
    gm_exclusive (process_character c m)
      ∧ (m_cleared m → m_cleared (process_character c m)) := by
  rcases process_character_class c m with k | k | k
  · constructor
    · refine gm_exclusive_step m _ h ?_ k.1 k.2.1 (Or.inl k.2.2.1)
      rcases k.2.2.2.2 with e | e
      · exact Or.inl e
      · exact Or.inr (by rw [e.1]; exact e.2)
    · intro hm
      exact m_cleared_step m _ h hm k.1 (Or.inl k.2.2.2.1)
  · obtain ⟨_, a, b, _, d, e⟩ := k
    constructor
    · unfold gm_exclusive
      rw [a, b, e]
      exact ⟨fun _ => rfl, fun x => absurd x (by norm_num), fun x => absurd x.2 (by decide),
        fun x => absurd x (by decide)⟩
    · intro _
      unfold m_cleared
      intro _
      exact d
  · obtain ⟨_, a, b, g, _, e⟩ := k
    constructor
    · unfold gm_exclusive
      rw [a, b, e, g]
      exact ⟨fun x => absurd x (by norm_num), fun _ => rfl, fun x => absurd x.1 (by decide),
        fun _ => rfl⟩
    · intro _
      unfold m_cleared
      rw [a]
      intro x
      exact absurd x (by decide)

/-- Before the end-of-line test every byte keeps `G` and `M` exclusive, and keeps
`M = 0` under a flagged `G`. -/
theorem parse_byte_gm {W : Type} (cfg : Config) (c : Nat) (m : Machine W)
    (h : gm_exclusive m) :
    gm_exclusive (parse_byte cfg c m).2 ∧ (m_cleared m → m_cleared (parse_byte cfg c m).2) := by
  have s1 : ∀ (b : Nat) (x : Machine W), gm_exclusive x →
      gm_exclusive (checksum_step b x) ∧ (m_cleared x → m_cleared (checksum_step b x)) := by
    intro b x hx
    have k := checksum_step_class b x
    exact ⟨gm_exclusive_step x _ hx (Or.inl k.1) k.2.1 k.2.2.1 (Or.inl k.2.2.2.1),
      fun hm => m_cleared_step x _ hx hm k.2.1 (Or.inl k.2.2.2.2)⟩
  have s2 : ∀ (b : Nat) (x : Machine W), gm_exclusive x →
      gm_exclusive (process_previous_field b x)
        ∧ (m_cleared x → m_cleared (process_previous_field b x)) := by
    intro b x hx
    have k := process_previous_field_class b x
    refine ⟨gm_exclusive_step x _ hx ?_ k.2.1 k.2.2.1 k.2.2.2.1,
      fun hm => m_cleared_step x _ hx hm k.2.1 k.2.2.2.2⟩
    rcases k.1 with e | e
    · exact Or.inl e
    · exact Or.inr (by rw [e]; exact ⟨by norm_num, by norm_num⟩)
  have s3 : ∀ (b : Nat) (x : Machine W), gm_exclusive x →
      gm_exclusive (capture_string b x) ∧ (m_cleared x → m_cleared (capture_string b x)) := by
    intro b x hx
    have k := capture_string_class b x
    exact ⟨gm_exclusive_step x _ hx (Or.inl k.1) k.2.1 k.2.2.1 (Or.inl k.2.2.2.1),
      fun hm => m_cleared_step x _ hx hm k.2.1 (Or.inl k.2.2.2.2)⟩
  unfold parse_byte
  cases cfg.ASTERISK_IN_CHECKSUM_INCLUDED
  · simp only [Bool.false_eq_true, if_false]
    have a := s2 (uppercase c) m h
    have b := s3 (uppercase c) _ a.1
    have d := process_character_gm (uppercase c) _ b.1
    have e := s1 (uppercase c) _ d.1
    exact ⟨e.1, fun hm => e.2 (d.2 (b.2 (a.2 hm)))⟩
  · simp only [if_true]
    have z := s1 c m h
    have a := s2 (uppercase c) _ z.1
    have b := s3 (uppercase c) _ a.1
    have d := process_character_gm (uppercase c) _ b.1
    exact ⟨d.1, fun hm => d.2 (b.2 (a.2 (z.2 hm)))⟩

theorem reset_variables_gm {W : Type} (m : Machine W) : gm_exclusive (reset_variables m) := by
  have h := reset_variables_default_G1 m
  unfold default_G1 at h
  unfold gm_exclusive
  rw [h.1, h.2.2.1]
  exact ⟨fun _ => rfl, fun x => absurd x h.2.2.2.2, fun x => absurd x.2 (by decide),
    fun x => absurd x (by decide)⟩

theorem gcode_parse_char_gm {W : Type} (env : Collaborators W) (cfg : Config) (c : Nat)
    (m : Machine W) (h : gm_exclusive m) : gm_exclusive (gcode_parse_char env cfg c m) := by
  unfold gcode_parse_char end_of_line
  simp only []
  split_ifs
  · exact reset_variables_gm _
  · exact (parse_byte_gm cfg c m h).1

theorem feed_gm {W : Type} (env : Collaborators W) (cfg : Config) (bs : List Nat) :
    ∀ (m : Machine W), gm_exclusive m → gm_exclusive (feed env cfg m bs) := by
  induction bs with
  | nil => intro m h; exact h
  | cons b bs ih =>
    intro m h
    rw [feed_cons]
    exact ih _ (gcode_parse_char_gm env cfg b m h)

theorem feed_m_cleared {W : Type} (env : Collaborators W) (cfg : Config) (bs : List Nat) :
    ∀ (m : Machine W), gm_exclusive m → m_cleared m → (∀ b ∈ bs, b ≠ 10 ∧ b ≠ 13) →
      m_cleared (feed env cfg m bs) := by
  induction bs with
  | nil => intro m _ h _; exact h
  | cons b bs ih =>
    intro m h hm hb
    have hb0 := hb b (List.mem_cons_self _ _)
    have hu : uppercase b ≠ 10 ∧ uppercase b ≠ 13 := by
      rw [uppercase_eq]
      split_ifs with h0 <;> omega
    rw [feed_cons, gcode_parse_char_inline env cfg b m hu]
    have k := parse_byte_gm cfg b m h
    exact ih _ k.1 (k.2 hm) (fun b' hb' => hb b' (List.mem_cons_of_mem _ hb'))

theorem zero_gm {W : Type} (w : W) (sm : Nat × Nat × Nat × Nat) (si : Int × Int × Int × Int) :
    gm_exclusive (Machine.zero w sm si) ∧ m_cleared (Machine.zero w sm si) := by
  unfold gm_exclusive m_cleared Machine.zero GCODE_COMMAND.zero
  simp

/-! ### What clears `M`, and what keeps it -/

theorem pending_G_step {W : Type} (m x : Machine W) (h : pending_G_cleared m)
    (hl : x.last_field = m.last_field ∨ x.last_field ≠ 71)
    (hM : x.next_target.M = m.next_target.M ∨ m.last_field = 77) : pending_G_cleared x := by
  unfold pending_G_cleared at *
  intro e
  rcases hl with hl | hl
  · rw [hl] at e
    rcases hM with hM | hM
    · rw [hM]
      exact h e
    · rw [e] at hM
      exact absurd hM (by decide)
  · exact absurd e hl

/-- Before the end-of-line test every byte keeps `M = 0` under a pending `G` field. -/
theorem parse_byte_pending_G {W : Type} (cfg : Config) (c : Nat) (m : Machine W)
    (h : pending_G_cleared m) : pending_G_cleared (parse_byte cfg c m).2 := by
  have s1 : ∀ (b : Nat) (x : Machine W), pending_G_cleared x →
      pending_G_cleared (checksum_step b x) := by
    intro b x hx
    have k := checksum_step_class b x
    exact pending_G_step x _ hx (Or.inl k.1) (Or.inl k.2.2.2.2)
  have s2 : ∀ (b : Nat) (x : Machine W), pending_G_cleared x →
      pending_G_cleared (process_previous_field b x) := by
    intro b x hx
    have k := process_previous_field_class b x
    refine pending_G_step x _ hx ?_ k.2.2.2.2
    rcases k.1 with e | e
    · exact Or.inl e
    · exact Or.inr (by rw [e]; decide)
  have s3 : ∀ (b : Nat) (x : Machine W), pending_G_cleared x →
      pending_G_cleared (capture_string b x) := by
    intro b x hx
    have k := capture_string_class b x
    exact pending_G_step x _ hx (Or.inl k.1) (Or.inl k.2.2.2.2)
  have s4 : ∀ (b : Nat) (x : Machine W), pending_G_cleared x →
      pending_G_cleared (process_character b x) := by
    intro b x hx
    rcases process_character_class b x with k | k | k
    · refine pending_G_step x _ hx ?_ (Or.inl k.2.2.2.1)
      rcases k.2.2.2.2 with e | e
      · exact Or.inl e
      · exact Or.inr (by rw [e.1]; exact e.2.1)
    · intro _
      exact k.2.2.2.2.1
    · intro e
      rw [k.2.2.2.2.2] at e
      exact absurd e (by decide)
  unfold parse_byte
  cases cfg.ASTERISK_IN_CHECKSUM_INCLUDED
  · simp only [Bool.false_eq_true, if_false]
    exact s1 _ _ (s4 _ _ (s3 _ _ (s2 _ _ h)))
  · simp only [if_true]
    exact s4 _ _ (s3 _ _ (s2 _ _ (s1 _ _ h)))

theorem gcode_parse_char_pending_G {W : Type} (env : Collaborators W) (cfg : Config) (c : Nat)
    (m : Machine W) (h : pending_G_cleared m) :
    pending_G_cleared (gcode_parse_char env cfg c m) := by
  unfold gcode_parse_char end_of_line
  simp only []
  split_ifs
  · intro e
    exact absurd (show (0 : Nat) = 71 from e) (by decide)
  · exact parse_byte_pending_G cfg c m h

theorem feed_pending_G {W : Type} (env : Collaborators W) (cfg : Config) (bs : List Nat) :
    ∀ (m : Machine W), pending_G_cleared m → pending_G_cleared (feed env cfg m bs) := by
  induction bs with
  | nil => intro m h; exact h
  | cons b bs ih =>
    intro m h
    rw [feed_cons]
    exact ih _ (gcode_parse_char_pending_G env cfg b m h)

/-- Only the letter `G` and the commit of an `M` field write `M`. -/
theorem parse_byte_keeps_M {W : Type} (cfg : Config) (c : Nat) (m : Machine W)
    (hl : m.last_field ≠ 77) (hc : c ≠ 71 ∧ c ≠ 103) :
    (parse_byte cfg c m).2.next_target.M = m.next_target.M := by
  have hu : uppercase c ≠ 71 := by
    rw [uppercase_eq]
    split_ifs with h0 <;> omega
  have s2 : ∀ (x : Machine W), x.last_field ≠ 77 →
      (process_previous_field (uppercase c) x).next_target.M = x.next_target.M := by
    intro x hx
    rcases (process_previous_field_class (uppercase c) x).2.2.2.2 with e | e
    · exact e
    · exact absurd e hx
  have s4 : ∀ (x : Machine W),
      (process_character (uppercase c) x).next_target.M = x.next_target.M := by
    intro x
    rcases process_character_class (uppercase c) x with k | k | k
    · exact k.2.2.2.1
    · exact absurd k.1 hu
    · exact k.2.2.2.2.1
  unfold parse_byte
  cases cfg.ASTERISK_IN_CHECKSUM_INCLUDED
  · simp only [Bool.false_eq_true, if_false]
    rw [(checksum_step_class _ _).2.2.2.2, s4, (capture_string_class _ _).2.2.2.2, s2 m hl]
  · simp only [if_true]
    rw [s4, (capture_string_class _ _).2.2.2.2,
      s2 _ (by rw [(checksum_step_class c m).1]; exact hl), (checksum_step_class c m).2.2.2.2]

/-- A run of bytes without terminators and without `G`, `g`, `M`, `m`, from a state with
the default command armed, keeps `M`. -/
theorem feed_default_keeps_M {W : Type} (env : Collaborators W) (cfg : Config)
    (bs : List Nat) :
    ∀ (m : Machine W), default_G1 m →
      (∀ b ∈ bs, b ≠ 10 ∧ b ≠ 13 ∧ b ≠ 71 ∧ b ≠ 103 ∧ b ≠ 77 ∧ b ≠ 109) →
      (feed env cfg m bs).next_target.M = m.next_target.M := by
  induction bs with
  | nil => intro m _ _; rfl
  | cons b bs ih =>
    intro m h hb
    have hb0 := hb b (List.mem_cons_self _ _)
    have hu : uppercase b ≠ 10 ∧ uppercase b ≠ 13 := by
      rw [uppercase_eq]
      split_ifs with h0 <;> omega
    rw [feed_cons, gcode_parse_char_inline env cfg b m hu]
    have hd := parse_byte_default_G1 cfg b m h
      ⟨hb0.2.2.1, hb0.2.2.2.1, hb0.2.2.2.2.1, hb0.2.2.2.2.2⟩
    rw [ih _ hd (fun b' hb' => hb b' (List.mem_cons_of_mem _ hb'))]
    exact parse_byte_keeps_M cfg b m h.2.2.2.2 ⟨hb0.2.2.1, hb0.2.2.2.1⟩

/-- C10, as stated, fails: the end-of-line reset re-arms `seen_G = 1`, `G = 1` and clears
`seen_M`, but leaves `M`.  From the zero-initialised state the lines `M5` and `X1` are
both dispatched; the second record has `seen_G = 1` and `M = 5`. -/
theorem default_G1_keeps_previous_M :
    (dispatched_records
        (feed Collaborators.quiet Config.source (Machine.zero () (0, 0, 0, 0) (0, 0, 0, 0))
          (ascii "M5\nX1\n")).trace).map
      (fun r => (r.seen_G, r.G, r.seen_M, r.M)) = [(false, 0, true, 5), (true, 1, false, 5)] := by
  decide

/-- C10, amended: for every byte sequence fed from the zero-initialised state and every
next byte (a terminator in particular, when the record is the one handed to the
router), the record has at most one of `seen_G` and `seen_M` set and `seen_M` set
implies `G = 0`.  `seen_G` set implies `M = 0` on the first line, and on every line from
the moment a `G` field is pending (a letter `G` read outside comments and filename
capture) to the end of that line.  On a line that follows a terminator and holds none of
the bytes `G`, `g`, `M`, `m`, the record has the default `seen_G = 1`, `G = 1`,
`seen_M = 0` and the `M` left when the preceding line ended. -/
theorem command_class_exclusive {W : Type} (env : Collaborators W) (cfg : Config) (w : W)
    (sm : Nat × Nat × Nat × Nat) (si : Int × Int × Int × Int) (bytes line : List Nat)
    (c t : Nat) :
    let s := feed env cfg (Machine.zero w sm si) bytes
    let r := (parse_byte cfg c s).2.next_target
    let r2 := (parse_byte cfg c (feed env cfg s line)).2.next_target
    let s3 := gcode_parse_char env cfg t s
    let r3 := (parse_byte cfg c (feed env cfg s3 line)).2.next_target
    ¬ (r.seen_G = true ∧ r.seen_M = true)
      ∧ (r.seen_M = true → r.G = 0)
      ∧ ((∀ b ∈ bytes, b ≠ 10 ∧ b ≠ 13) → r.seen_G = true → r.M = 0)
      ∧ (s.last_field = 71 → (∀ b ∈ line, b ≠ 10 ∧ b ≠ 13) → r2.seen_G = true → r2.M = 0)
      ∧ ((t = 10 ∨ t = 13) →
          (∀ b ∈ line, b ≠ 10 ∧ b ≠ 13 ∧ b ≠ 71 ∧ b ≠ 103 ∧ b ≠ 77 ∧ b ≠ 109) →
          (c ≠ 71 ∧ c ≠ 103 ∧ c ≠ 77 ∧ c ≠ 109) →
          r3.seen_G = true ∧ r3.G = 1 ∧ r3.seen_M = false ∧ r3.M = s3.next_target.M) := by
  intro s r r2 s3 r3
  have z := zero_gm w sm si
  have h1 : gm_exclusive s := feed_gm env cfg bytes _ z.1
  have h2 := parse_byte_gm cfg c _ h1
  refine ⟨h2.1.2.2.1, h2.1.2.2.2, ?_, ?_, ?_⟩
  · intro hb
    exact h2.2 (feed_m_cleared env cfg bytes _ z.1 z.2 hb)
  · intro hl hb
    have hp : pending_G_cleared s :=
      feed_pending_G env cfg bytes _ (fun e => absurd (show (0 : Nat) = 71 from e) (by decide))
    have hm : m_cleared s := fun _ => hp hl
    have h3 := feed_gm env cfg line _ h1
    exact (parse_byte_gm cfg c _ h3).2 (feed_m_cleared env cfg line _ h1 hm hb)
  · intro ht hb hc
    have hd : default_G1 s3 := by
      show default_G1 (gcode_parse_char env cfg t s)
      rw [gcode_parse_char_terminator env cfg t s ht]
      exact reset_variables_default_G1 _
    have hf := feed_default_G1 env cfg line s3 hd hb
    have hr := parse_byte_default_G1 cfg c _ hf hc
    refine ⟨hr.1, hr.2.1, hr.2.2.1, ?_⟩
    show (parse_byte cfg c (feed env cfg s3 line)).2.next_target.M = _
    rw [parse_byte_keeps_M cfg c _ hf.2.2.2.2 ⟨hc.1, hc.2.1⟩]
    exact feed_default_keeps_M env cfg line s3 hd hb

set_option maxRecDepth 8000 in
/-- C10, amended, at concrete inputs: the first line `M5 G1 X1` reaches its line feed
with `seen_G = 1` and `M = 0`, the `G` field being pending after `M5 G`; and after the
line `M5` the line `X1` reaches its line feed with `seen_G = 1`, `G = 1` and `M = 5`. -/
theorem command_class_exclusive_witness :
    ((∀ b ∈ ascii "M5 G", b ≠ 10 ∧ b ≠ 13)
        ∧ (feed Collaborators.quiet Config.source (Machine.zero () (0, 0, 0, 0) (0, 0, 0, 0))
            (ascii "M5 G")).last_field = 71
        ∧ (∀ b ∈ ascii "1 X1", b ≠ 10 ∧ b ≠ 13)
        ∧ (∀ b ∈ ascii "X1", b ≠ 10 ∧ b ≠ 13 ∧ b ≠ 71 ∧ b ≠ 103 ∧ b ≠ 77 ∧ b ≠ 109))
      ∧ (parse_byte Config.source 10
          (feed Collaborators.quiet Config.source
            (feed Collaborators.quiet Config.source (Machine.zero () (0, 0, 0, 0) (0, 0, 0, 0))
              (ascii "M5 G")) (ascii "1 X1"))).2.next_target.M = 0
      ∧ (parse_byte Config.source 10
          (feed Collaborators.quiet Config.source
            (gcode_parse_char Collaborators.quiet Config.source 10
              (feed Collaborators.quiet Config.source
                (Machine.zero () (0, 0, 0, 0) (0, 0, 0, 0)) (ascii "M5")))
            (ascii "X1"))).2.next_target.seen_G = true
      ∧ (parse_byte Config.source 10
          (feed Collaborators.quiet Config.source
            (gcode_parse_char Collaborators.quiet Config.source 10
              (feed Collaborators.quiet Config.source
                (Machine.zero () (0, 0, 0, 0) (0, 0, 0, 0)) (ascii "M5")))
            (ascii "X1"))).2.next_target.M = 5 := by
  have h1 := command_class_exclusive Collaborators.quiet Config.source ()
    (0, 0, 0, 0) (0, 0, 0, 0) (ascii "M5 G") (ascii "1 X1") 10 10
  have h2 := command_class_exclusive Collaborators.quiet Config.source ()
    (0, 0, 0, 0) (0, 0, 0, 0) (ascii "M5") (ascii "X1") 10 10
  have k := h2.2.2.2.2 (Or.inl rfl) (by decide) (by decide)
  exact ⟨⟨by decide, by decide, by decide, by decide⟩,
    h1.2.2.2.1 (by decide) (by decide) (by decide), k.1, k.2.2.2.trans (by decide)⟩

/-! ## What the running checksum sums, and when `N_expected` moves -/

/-- The checksum fields through the phases that precede the checksum step. -/
theorem before_checksum_step {W : Type} (u : Nat) (m : Machine W) :
    (process_character u (capture_string u (process_previous_field u m))).next_target.checksum_calculated
      = m.next_target.checksum_calculated := by
  have h1 : (process_previous_field u m).next_target.checksum_calculated
      = m.next_target.checksum_calculated := by
    unfold process_previous_field commit_field
    simp only [apply_ite Machine.next_target, apply_ite GCODE_COMMAND.checksum_calculated,
      ite_self]
  have h2 : ∀ x : Machine W, (capture_string u x).next_target.checksum_calculated
      = x.next_target.checksum_calculated := by
    intro x
    unfold capture_string
    simp only [apply_ite Machine.next_target, apply_ite GCODE_COMMAND.checksum_calculated,
      ite_self]
  have h3 : ∀ x : Machine W, (process_switch u x).next_target.checksum_calculated
      = x.next_target.checksum_calculated := by
    intro x
    unfold process_switch
    simp only [apply_ite Machine.next_target, apply_ite GCODE_COMMAND.checksum_calculated,
      ite_self]
  have h4 : ∀ x : Machine W, (process_character u x).next_target.checksum_calculated
      = x.next_target.checksum_calculated := by
    intro x
    unfold process_character
    simp only [apply_ite Machine.next_target, apply_ite GCODE_COMMAND.checksum_calculated,
      h3, ite_self]
  rw [h4, h2, h1]

/-- In the configuration of the source, a byte that leaves `seen_checksum` clear adds
its case-folded value to the running checksum; a byte that leaves it set adds nothing. -/
theorem checksum_sums_folded_byte {W : Type} (cfg : Config) (c : Nat) (m : Machine W)
    (hcfg : cfg.ASTERISK_IN_CHECKSUM_INCLUDED = false) :
    (parse_byte cfg c m).2.next_target.checksum_calculated
      = if (parse_byte cfg c m).2.next_target.seen_checksum = false
        then crc m.next_target.checksum_calculated (uppercase c)
        else m.next_target.checksum_calculated := by
  unfold parse_byte
  simp only [hcfg, Bool.false_eq_true, if_false]
  have h := before_checksum_step (uppercase c) m
  generalize process_character (uppercase c)
    (capture_string (uppercase c) (process_previous_field (uppercase c) m)) = x at h
  unfold checksum_step
  cases hs : x.next_target.seen_checksum
  · simp only [if_true, hs, h]
  · simp only [Bool.true_eq_false, if_false, hs, h]

/-- Within a line the flag `seen_checksum` is never cleared. -/
theorem parse_byte_seen_checksum {W : Type} (cfg : Config) (c : Nat) (m : Machine W)
    (h : (parse_byte cfg c m).2.next_target.seen_checksum = false) :
    m.next_target.seen_checksum = false := by
  have h1 : ∀ (b : Nat) (x : Machine W), (checksum_step b x).next_target.seen_checksum
      = x.next_target.seen_checksum := by
    intro b x
    unfold checksum_step
    simp only [apply_ite Machine.next_target, apply_ite GCODE_COMMAND.seen_checksum, ite_self]
  have h2 : ∀ (b : Nat) (x : Machine W),
      (process_previous_field b x).next_target.seen_checksum = x.next_target.seen_checksum := by
    intro b x
    unfold process_previous_field commit_field
    simp only [apply_ite Machine.next_target, apply_ite GCODE_COMMAND.seen_checksum, ite_self]
  have h3 : ∀ (b : Nat) (x : Machine W), (capture_string b x).next_target.seen_checksum
      = x.next_target.seen_checksum := by
    intro b x
    unfold capture_string
    simp only [apply_ite Machine.next_target, apply_ite GCODE_COMMAND.seen_checksum, ite_self]
  have h4 : ∀ (b : Nat) (x : Machine W),
      (process_switch b x).next_target.seen_checksum
        = (if b = 42 then true else x.next_target.seen_checksum) := by
    intro b x
    unfold process_switch
    simp only [apply_ite Machine.next_target, apply_ite GCODE_COMMAND.seen_checksum, ite_self]
    by_cases hb : b = 42
    · subst hb
      simp
    · simp only [hb, if_false, ite_self]
  have h5 : ∀ (b : Nat) (x : Machine W),
      (process_character b x).next_target.seen_checksum = false →
        x.next_target.seen_checksum = false := by
    intro b x
    unfold process_character
    simp only [apply_ite Machine.next_target, apply_ite GCODE_COMMAND.seen_checksum, h4]
    split_ifs <;> simp
  unfold parse_byte at h
  cases hc : cfg.ASTERISK_IN_CHECKSUM_INCLUDED
  · simp only [hc, Bool.false_eq_true, if_false, h1] at h
    have a := h5 _ _ h
    rw [h3, h2] at a
    exact a
  · simp only [hc, if_true] at h
    have a := h5 _ _ h
    rw [h3, h2, h1] at a
    exact a

/-- In the configuration of the source: as long as no checksum field has been opened, the
running checksum of the bytes fed since a state `m` is the exclusive-OR, from the
checksum of `m`, of the bytes after case folding. -/
theorem checksum_of_folded_bytes {W : Type} (env : Collaborators W) (cfg : Config)
    (hcfg : cfg.ASTERISK_IN_CHECKSUM_INCLUDED = false) (m : Machine W) (bytes : List Nat) :
    (∀ b ∈ bytes, b ≠ 10 ∧ b ≠ 13) →
    (feed env cfg m bytes).next_target.seen_checksum = false →
    (feed env cfg m bytes).next_target.checksum_calculated
      = (bytes.map uppercase).foldl crc m.next_target.checksum_calculated := by
  induction bytes using List.reverseRecOn with
  | nil => intro _ _; rfl
  | append_singleton bs b ih =>
    intro hb hs
    have hb0 := hb b (by simp)
    have hu : uppercase b ≠ 10 ∧ uppercase b ≠ 13 := by
      rw [uppercase_eq]
      split_ifs with h0 <;> omega
    have hstep : feed env cfg m (bs ++ [b]) = (parse_byte cfg b (feed env cfg m bs)).2 := by
      rw [feed_append]
      show gcode_parse_char env cfg b _ = _
      rw [gcode_parse_char_inline env cfg b _ hu]
    rw [hstep] at hs ⊢
    have hprev := parse_byte_seen_checksum cfg b _ hs
    rw [checksum_sums_folded_byte cfg b _ hcfg, if_pos hs,
      ih (fun b' hb' => hb b' (by simp [hb'])) hprev]
    simp [List.foldl_append]

/-- In file-capture mode no byte changes `N_expected`. -/
theorem file_capture_keeps_N_expected {W : Type} (env : Collaborators W) (cfg : Config)
    (c : Nat) (m : Machine W) (hsd : m.sd_writing_file = true) :
    (gcode_parse_char env cfg c m).next_target.N_expected = m.next_target.N_expected := by
  have hN := parse_byte_N_expected cfg c m
  have hS : (parse_byte cfg c m).2.sd_writing_file = true := by
    rw [(parse_byte_outside cfg c m).2.2.1]; exact hsd
  unfold gcode_parse_char end_of_line
  simp only []
  generalize (parse_byte cfg c m).2 = r at hN hS
  split_ifs
  · rw [← hN]
    unfold reset_variables check_line route_line request_resend Machine.emit
    simp only [hS, if_true, apply_ite Machine.next_target, apply_ite GCODE_COMMAND.N_expected,
      ite_self]
  · exact hN

/-- Bytes other than terminators make no collaborator call and leave the state outside
the parser alone: whatever a line emits, it emits at its terminator. -/
theorem feed_inline_outside {W : Type} (env : Collaborators W) (cfg : Config) (bytes : List Nat) :
    ∀ (m : Machine W), (∀ b ∈ bytes, b ≠ 10 ∧ b ≠ 13) →
      (feed env cfg m bytes).trace = m.trace ∧ (feed env cfg m bytes).world = m.world
        ∧ (feed env cfg m bytes).sd_writing_file = m.sd_writing_file
        ∧ (feed env cfg m bytes).pLine = m.pLine := by
  induction bytes with
  | nil => intro m _; exact ⟨rfl, rfl, rfl, rfl⟩
  | cons b bs ih =>
    intro m hb
    have hb0 := hb b (List.mem_cons_self _ _)
    have hu : uppercase b ≠ 10 ∧ uppercase b ≠ 13 := by
      rw [uppercase_eq]
      split_ifs with h0 <;> omega
    rw [feed_cons, gcode_parse_char_inline env cfg b m hu]
    have h1 := ih (parse_byte cfg b m).2 (fun b' hb' => hb b' (List.mem_cons_of_mem _ hb'))
    have h2 := parse_byte_outside cfg b m
    exact ⟨h1.1.trans h2.1, h1.2.1.trans h2.2.1, h1.2.2.1.trans h2.2.2.1,
      h1.2.2.2.trans h2.2.2.2⟩

/-! ## The accumulator: sign, point and digit bytes -/

theorem process_previous_field_skip {W : Type} (u : Nat) (m : Machine W)
    (hu : ¬ ((65 ≤ u ∧ u ≤ 90) ∨ u = 42 ∨ u = 10 ∨ u = 13)) :
    process_previous_field u m = m := by
  unfold process_previous_field
  simp only [hu, if_false, ite_self]

theorem capture_string_off {W : Type} (c : Nat) (m : Machine W)
    (h : m.next_target.getting_string = false) : capture_string c m = m := by
  unfold capture_string
  simp only [h, Bool.false_eq_true, if_false]

theorem process_character_live {W : Type} (c : Nat) (m : Machine W)
    (h : outside_comment_and_capture m) (hc : ¬ ((65 ≤ c ∧ c ≤ 90) ∨ c = 42)) :
    process_character c m = process_switch c m := by
  unfold process_character
  simp only [h.1, h.2.1, h.2.2, and_self, if_true, hc, if_false]

theorem checksum_step_read_digit {W : Type} (c : Nat) (m : Machine W) (rd : decfloat) :
    checksum_step c { m with read_digit := rd } = { checksum_step c m with read_digit := rd } := by
  unfold checksum_step
  split_ifs <;> rfl

/-- The byte `-` restarts the accumulator with the sign set. -/
theorem process_switch_minus {W : Type} (m : Machine W) :
    process_switch 45 m = { m with read_digit := ⟨true, 0, 0⟩ } := rfl

/-- The byte `.` marks the point when none was marked. -/
theorem process_switch_point {W : Type} (m : Machine W) :
    process_switch 46 m
      = { m with read_digit :=
            { m.read_digit with
              exponent := if m.read_digit.exponent = 0 then 1 else m.read_digit.exponent } } := by
  show (if m.read_digit.exponent = 0 then _ else m) = _
  split_ifs <;> rfl

/-- A digit byte: shift-and-add into the 24-bit mantissa, and one more decimal in the
7-bit exponent when a point was marked. -/
theorem process_switch_digit {W : Type} (c : Nat) (m : Machine W) (hc : 48 ≤ c ∧ c ≤ 57) :
    process_switch c m
      = { m with read_digit :=
            { sign := m.read_digit.sign
              mantissa := ((m.read_digit.mantissa <<< 3) + (m.read_digit.mantissa <<< 1)
                + (c - 48)) % 16777216
              exponent := if m.read_digit.exponent ≠ 0 then (m.read_digit.exponent + 1) % 128
                          else m.read_digit.exponent } } := by
  obtain ⟨h1, h2⟩ := hc
  interval_cases c <;>
    (show (if m.read_digit.exponent ≠ 0 then _ else _) = _) <;> split_ifs <;> rfl

/-- On the sign, point and digit bytes the `switch` is `read_digit_step` on the
accumulator and nothing else. -/
theorem process_switch_read_digit_step {W : Type} (c : Nat) (m : Machine W)
    (hc : c = 45 ∨ c = 46 ∨ (48 ≤ c ∧ c ≤ 57)) :
    process_switch c m = { m with read_digit := read_digit_step c m.read_digit } := by
  rcases hc with rfl | rfl | ⟨h1, h2⟩
  · rfl
  · rw [process_switch_point]
    show _ = { m with read_digit := if m.read_digit.exponent = 0 then _ else _ }
    split_ifs <;> rfl
  · rw [process_switch_digit c m ⟨h1, h2⟩]
    interval_cases c <;>
      (show _ = { m with read_digit := if m.read_digit.exponent ≠ 0 then _ else _ }) <;>
      split_ifs <;> rfl

/-- Outside comments and capture, a sign, point or digit byte updates the accumulator
and the running checksum and nothing else. -/
theorem parse_byte_accumulate {W : Type} (cfg : Config) (c : Nat) (m : Machine W)
    (h : outside_comment_and_capture m) (hc : c = 45 ∨ c = 46 ∨ (48 ≤ c ∧ c ≤ 57)) :
    (parse_byte cfg c m).2
      = checksum_step c { m with read_digit := read_digit_step c m.read_digit } := by
  have hu : uppercase c = c := by
    rw [uppercase_eq]
    split_ifs with h0
    · omega
    · rfl
  have hskip : ¬ ((65 ≤ c ∧ c ≤ 90) ∨ c = 42 ∨ c = 10 ∨ c = 13) := by omega
  have hnl : ¬ ((65 ≤ c ∧ c ≤ 90) ∨ c = 42) := by omega
  have hlive : ∀ x : Machine W, outside_comment_and_capture x →
      process_character c (capture_string c (process_previous_field c x))
        = { x with read_digit := read_digit_step c x.read_digit } := by
    intro x hx
    rw [process_previous_field_skip c x hskip, capture_string_off c x hx.2.2,
      process_character_live c x hx hnl, process_switch_read_digit_step c x hc]
  unfold parse_byte
  rw [hu]
  cases cfg.ASTERISK_IN_CHECKSUM_INCLUDED
  · simp only [Bool.false_eq_true, if_false]
    rw [hlive m h]
  · simp only [if_true]
    have hx : outside_comment_and_capture (checksum_step c m) := by
      unfold outside_comment_and_capture checksum_step
      simp only [apply_ite Machine.next_target, apply_ite GCODE_COMMAND.seen_semi_comment,
        apply_ite GCODE_COMMAND.seen_parens_comment, apply_ite GCODE_COMMAND.getting_string,
        ite_self]
      exact h
    have hrd : (checksum_step c m).read_digit = m.read_digit := by
      unfold checksum_step
      split_ifs <;> rfl
    rw [hlive _ hx]
    refine Eq.trans ?_ (checksum_step_read_digit c m (read_digit_step c m.read_digit)).symm
    rw [hrd]

theorem gcode_parse_char_accumulate {W : Type} (env : Collaborators W) (cfg : Config) (c : Nat)
    (m : Machine W) (h : outside_comment_and_capture m)
    (hc : c = 45 ∨ c = 46 ∨ (48 ≤ c ∧ c ≤ 57)) :
    gcode_parse_char env cfg c m
      = checksum_step c { m with read_digit := read_digit_step c m.read_digit } := by
  have hu : uppercase c ≠ 10 ∧ uppercase c ≠ 13 := by
    rw [uppercase_eq]
    split_ifs with h0 <;> omega
  rw [gcode_parse_char_inline env cfg c m hu, parse_byte_accumulate cfg c m h hc]

/-- A run of sign, point and digit bytes fed outside comments and capture: the
accumulator is folded through `read_digit_step`; the pending field, the comment and
capture flags stay as they are. -/
theorem feed_accumulate {W : Type} (env : Collaborators W) (cfg : Config) (w : List Nat) :
    ∀ (m : Machine W), outside_comment_and_capture m →
      (∀ c ∈ w, c = 45 ∨ c = 46 ∨ (48 ≤ c ∧ c ≤ 57)) →
      (feed env cfg m w).read_digit = w.foldl (fun rd c => read_digit_step c rd) m.read_digit
        ∧ (feed env cfg m w).last_field = m.last_field
        ∧ outside_comment_and_capture (feed env cfg m w) := by
  induction w with
  | nil => intro m h _; exact ⟨rfl, rfl, h⟩
  | cons c w ih =>
    intro m h hw
    have hc := hw c (List.mem_cons_self _ _)
    rw [feed_cons, gcode_parse_char_accumulate env cfg c m h hc]
    have hx : outside_comment_and_capture
        (checksum_step c { m with read_digit := read_digit_step c m.read_digit }) := by
      unfold outside_comment_and_capture checksum_step
      simp only [apply_ite Machine.next_target, apply_ite GCODE_COMMAND.seen_semi_comment,
        apply_ite GCODE_COMMAND.seen_parens_comment, apply_ite GCODE_COMMAND.getting_string,
        ite_self]
      exact h
    have h1 := ih _ hx (fun c' hc' => hw c' (List.mem_cons_of_mem _ hc'))
    have hrd : (checksum_step c { m with read_digit := read_digit_step c m.read_digit }).read_digit
        = read_digit_step c m.read_digit := by
      unfold checksum_step
      split_ifs <;> rfl
    have hlf : (checksum_step c { m with read_digit := read_digit_step c m.read_digit }).last_field
        = m.last_field := by
      unfold checksum_step
      split_ifs <;> rfl
    rw [hrd, hlf] at h1
    exact ⟨h1.1, h1.2.1, h1.2.2⟩

/-- C11: outside comments and filename capture, whatever the accumulator holds, feeding
`-` and then any bytes `w` leaves the machine that feeding `-` and then `w` from the
zero accumulator leaves: what was accumulated before the `-` is discarded.  When `w`
is made of digits and `.`, the resulting accumulator is `w` folded from (sign set,
mantissa 0, exponent 0).  The field `S1-2` accumulates a value that `decfloat_to_int`
with scale 1/1 converts to -2, and the line `S1-2` is dispatched with `S = -2`. -/
theorem sign_restart {W : Type} (env : Collaborators W) (cfg : Config) (m : Machine W)
    (rd : decfloat) (w : List Nat) (h : outside_comment_and_capture m) :
    feed env cfg { m with read_digit := rd } (45 :: w)
        = feed env cfg { m with read_digit := ⟨false, 0, 0⟩ } (45 :: w)
      ∧ ((∀ c ∈ w, c = 46 ∨ (48 ≤ c ∧ c ≤ 57)) →
          (feed env cfg { m with read_digit := rd } (45 :: w)).read_digit
            = w.foldl (fun a c => read_digit_step c a) ⟨true, 0, 0⟩)
      ∧ decfloat_to_int
          (feed Collaborators.quiet Config.source (Machine.fresh () (0, 0, 0, 0) (0, 0, 0, 0))
            (ascii "S1-2")).read_digit 1 1 = -2
      ∧ (dispatched_records
          (feed Collaborators.quiet Config.source (Machine.fresh () (0, 0, 0, 0) (0, 0, 0, 0))
            (ascii "S1-2\n")).trace).map (fun r => r.S) = [-2] := by
  have h1 : outside_comment_and_capture { m with read_digit := rd } := h
  have h2 : outside_comment_and_capture { m with read_digit := (⟨false, 0, 0⟩ : decfloat) } := h
  have e1 := gcode_parse_char_accumulate env cfg 45 _ h1 (Or.inl rfl)
  have e2 := gcode_parse_char_accumulate env cfg 45 _ h2 (Or.inl rfl)
  have hsame : gcode_parse_char env cfg 45 { m with read_digit := rd }
      = gcode_parse_char env cfg 45 { m with read_digit := ⟨false, 0, 0⟩ } := by
    rw [e1, e2]
    rfl
  refine ⟨?_, ?_, by decide, by decide⟩
  · rw [feed_cons, feed_cons, hsame]
  · intro hw
    rw [feed_cons, e1]
    have hx : outside_comment_and_capture
        (checksum_step 45 { ({ m with read_digit := rd } : Machine W) with
          read_digit := read_digit_step 45 rd }) := by
      unfold outside_comment_and_capture checksum_step
      simp only [apply_ite Machine.next_target, apply_ite GCODE_COMMAND.seen_semi_comment,
        apply_ite GCODE_COMMAND.seen_parens_comment, apply_ite GCODE_COMMAND.getting_string,
        ite_self]
      exact h
    have h3 := (feed_accumulate env cfg w _ hx
      (fun c hc => Or.inr (hw c hc))).1
    rw [h3]
    congr 1
    unfold checksum_step
    split_ifs <;> rfl

/-- C11 at a concrete input: the accumulator 1234.5 followed by `-2.5` holds -2.5. -/
theorem sign_restart_witness :
    outside_comment_and_capture (Machine.fresh () (0, 0, 0, 0) (0, 0, 0, 0))
      ∧ (feed Collaborators.quiet Config.source
          { Machine.fresh () (0, 0, 0, 0) (0, 0, 0, 0) with read_digit := ⟨false, 12345, 2⟩ }
          (45 :: ascii "2.5")).read_digit = ⟨true, 25, 2⟩ := by
  have h := sign_restart Collaborators.quiet Config.source
    (Machine.fresh () (0, 0, 0, 0) (0, 0, 0, 0)) ⟨false, 12345, 2⟩ (ascii "2.5")
    ⟨rfl, rfl, rfl⟩
  refine ⟨⟨rfl, rfl, rfl⟩, ?_⟩
  rw [h.2.1 (by decide)]
  decide

/-- The digit case of `read_digit_step`: the shift-and-add form is `10 * m + d`, kept
modulo 2^24 by the mantissa field; the exponent counts modulo 2^7. -/
theorem read_digit_step_digit (c : Nat) (rd : decfloat) (hc : 48 ≤ c ∧ c ≤ 57) :
    read_digit_step c rd
      = { sign := rd.sign
          mantissa := (rd.mantissa * 10 + (c - 48)) % 16777216
          exponent := if rd.exponent ≠ 0 then (rd.exponent + 1) % 128 else 0 } := by
  have h45 : c ≠ 45 := by omega
  have h46 : c ≠ 46 := by omega
  have hshift : (rd.mantissa <<< 3) + (rd.mantissa <<< 1) = rd.mantissa * 10 := by
    rw [Nat.shiftLeft_eq, Nat.shiftLeft_eq]
    omega
  unfold read_digit_step
  simp only [h45, h46, hc, and_self, if_true, if_false, hshift]
  by_cases he : rd.exponent = 0
  · simp [he]
  · simp [he]

/-- While the mantissa has room and fewer than 127 decimals are counted, a digit byte
does what the source comment says: `mantissa = mantissa * 10 + digit`, sign kept, one
more decimal counted after a point. -/
theorem read_digit_step_digit_in_range (c : Nat) (rd : decfloat) (hc : 48 ≤ c ∧ c ≤ 57)
    (hm : rd.mantissa * 10 + (c - 48) < 16777216) (he : rd.exponent < 127) :
    read_digit_step c rd
      = { sign := rd.sign
          mantissa := rd.mantissa * 10 + (c - 48)
          exponent := if rd.exponent ≠ 0 then rd.exponent + 1 else 0 } := by
  rw [read_digit_step_digit c rd hc, Nat.mod_eq_of_lt hm]
  have h2 : (rd.exponent + 1) % 128 = rd.exponent + 1 := Nat.mod_eq_of_lt (by omega)
  rw [h2]

set_option maxRecDepth 8000 in
/-- C19: the digit step stores `10 * m + d` into the 24-bit mantissa field and keeps
only its low 24 bits.  From a freshly reset parser the field `X1677721` accumulates
1677721; the next digit `6` leaves mantissa 0, where `10 * 1677721 + 6 = 16777216`.
The ordinary line `X200.12345`, at 1000 steps per metre, is dispatched with
`target.X = 32`: its mantissa 20012345 is kept as 3235129. -/
theorem mantissa_wraps_at_24_bits :
    (feed Collaborators.quiet Config.source (Machine.fresh () (1000, 0, 0, 0) (0, 0, 0, 0))
        (ascii "X1677721")).read_digit = ⟨false, 1677721, 0⟩
      ∧ (feed Collaborators.quiet Config.source (Machine.fresh () (1000, 0, 0, 0) (0, 0, 0, 0))
          (ascii "X16777216")).read_digit = ⟨false, 0, 0⟩
      ∧ 1677721 * 10 + 6 = 16777216
      ∧ (feed Collaborators.quiet Config.source (Machine.fresh () (1000, 0, 0, 0) (0, 0, 0, 0))
          (ascii "X200.12345")).read_digit = ⟨false, 3235129, 6⟩
      ∧ (dispatched_records
          (feed Collaborators.quiet Config.source (Machine.fresh () (1000, 0, 0, 0) (0, 0, 0, 0))
            (ascii "X200.12345\n")).trace).map (fun r => r.target.X) = [32] := by
  decide

/-- The point case of `read_digit_step`. -/
theorem read_digit_step_point (rd : decfloat) :
    read_digit_step 46 rd = if rd.exponent = 0 then { rd with exponent := 1 } else rd := rfl

/-- Through a run of digits and points the decimal count grows by one per digit, as
long as it started above 0 and stays within the 7 bits of the field. -/
theorem fold_exponent (w : List Nat) :
    ∀ rd : decfloat, (∀ c ∈ w, c = 46 ∨ (48 ≤ c ∧ c ≤ 57)) → 1 ≤ rd.exponent →
      rd.exponent + (w.filter (fun c => decide (c ≠ 46))).length ≤ 127 →
      (w.foldl (fun a c => read_digit_step c a) rd).exponent
        = rd.exponent + (w.filter (fun c => decide (c ≠ 46))).length := by
  induction w with
  | nil => intro rd _ _ _; rfl
  | cons c w ih =>
    intro rd hw h1 h2
    rw [List.foldl_cons]
    rcases hw c (List.mem_cons_self _ _) with rfl | hd
    · have hstep : read_digit_step 46 rd = rd := by
        rw [read_digit_step_point, if_neg (by omega)]
      have hf : (List.filter (fun c => decide (c ≠ 46)) (46 :: w))
          = List.filter (fun c => decide (c ≠ 46)) w := by
        simp
      rw [hstep, hf]
      rw [hf] at h2
      exact ih rd (fun c' hc' => hw c' (List.mem_cons_of_mem _ hc')) h1 h2
    · have hne : c ≠ 46 := by omega
      have hf : (List.filter (fun c => decide (c ≠ 46)) (c :: w))
          = c :: List.filter (fun c => decide (c ≠ 46)) w := by
        simp [hne]
      rw [hf, List.length_cons] at h2 ⊢
      have hexp : (read_digit_step c rd).exponent = rd.exponent + 1 := by
        rw [read_digit_step_digit c rd hd]
        have h0 : rd.exponent ≠ 0 := by omega
        simp only [h0, ne_eq, not_false_eq_true, if_true]
        exact Nat.mod_eq_of_lt (by omega)
      have h3 := ih (read_digit_step c rd) (fun c' hc' => hw c' (List.mem_cons_of_mem _ hc'))
        (by omega) (by omega)
      rw [h3, hexp]
      omega

set_option maxRecDepth 8000 in
/-- C18, as stated, fails: with 127 digits between two points the later point is
honoured.  From a freshly reset parser, after `.` and 127 digits `0` the 7-bit decimal
count has come back to 0, and one more `.` sets it to 1. -/
theorem second_point_after_127_digits :
    (feed Collaborators.quiet Config.source (Machine.fresh () (0, 0, 0, 0) (0, 0, 0, 0))
        (46 :: List.replicate 127 48)).read_digit = ⟨false, 0, 0⟩
      ∧ (feed Collaborators.quiet Config.source (Machine.fresh () (0, 0, 0, 0) (0, 0, 0, 0))
          (46 :: List.replicate 127 48 ++ [46])).read_digit = ⟨false, 0, 1⟩ := by
  have hlive : outside_comment_and_capture
      (Machine.fresh () (0, 0, 0, 0) (0, 0, 0, 0) : Machine Unit) := ⟨rfl, rfl, rfl⟩
  have h1 := (feed_accumulate Collaborators.quiet Config.source (46 :: List.replicate 127 48)
    _ hlive (by decide)).1
  have h2 := (feed_accumulate Collaborators.quiet Config.source
    (46 :: List.replicate 127 48 ++ [46]) _ hlive (by decide)).1
  rw [h1, h2]
  exact ⟨by decide, by decide⟩

/-- C18, amended: outside comments and filename capture, `.` sets the decimal count to
1 when it is 0 and leaves the accumulator alone otherwise; and once a `.` has been fed,
a later `.` leaves sign, mantissa and decimal count unchanged, whatever digits and
points were fed in between, as long as the decimal count after the first `.` plus the
number of those digits does not exceed 127 (at most 126 digits after the first point
of a number). -/
theorem later_points_ignored {W : Type} (env : Collaborators W) (cfg : Config) (m : Machine W)
    (w : List Nat) (h : outside_comment_and_capture m)
    (hw : ∀ c ∈ w, c = 46 ∨ (48 ≤ c ∧ c ≤ 57))
    (hn : (read_digit_step 46 m.read_digit).exponent
      + (w.filter (fun c => decide (c ≠ 46))).length ≤ 127) :
    (gcode_parse_char env cfg 46 m).read_digit
        = (if m.read_digit.exponent = 0 then { m.read_digit with exponent := 1 }
           else m.read_digit)
      ∧ (gcode_parse_char env cfg 46 (feed env cfg m (46 :: w))).read_digit
        = (feed env cfg m (46 :: w)).read_digit := by
  have hfirst : (gcode_parse_char env cfg 46 m).read_digit = read_digit_step 46 m.read_digit := by
    rw [gcode_parse_char_accumulate env cfg 46 m h (Or.inr (Or.inl rfl))]
    unfold checksum_step
    split_ifs <;> rfl
  constructor
  · rw [hfirst, read_digit_step_point]
  · have hall : ∀ c ∈ 46 :: w, c = 45 ∨ c = 46 ∨ (48 ≤ c ∧ c ≤ 57) := by
      intro c hc
      rcases List.mem_cons.1 hc with rfl | hc
      · exact Or.inr (Or.inl rfl)
      · exact Or.inr (hw c hc)
    obtain ⟨hrd, _, hlive⟩ := feed_accumulate env cfg (46 :: w) m h hall
    have hstep : (gcode_parse_char env cfg 46 (feed env cfg m (46 :: w))).read_digit
        = read_digit_step 46 (feed env cfg m (46 :: w)).read_digit := by
      rw [gcode_parse_char_accumulate env cfg 46 _ hlive (Or.inr (Or.inl rfl))]
      unfold checksum_step
      split_ifs <;> rfl
    have h1 : 1 ≤ (read_digit_step 46 m.read_digit).exponent := by
      rw [read_digit_step_point]
      split_ifs with h0
      · exact Nat.le_refl 1
      · exact Nat.pos_of_ne_zero h0
    have hexp := fold_exponent w (read_digit_step 46 m.read_digit) hw h1 hn
    rw [List.foldl_cons] at hrd
    rw [hstep, read_digit_step_point, if_neg]
    rw [hrd, hexp]
    omega

/-- C18, amended, at a concrete input: in the field `X1.5.25.` the points after the
first change nothing, the accumulator is that of `X1.525`. -/
theorem later_points_ignored_witness :
    (outside_comment_and_capture
        (feed Collaborators.quiet Config.source (Machine.fresh () (0, 0, 0, 0) (0, 0, 0, 0))
          (ascii "X1"))
      ∧ (∀ c ∈ ascii "5.25", c = 46 ∨ (48 ≤ c ∧ c ≤ 57)))
      ∧ (feed Collaborators.quiet Config.source (Machine.fresh () (0, 0, 0, 0) (0, 0, 0, 0))
          (ascii "X1.5.25.")).read_digit = ⟨false, 1525, 4⟩ := by
  have h := later_points_ignored Collaborators.quiet Config.source
    (feed Collaborators.quiet Config.source (Machine.fresh () (0, 0, 0, 0) (0, 0, 0, 0))
      (ascii "X1")) (ascii "5.25") ⟨rfl, rfl, rfl⟩ (by decide) (by decide)
  refine ⟨⟨⟨rfl, rfl, rfl⟩, by decide⟩, ?_⟩
  have e : feed Collaborators.quiet Config.source (Machine.fresh () (0, 0, 0, 0) (0, 0, 0, 0))
      (ascii "X1.5.25.")
      = gcode_parse_char Collaborators.quiet Config.source 46
        (feed Collaborators.quiet Config.source
          (feed Collaborators.quiet Config.source (Machine.fresh () (0, 0, 0, 0) (0, 0, 0, 0))
            (ascii "X1")) (46 :: ascii "5.25")) := rfl
  rw [e, h.2]
  decide

/-! ## The accumulator between fields -/

/-- The `switch` never moves the pending field, and what it does to the accumulator is
`read_digit_step`, for every byte. -/
theorem process_switch_accumulator {W : Type} (c : Nat) (m : Machine W) :
    (process_switch c m).last_field = m.last_field
      ∧ (process_switch c m).read_digit = read_digit_step c m.read_digit := by
  by_cases hacc : c = 45 ∨ c = 46 ∨ (48 ≤ c ∧ c ≤ 57)
  · rw [process_switch_read_digit_step c m hacc]
    exact ⟨rfl, rfl⟩
  · have h45 : c ≠ 45 := fun e => hacc (Or.inl e)
    have h46 : c ≠ 46 := fun e => hacc (Or.inr (Or.inl e))
    have hd : ¬ (48 ≤ c ∧ c ≤ 57) := fun e => hacc (Or.inr (Or.inr e))
    unfold process_switch read_digit_step
    simp only [apply_ite Machine.last_field, apply_ite Machine.read_digit, h45, h46, hd,
      if_false, ite_self, and_self]

theorem process_character_accumulator {W : Type} (c : Nat) (x : Machine W) :
    (outside_comment_and_capture x
        ∧ (process_character c x).last_field
            = (if (65 ≤ c ∧ c ≤ 90) ∨ c = 42 then c else x.last_field)
        ∧ (process_character c x).read_digit = read_digit_step c x.read_digit)
      ∨ (¬ outside_comment_and_capture x
        ∧ (process_character c x).last_field = x.last_field
        ∧ (process_character c x).read_digit = x.read_digit) := by
  by_cases hl : outside_comment_and_capture x
  · left
    refine ⟨hl, ?_⟩
    unfold process_character
    simp only [hl.1, hl.2.1, hl.2.2, and_self, if_true]
    by_cases hc : (65 ≤ c ∧ c ≤ 90) ∨ c = 42
    · simp only [hc, if_true]
      have k := process_switch_accumulator c { x with last_field := c }
      exact ⟨k.1, k.2⟩
    · simp only [hc, if_false]
      exact process_switch_accumulator c x
  · right
    refine ⟨hl, ?_⟩
    have hl' : ¬ (x.next_target.seen_semi_comment = false
        ∧ x.next_target.seen_parens_comment = false ∧ x.next_target.getting_string = false) := hl
    unfold process_character
    simp only [hl', if_false, apply_ite Machine.last_field, apply_ite Machine.read_digit,
      ite_self, and_self]

theorem process_previous_field_accumulator {W : Type} (u : Nat) (m : Machine W) :
    ((process_previous_field u m).last_field = 0
        ∧ (process_previous_field u m).read_digit = ⟨false, 0, 0⟩
        ∧ ((65 ≤ u ∧ u ≤ 90) ∨ u = 42 ∨ u = 10 ∨ u = 13))
      ∨ process_previous_field u m = m := by
  unfold process_previous_field
  split_ifs with h1 h2
  · exact Or.inl ⟨rfl, rfl, h2⟩
  · exact Or.inr rfl
  · exact Or.inr rfl

theorem capture_string_accumulator {W : Type} (c : Nat) (m : Machine W) :
    (capture_string c m).last_field = m.last_field
      ∧ (capture_string c m).read_digit = m.read_digit
      ∧ (outside_comment_and_capture (capture_string c m) →
          outside_comment_and_capture m ∨ c = 10 ∨ c = 13 ∨ c = 32 ∨ c = 42) := by
  unfold capture_string outside_comment_and_capture
  simp only [apply_ite Machine.last_field, apply_ite Machine.read_digit, ite_self, true_and]
  by_cases hg : m.next_target.getting_string = true
  · simp only [hg, if_true]
    by_cases hc : c = 10 ∨ c = 13 ∨ c = 32 ∨ c = 42
    · intro _
      exact Or.inr hc
    · simp only [hc, if_false]
      split_ifs
      · intro h
        exact absurd h.2.2 (by simp [hg])
      · intro h
        exact absurd h.2.2 (by simp [hg])
  · simp only [hg, Bool.false_eq_true, if_false]
    intro h
    exact Or.inl h

theorem checksum_step_accumulator {W : Type} (c : Nat) (m : Machine W) :
    (checksum_step c m).last_field = m.last_field
      ∧ (checksum_step c m).read_digit = m.read_digit
      ∧ (outside_comment_and_capture (checksum_step c m) ↔ outside_comment_and_capture m) := by
  unfold checksum_step outside_comment_and_capture
  simp only [apply_ite Machine.last_field, apply_ite Machine.read_digit,
    apply_ite Machine.next_target, apply_ite GCODE_COMMAND.seen_semi_comment,
    apply_ite GCODE_COMMAND.seen_parens_comment, apply_ite GCODE_COMMAND.getting_string,
    ite_self, and_self]

theorem read_digit_step_other (c : Nat) (rd : decfloat)
    (hc : ¬ (c = 45 ∨ c = 46 ∨ (48 ≤ c ∧ c ≤ 57))) : read_digit_step c rd = rd := by
  have h45 : c ≠ 45 := fun e => hc (Or.inl e)
  have h46 : c ≠ 46 := fun e => hc (Or.inr (Or.inl e))
  have hd : ¬ (48 ≤ c ∧ c ≤ 57) := fun e => hc (Or.inr (Or.inr e))
  unfold read_digit_step
  simp only [h45, h46, hd, if_false]

/-- The phases after the optional early checksum step keep `idle_zero` unless the
byte is a stray sign, point or digit. -/
theorem phases_idle_zero {W : Type} (u : Nat) (m : Machine W) (h : idle_zero m)
    (hs : ¬ stray_accumulation u m) :
    idle_zero (process_character u (capture_string u (process_previous_field u m))) := by
  intro hlf
  have hcap := capture_string_accumulator u (process_previous_field u m)
  rcases process_character_accumulator u (capture_string u (process_previous_field u m))
    with ⟨hlive, k1, k2⟩ | ⟨_, k1, k2⟩
  · rw [k1] at hlf
    by_cases hc : (65 ≤ u ∧ u ≤ 90) ∨ u = 42
    · rw [if_pos hc] at hlf
      omega
    · rw [if_neg hc, hcap.1] at hlf
      rw [k2, hcap.2.1]
      rcases process_previous_field_accumulator u m with ⟨_, p2, p3⟩ | p
      · rw [p2]
        exact read_digit_step_other u _ (by omega)
      · rw [p] at hlf hlive hcap ⊢
        rw [h hlf]
        by_cases hacc : u = 45 ∨ u = 46 ∨ (48 ≤ u ∧ u ≤ 57)
        · exfalso
          rcases hcap.2.2 hlive with hm | hm
          · exact hs ⟨hlf, hm, hacc⟩
          · omega
        · exact read_digit_step_other u _ hacc
  · rw [k1, hcap.1] at hlf
    rw [k2, hcap.2.1]
    rcases process_previous_field_accumulator u m with ⟨_, p2, _⟩ | p
    · exact p2
    · rw [p] at hlf ⊢
      exact h hlf

/-- Every byte keeps `idle_zero` unless it is a stray sign, point or digit. -/
theorem gcode_parse_char_idle_zero {W : Type} (env : Collaborators W) (cfg : Config) (c : Nat)
    (m : Machine W) (h : idle_zero m) (hs : ¬ stray_accumulation c m) :
    idle_zero (gcode_parse_char env cfg c m) := by
  unfold gcode_parse_char end_of_line
  simp only []
  split_ifs with hterm
  · intro _
    rfl
  · have hu : ¬ stray_accumulation (uppercase c) m := by
      intro hx
      apply hs
      have hcu : uppercase c = c := by
        rw [uppercase_eq]
        split_ifs with h0
        · have := hx.2.2
          rw [uppercase_eq, if_pos h0] at this
          omega
        · rfl
      rw [hcu] at hx
      exact hx
    unfold parse_byte
    cases cfg.ASTERISK_IN_CHECKSUM_INCLUDED
    · simp only [Bool.false_eq_true, if_false]
      have k := checksum_step_accumulator (uppercase c)
        (process_character (uppercase c) (capture_string (uppercase c)
          (process_previous_field (uppercase c) m)))
      have p := phases_idle_zero (uppercase c) m h hu
      intro hlf
      rw [k.1] at hlf
      rw [k.2.1]
      exact p hlf
    · simp only [if_true]
      have k := checksum_step_accumulator c m
      apply phases_idle_zero (uppercase c) (checksum_step c m)
      · intro hlf
        rw [k.1] at hlf
        rw [k.2.1]
        exact h hlf
      · intro hx
        exact hu ⟨by rw [← k.1]; exact hx.1, k.2.2.1 hx.2.1, hx.2.2⟩

theorem feed_idle_zero {W : Type} (env : Collaborators W) (cfg : Config) (bs : List Nat) :
    ∀ (m : Machine W), idle_zero m → no_stray env cfg m bs → idle_zero (feed env cfg m bs) := by
  induction bs with
  | nil => intro m h _; exact h
  | cons b bs ih =>
    intro m h hn
    rw [feed_cons]
    exact ih _ (gcode_parse_char_idle_zero env cfg b m h hn.1) hn.2


/-- A byte that commits the pending field leaves a zero accumulator. -/
theorem commit_clears_accumulator {W : Type} (env : Collaborators W) (cfg : Config) (c : Nat)
    (m : Machine W) (hlf : m.last_field ≠ 0)
    (hc : (65 ≤ c ∧ c ≤ 90) ∨ (97 ≤ c ∧ c ≤ 122) ∨ c = 42 ∨ c = 10 ∨ c = 13) :
    (gcode_parse_char env cfg c m).read_digit = ⟨false, 0, 0⟩ := by
  have hu : (65 ≤ uppercase c ∧ uppercase c ≤ 90) ∨ uppercase c = 42 ∨ uppercase c = 10
      ∨ uppercase c = 13 := by
    rw [uppercase_eq]
    split_ifs with h <;> omega
  have hphase : ∀ x : Machine W, x.last_field ≠ 0 →
      (process_character (uppercase c) (capture_string (uppercase c)
        (process_previous_field (uppercase c) x))).read_digit = ⟨false, 0, 0⟩ := by
    intro x hx
    have hp : (process_previous_field (uppercase c) x).read_digit = ⟨false, 0, 0⟩ := by
      unfold process_previous_field
      rw [if_pos hx, if_pos hu]
    have hcap := capture_string_accumulator (uppercase c) (process_previous_field (uppercase c) x)
    rcases process_character_accumulator (uppercase c)
      (capture_string (uppercase c) (process_previous_field (uppercase c) x))
      with ⟨_, _, k2⟩ | ⟨_, _, k2⟩
    · rw [k2, hcap.2.1, hp]
      exact read_digit_step_other _ _ (by omega)
    · rw [k2, hcap.2.1, hp]
  unfold gcode_parse_char end_of_line
  simp only []
  split_ifs with hterm
  · rfl
  · unfold parse_byte
    cases cfg.ASTERISK_IN_CHECKSUM_INCLUDED
    · simp only [Bool.false_eq_true, if_false]
      rw [(checksum_step_accumulator _ _).2.1]
      exact hphase m hlf
    · simp only [if_true]
      exact hphase _ (by rw [(checksum_step_accumulator c m).1]; exact hlf)

set_option maxRecDepth 8000 in
/-- C17, as stated, fails: digits reach the accumulator whether or not a field is
active.  From a freshly reset parser the byte `5` leaves no field pending and mantissa
5; the digit `1` fed in that state gives mantissa 51; and the line `5X1`, at 1000 steps
per metre, is dispatched with `target.X = 51`, where the line `X1` gives 1. -/
theorem stray_digit_is_accumulated :
    (feed Collaborators.quiet Config.source (Machine.fresh () (1000, 0, 0, 0) (0, 0, 0, 0))
        (ascii "5")).last_field = 0
      ∧ (feed Collaborators.quiet Config.source (Machine.fresh () (1000, 0, 0, 0) (0, 0, 0, 0))
          (ascii "5")).read_digit = ⟨false, 5, 0⟩
      ∧ (gcode_parse_char Collaborators.quiet Config.source 49
          (feed Collaborators.quiet Config.source
            (Machine.fresh () (1000, 0, 0, 0) (0, 0, 0, 0)) (ascii "5"))).read_digit
          = ⟨false, 51, 0⟩
      ∧ (dispatched_records
          (feed Collaborators.quiet Config.source (Machine.fresh () (1000, 0, 0, 0) (0, 0, 0, 0))
            (ascii "5X1\n")).trace).map (fun r => r.target.X) = [51]
      ∧ (dispatched_records
          (feed Collaborators.quiet Config.source (Machine.fresh () (1000, 0, 0, 0) (0, 0, 0, 0))
            (ascii "X1\n")).trace).map (fun r => r.target.X) = [1] := by
  decide

/-- C17, amended: the accumulator is cleared by every byte that commits a pending field
and by every line terminator.  From the reset state, as long as no sign, point or digit
is fed outside comments and filename capture while no field is pending, the
accumulator is zero in every state without a pending field.  A sign, point or digit fed
outside comments and capture while no field is pending is accumulated like any other
(`read_digit_step`) and leaves no field pending, so it is carried into the value of
the next field. -/
theorem accumulator_between_fields {W : Type} (env : Collaborators W) (cfg : Config) (w : W)
    (sm : Nat × Nat × Nat × Nat) (si : Int × Int × Int × Int) (bs : List Nat) (c : Nat)
    (m : Machine W) :
    (no_stray env cfg (Machine.fresh w sm si) bs →
        idle_zero (feed env cfg (Machine.fresh w sm si) bs))
      ∧ (m.last_field ≠ 0 →
          ((65 ≤ c ∧ c ≤ 90) ∨ (97 ≤ c ∧ c ≤ 122) ∨ c = 42 ∨ c = 10 ∨ c = 13) →
          (gcode_parse_char env cfg c m).read_digit = ⟨false, 0, 0⟩)
      ∧ ((c = 10 ∨ c = 13) → (gcode_parse_char env cfg c m).read_digit = ⟨false, 0, 0⟩
          ∧ (gcode_parse_char env cfg c m).last_field = 0)
      ∧ (stray_accumulation c m →
          (gcode_parse_char env cfg c m).read_digit = read_digit_step c m.read_digit
          ∧ (gcode_parse_char env cfg c m).last_field = 0) := by
  refine ⟨?_, ?_, ?_, ?_⟩
  · intro hn
    apply feed_idle_zero env cfg bs _ _ hn
    intro _
    rfl
  · exact commit_clears_accumulator env cfg c m
  · intro hc
    rw [gcode_parse_char_terminator env cfg c m hc]
    exact ⟨rfl, rfl⟩
  · intro hs
    rw [gcode_parse_char_accumulate env cfg c m hs.2.1 hs.2.2]
    have k := checksum_step_accumulator c
      { m with read_digit := read_digit_step c m.read_digit }
    rw [k.1, k.2.1]
    exact ⟨rfl, hs.1⟩

set_option maxRecDepth 8000 in
/-- C17, amended, at a concrete input: the bytes `X1 Y` hold no stray digit; after them
the field `Y` is pending, and after `X1 Y2(a` no field is pending and the accumulator is
zero. -/
theorem accumulator_between_fields_witness :
    no_stray Collaborators.quiet Config.source
        (Machine.fresh () (1000, 0, 0, 0) (0, 0, 0, 0)) (ascii "X1 Y2(a")
      ∧ (feed Collaborators.quiet Config.source (Machine.fresh () (1000, 0, 0, 0) (0, 0, 0, 0))
          (ascii "X1 Y2(a")).last_field = 0
      ∧ (feed Collaborators.quiet Config.source (Machine.fresh () (1000, 0, 0, 0) (0, 0, 0, 0))
          (ascii "X1 Y2(a")).read_digit = ⟨false, 0, 0⟩ := by
  have hn : no_stray Collaborators.quiet Config.source
      (Machine.fresh () (1000, 0, 0, 0) (0, 0, 0, 0)) (ascii "X1 Y2(a") := by
    simp only [ascii, no_stray, stray_accumulation, outside_comment_and_capture]
    decide
  have h := (accumulator_between_fields Collaborators.quiet Config.source ()
    (1000, 0, 0, 0) (0, 0, 0, 0) (ascii "X1 Y2(a") 10
    (Machine.fresh () (1000, 0, 0, 0) (0, 0, 0, 0))).1 hn
  exact ⟨hn, by decide, h (by decide)⟩

/-! ## The dwell field `P` and the synthetic moves -/

theorem commit_field_P {W : Type} (m : Machine W) (h : m.last_field = 80) :
    (commit_field m).P
      = toUInt16 (if m.next_target.G = 4 then decfloat_to_int m.read_digit 1000 1
                  else decfloat_to_int m.read_digit 1 1) := by
  unfold commit_field
  simp only [h, Nat.reduceEqDiff, if_false, if_true]
  split_ifs <;> rfl

/-- After the commit no later phase of the byte touches `P`. -/
theorem parse_byte_P {W : Type} (cfg : Config) (c : Nat) (m : Machine W) :
    (parse_byte cfg c m).2.next_target.P
      = (process_previous_field (uppercase c)
          (if cfg.ASTERISK_IN_CHECKSUM_INCLUDED then checksum_step c m else m)).next_target.P := by
  have h1 : ∀ (b : Nat) (x : Machine W), (checksum_step b x).next_target.P = x.next_target.P := by
    intro b x
    unfold checksum_step
    simp only [apply_ite Machine.next_target, apply_ite GCODE_COMMAND.P, ite_self]
  have h3 : ∀ (b : Nat) (x : Machine W), (capture_string b x).next_target.P = x.next_target.P := by
    intro b x
    unfold capture_string
    simp only [apply_ite Machine.next_target, apply_ite GCODE_COMMAND.P, ite_self]
  have h4 : ∀ (b : Nat) (x : Machine W), (process_switch b x).next_target.P = x.next_target.P := by
    intro b x
    unfold process_switch
    simp only [apply_ite Machine.next_target, apply_ite GCODE_COMMAND.P, ite_self]
  have h5 : ∀ (b : Nat) (x : Machine W),
      (process_character b x).next_target.P = x.next_target.P := by
    intro b x
    unfold process_character
    simp only [apply_ite Machine.next_target, apply_ite GCODE_COMMAND.P, h4, ite_self]
  unfold parse_byte
  cases cfg.ASTERISK_IN_CHECKSUM_INCLUDED <;>
    simp only [Bool.false_eq_true, if_false, if_true, h1, h3, h5]

theorem toUInt16_of_range (v : Int) (h0 : 0 ≤ v) (h1 : v < 65536) : (toUInt16 v : Int) = v := by
  unfold toUInt16
  rw [Int.emod_eq_of_lt h0 h1]
  exact Int.toNat_of_nonneg h0

set_option maxRecDepth 8000 in
/-- C14, as stated, fails: `P` is a 16-bit field.  The line `G4 P66` is dispatched with
`P = 464`, where `decfloat_to_int(value, 1000, 1) = 66000`; the line `G4 P65` is
dispatched with `P = 65000`. -/
theorem dwell_of_66_seconds_is_truncated :
    (dispatched_records
        (feed Collaborators.quiet Config.source (Machine.fresh () (0, 0, 0, 0) (0, 0, 0, 0))
          (ascii "G4 P66\n")).trace).map (fun r => (r.G, r.P)) = [(4, 464)]
      ∧ decfloat_to_int
          (feed Collaborators.quiet Config.source (Machine.fresh () (0, 0, 0, 0) (0, 0, 0, 0))
            (ascii "G4 P66")).read_digit 1000 1 = 66000
      ∧ (dispatched_records
          (feed Collaborators.quiet Config.source (Machine.fresh () (0, 0, 0, 0) (0, 0, 0, 0))
            (ascii "G4 P65\n")).trace).map (fun r => (r.G, r.P)) = [(4, 65000)] := by
  decide

/-- C14, amended: when a pending `P` field is committed (the byte fed is a letter of
either case, `*`, LF or CR), the stored `P` is `decfloat_to_int(value, 1000, 1)` if the
record's `G` is 4 and `decfloat_to_int(value, 1, 1)` otherwise, converted to the
`uint16_t` field: it equals that value whenever the value lies in 0..65535. -/
theorem dwell_field_commit {W : Type} (cfg : Config) (c : Nat) (m : Machine W)
    (hc : (65 ≤ c ∧ c ≤ 90) ∨ (97 ≤ c ∧ c ≤ 122) ∨ c = 42 ∨ c = 10 ∨ c = 13)
    (hlf : m.last_field = 80) :
    let v := if m.next_target.G = 4 then decfloat_to_int m.read_digit 1000 1
             else decfloat_to_int m.read_digit 1 1
    (parse_byte cfg c m).2.next_target.P = toUInt16 v
      ∧ (0 ≤ v → v < 65536 → ((parse_byte cfg c m).2.next_target.P : Int) = v) := by
  intro v
  have hu : (65 ≤ uppercase c ∧ uppercase c ≤ 90) ∨ uppercase c = 42 ∨ uppercase c = 10
      ∨ uppercase c = 13 := by
    rw [uppercase_eq]
    split_ifs with h <;> omega
  have key : (parse_byte cfg c m).2.next_target.P = toUInt16 v := by
    rw [parse_byte_P]
    have hx : ∀ x : Machine W, x.last_field = 80 →
        (process_previous_field (uppercase c) x).next_target.P = (commit_field x).P := by
      intro x hx
      unfold process_previous_field
      rw [if_pos (by rw [hx]; norm_num), if_pos hu]
    cases cfg.ASTERISK_IN_CHECKSUM_INCLUDED
    · simp only [Bool.false_eq_true, if_false]
      rw [hx m hlf, commit_field_P m hlf]
    · simp only [if_true]
      have k := checksum_step_class c m
      have krd := (checksum_step_accumulator c m).2.1
      rw [hx _ (by rw [k.1]; exact hlf), commit_field_P _ (by rw [k.1]; exact hlf),
        k.2.2.2.1, krd]
  refine ⟨key, ?_⟩
  intro h0 h1
  rw [key]
  exact toUInt16_of_range v h0 h1

set_option maxRecDepth 8000 in
/-- C14, amended, at a concrete input: the line `G4 P12` reaches its line feed with the
field `P` pending and `G = 4`; the line feed stores `P = 12000`. -/
theorem dwell_field_commit_witness :
    (((10 : Nat) = 10)
        ∧ (feed Collaborators.quiet Config.source (Machine.fresh () (0, 0, 0, 0) (0, 0, 0, 0))
            (ascii "G4 P12")).last_field = 80)
      ∧ ((parse_byte Config.source 10
          (feed Collaborators.quiet Config.source (Machine.fresh () (0, 0, 0, 0) (0, 0, 0, 0))
            (ascii "G4 P12"))).2.next_target.P : Int) = 12000 := by
  have h := (dwell_field_commit Config.source 10
    (feed Collaborators.quiet Config.source (Machine.fresh () (0, 0, 0, 0) (0, 0, 0, 0))
      (ascii "G4 P12")) (Or.inr (Or.inr (Or.inr (Or.inl rfl)))) (by decide)).2
    (by decide) (by decide)
  refine ⟨⟨rfl, by decide⟩, ?_⟩
  rw [h]
  decide

/-- C15: `SpecialMoveXY(x, y, f)` makes exactly one call, `enqueue`, with the target
`startpoint` in which `X = x`, `Y = y`, `F = f` and the `g28` marker is set, `Z` and `E`
being those of `startpoint`; `SpecialMoveZ(z, f)` enqueues `startpoint` with `Z`, `F`
and the marker replaced, `SpecialMoveE(e, f)` with `E`, `F` and the marker replaced.
None of the three writes `startpoint`, which it only reads, or any variable of the
parser: the machine is the same but for the call appended to its trace. -/
theorem special_moves_overwrite_only_their_axes {W : Type} (startpoint : TARGET)
    (x y z e : Int) (f : Nat) (m : Machine W) :
    (SpecialMoveXY startpoint x y f m
        = { m with trace := m.trace ++
              [Event.enqueue ⟨x, y, startpoint.Z, startpoint.E, f, true⟩] })
      ∧ (SpecialMoveZ startpoint z f m
        = { m with trace := m.trace ++
              [Event.enqueue ⟨startpoint.X, startpoint.Y, z, startpoint.E, f, true⟩] })
      ∧ (SpecialMoveE startpoint e f m
        = { m with trace := m.trace ++
              [Event.enqueue ⟨startpoint.X, startpoint.Y, startpoint.Z, e, f, true⟩] })
      ∧ (SpecialMoveXY startpoint x y f m).next_target = m.next_target
      ∧ (SpecialMoveZ startpoint z f m).next_target = m.next_target
      ∧ (SpecialMoveE startpoint e f m).next_target = m.next_target :=
  ⟨rfl, rfl, rfl, rfl, rfl, rfl⟩

/-! ## One truncation instead of two -/

theorem toInt32_of_range (r : Int) (h0 : -2147483648 ≤ r) (h1 : r < 2147483648) :
    toInt32 r = r := by
  unfold toInt32
  rw [Int.emod_eq_of_lt (by omega) (by omega)]
  omega

/-- Truncation toward zero of a signed quotient of naturals is the signed natural
quotient. -/
theorem truncate_signed_div (s : Bool) (a b : Nat) (hb : 0 < b) :
    truncate ((if s then -1 else 1) * (a : ℚ) / (b : ℚ))
      = (if s then -((a / b : Nat) : Int) else ((a / b : Nat) : Int)) := by
  have hbq : (0 : ℚ) < b := by exact_mod_cast hb
  have hq : (0 : ℚ) ≤ (a : ℚ) / b := div_nonneg (by exact_mod_cast Nat.zero_le a) hbq.le
  have hfloor : ⌊(a : ℚ) / (b : ℚ)⌋ = ((a / b : Nat) : Int) := by
    rw [← Int.natCast_floor_eq_floor hq, Nat.floor_div_eq_div]
  cases s
  · simp only [Bool.false_eq_true, if_false, one_mul]
    unfold truncate
    rw [if_pos hq, hfloor]
  · simp only [if_true]
    have e : (-1 : ℚ) * (a : ℚ) / (b : ℚ) = -((a : ℚ) / b) := by ring
    rw [e]
    unfold truncate
    by_cases h0 : (0 : ℚ) ≤ -((a : ℚ) / b)
    · have hz : (a : ℚ) / b = 0 := le_antisymm (by linarith) hq
      have hn : ((a / b : Nat) : Int) = 0 := by
        rw [← hfloor, hz]
        simp
      rw [if_pos h0, hz, hn]
      simp
    · rw [if_neg h0, Int.ceil_neg, hfloor]

/-- With a non-negative multiplicand and a positive denominator the two truncating
divisions of `scaled_value` are one truncation of the exact value. -/
theorem scaled_value_eq_truncate (df : decfloat) (k d : Int) (hk : 0 ≤ k) (hd : 0 < d) :
    scaled_value df k d = truncate (exact_scaled df k d) := by
  obtain ⟨kn, rfl⟩ := Int.eq_ofNat_of_zero_le hk
  obtain ⟨dn, rfl⟩ := Int.eq_ofNat_of_zero_le hd.le
  have hdn : 0 < dn := by exact_mod_cast hd
  have hpos : 0 < dn * 10 ^ decimal_digits df := Nat.mul_pos hdn (by positivity)
  have hex : exact_scaled df (kn : Int) (dn : Int)
      = (if df.sign then -1 else 1) * ((df.mantissa * kn : Nat) : ℚ)
        / ((dn * 10 ^ decimal_digits df : Nat) : ℚ) := by
    unfold exact_scaled
    push_cast
    rfl
  rw [hex, truncate_signed_div df.sign _ _ hpos]
  unfold scaled_value
  simp only []
  have h1 : ((df.mantissa : Int) * (kn : Int)).tdiv (dn : Int)
      = ((df.mantissa * kn / dn : Nat) : Int) := by
    have hc : (df.mantissa : Int) * (kn : Int) = ((df.mantissa * kn : Nat) : Int) := by
      push_cast
      rfl
    rw [hc, ← Int.ofNat_tdiv]
  have h10 : ((10 : Int) ^ decimal_digits df) = ((10 ^ decimal_digits df : Nat) : Int) := by
    push_cast
    rfl
  rw [h1, h10, ← Nat.div_div_eq_div_mul]
  cases df.sign
  · simp only [Bool.false_eq_true, if_false]
    rw [← Int.ofNat_tdiv]
  · simp only [if_true]
    rw [Int.neg_tdiv, ← Int.ofNat_tdiv]


theorem exact_scaled_metric (df : decfloat) (s : Nat) :
    exact_scaled df ((1000 * s : Nat) : Int) 1000 = literal_value df * (s : ℚ) := by
  unfold exact_scaled literal_value
  have h10 : ((10 : ℚ) ^ decimal_digits df) ≠ 0 := by positivity
  push_cast
  field_simp
  ring_nf

theorem exact_scaled_unit (df : decfloat) : exact_scaled df 1 1 = literal_value df := by
  unfold exact_scaled literal_value
  push_cast
  ring

/-- C20: for a non-negative multiplicand `k` and a positive denominator `d`, when the
truncation toward zero of the exact rational `m * k / (d * 10^n)`, taken with the sign
of the accumulator, fits in 32 bits (`n` being `exponent - 1`, or 0 without a point),
`decfloat_to_int` returns exactly that truncation: the two successive truncating
divisions lose nothing more.  In particular,
with `steps_per_m = 1000 * s` below 2^31, `decfloat_to_int(value, steps_per_m, 1000)`,
which is what a metric `X` field commits, is the truncation of the literal value times
`s`, and `decfloat_to_int(value, 1, 1)` is the truncation of the literal value. -/
theorem decfloat_to_int_single_truncation {W : Type} (df : decfloat) (k d : Int) (s : Nat)
    (m : Machine W) :
    (0 ≤ k → 0 < d →
        -2147483648 ≤ truncate (exact_scaled df k d) →
        truncate (exact_scaled df k d) < 2147483648 →
        decfloat_to_int df k d = truncate (exact_scaled df k d))
      ∧ (1000 * s < 2147483648 →
          -2147483648 ≤ truncate (literal_value df * (s : ℚ)) →
          truncate (literal_value df * (s : ℚ)) < 2147483648 →
          decfloat_to_int df (toInt32 ((1000 * s : Nat) : Int)) 1000
            = truncate (literal_value df * (s : ℚ)))
      ∧ (-2147483648 ≤ truncate (literal_value df) →
          truncate (literal_value df) < 2147483648 →
          decfloat_to_int df 1 1 = truncate (literal_value df))
      ∧ (m.last_field = 88 → m.next_target.option_inches = false →
          m.steps_per_m_x = 1000 * s → 1000 * s < 2147483648 →
          -2147483648 ≤ truncate (literal_value m.read_digit * (s : ℚ)) →
          truncate (literal_value m.read_digit * (s : ℚ)) < 2147483648 →
          (commit_field m).target.X = truncate (literal_value m.read_digit * (s : ℚ))) := by
  have general : ∀ (x : decfloat) (k' d' : Int), 0 ≤ k' → 0 < d' →
      -2147483648 ≤ truncate (exact_scaled x k' d') →
      truncate (exact_scaled x k' d') < 2147483648 →
      decfloat_to_int x k' d' = truncate (exact_scaled x k' d') := by
    intro x k' d' hk hd h0 h1
    rw [decfloat_to_int_eq_scaled, scaled_value_eq_truncate x k' d' hk hd]
    exact toInt32_of_range _ h0 h1
  have metric : ∀ (x : decfloat), 1000 * s < 2147483648 →
      -2147483648 ≤ truncate (literal_value x * (s : ℚ)) →
      truncate (literal_value x * (s : ℚ)) < 2147483648 →
      decfloat_to_int x (toInt32 ((1000 * s : Nat) : Int)) 1000
        = truncate (literal_value x * (s : ℚ)) := by
    intro x hs h0 h1
    have hconv : toInt32 ((1000 * s : Nat) : Int) = ((1000 * s : Nat) : Int) :=
      toInt32_of_range _ (by omega) (by omega)
    rw [hconv]
    have hg := general x ((1000 * s : Nat) : Int) 1000 (by omega) (by norm_num)
    rw [exact_scaled_metric] at hg
    exact hg h0 h1
  refine ⟨general df k d, metric df, ?_, ?_⟩
  · intro h0 h1
    have hg := general df 1 1 (by norm_num) (by norm_num)
    rw [exact_scaled_unit] at hg
    exact hg h0 h1
  · intro hlf hin hsm hs h0 h1
    have hc : (commit_field m).target.X
        = decfloat_to_int m.read_digit (toInt32 m.steps_per_m_x) 1000 := by
      unfold commit_field
      simp only [hlf, hin, Nat.reduceEqDiff, Bool.false_eq_true, if_false, if_true]
    rw [hc, hsm]
    exact metric m.read_digit hs h0 h1

set_option maxRecDepth 8000 in
/-- C20 at a concrete input: the literal `-12.5678` at 100 steps per millimetre. -/
theorem decfloat_to_int_single_truncation_witness :
    ((0 : Int) ≤ 100000 ∧ (0 : Int) < 1000 ∧ 1000 * 100 < 2147483648)
      ∧ truncate (literal_value ⟨true, 125678, 5⟩ * ((100 : Nat) : ℚ)) = -1256
      ∧ decfloat_to_int ⟨true, 125678, 5⟩ (toInt32 ((1000 * 100 : Nat) : Int)) 1000 = -1256 := by
  have ht : truncate (literal_value ⟨true, 125678, 5⟩ * ((100 : Nat) : ℚ)) = -1256 := by
    have e : literal_value ⟨true, 125678, 5⟩ * ((100 : Nat) : ℚ)
        = (if true then -1 else 1) * ((12567800 : Nat) : ℚ) / ((10000 : Nat) : ℚ) := by
      unfold literal_value decimal_digits
      norm_num
    rw [e, truncate_signed_div true 12567800 10000 (by norm_num)]
    decide
  have h := (@decfloat_to_int_single_truncation Unit ⟨true, 125678, 5⟩ 100000 1000 100
    (Machine.fresh () (0, 0, 0, 0) (0, 0, 0, 0))).2.1 (by norm_num)
    (by rw [ht]; norm_num) (by rw [ht]; norm_num)
  exact ⟨by norm_num, ht, h.trans ht⟩

/-! ## Filename capture -/

theorem checksum_step_capture {W : Type} (c : Nat) (m : Machine W) :
    (checksum_step c m).next_target.getting_string = m.next_target.getting_string
      ∧ (checksum_step c m).last_field = m.last_field
      ∧ (checksum_step c m).next_target.chpos = m.next_target.chpos
      ∧ (checksum_step c m).next_target.filename = m.next_target.filename := by
  unfold checksum_step
  simp only [apply_ite Machine.next_target, apply_ite Machine.last_field,
    apply_ite GCODE_COMMAND.getting_string, apply_ite GCODE_COMMAND.chpos,
    apply_ite GCODE_COMMAND.filename, ite_self, and_self]

theorem process_character_capture {W : Type} (c : Nat) (m : Machine W)
    (h : m.next_target.getting_string = true) :
    (process_character c m).next_target.getting_string = m.next_target.getting_string
      ∧ (process_character c m).last_field = m.last_field
      ∧ (process_character c m).next_target.chpos = m.next_target.chpos
      ∧ (process_character c m).next_target.filename = m.next_target.filename := by
  unfold process_character
  simp only [h, Bool.true_eq_false, and_false, if_false, apply_ite Machine.next_target,
    apply_ite Machine.last_field, apply_ite GCODE_COMMAND.getting_string,
    apply_ite GCODE_COMMAND.chpos, apply_ite GCODE_COMMAND.filename, ite_self, and_self]

/-- What the capture phase does with the byte `A` while there is room. -/
theorem capture_string_append {W : Type} (m : Machine W)
    (h : m.next_target.getting_string = true) (hk : m.next_target.chpos < 120) :
    (capture_string 65 m).next_target.getting_string = true
      ∧ (capture_string 65 m).last_field = m.last_field
      ∧ (capture_string 65 m).next_target.chpos = m.next_target.chpos + 1
      ∧ (capture_string 65 m).next_target.filename
          = (m.next_target.filename.set m.next_target.chpos 65).set
              (m.next_target.chpos + 1) 0 := by
  unfold capture_string filename_writes
  simp only [h, hk, if_true, Nat.reduceEqDiff, or_self, if_false, List.foldl_cons,
    List.foldl_nil, and_self]

/-- With the cursor at 120 the byte is dropped. -/
theorem capture_string_full {W : Type} (m : Machine W)
    (h : m.next_target.getting_string = true) (hk : m.next_target.chpos = 120) :
    capture_string 65 m = m := by
  unfold capture_string
  simp only [h, hk, if_true, Nat.reduceEqDiff, or_self, if_false, Nat.lt_irrefl]

theorem gcode_parse_char_capture {W : Type} (env : Collaborators W) (cfg : Config)
    (m : Machine W) (h : m.next_target.getting_string = true) (hlf : m.last_field = 0)
    (hk : m.next_target.chpos < 120) :
    (gcode_parse_char env cfg 65 m).next_target.getting_string = true
      ∧ (gcode_parse_char env cfg 65 m).last_field = 0
      ∧ (gcode_parse_char env cfg 65 m).next_target.chpos = m.next_target.chpos + 1
      ∧ (gcode_parse_char env cfg 65 m).next_target.filename
          = (m.next_target.filename.set m.next_target.chpos 65).set
              (m.next_target.chpos + 1) 0 := by
  have hu : uppercase 65 = 65 := rfl
  rw [gcode_parse_char_inline env cfg 65 m (by rw [hu]; exact ⟨by norm_num, by norm_num⟩)]
  have hphase : ∀ x : Machine W, x.next_target.getting_string = true → x.last_field = 0 →
      x.next_target.chpos < 120 →
      (process_character 65 (capture_string 65 (process_previous_field 65 x))).next_target.getting_string
          = true
        ∧ (process_character 65 (capture_string 65 (process_previous_field 65 x))).last_field = 0
        ∧ (process_character 65 (capture_string 65
            (process_previous_field 65 x))).next_target.chpos = x.next_target.chpos + 1
        ∧ (process_character 65 (capture_string 65
            (process_previous_field 65 x))).next_target.filename
            = (x.next_target.filename.set x.next_target.chpos 65).set
                (x.next_target.chpos + 1) 0 := by
    intro x hx hxl hxk
    have hp : process_previous_field 65 x = x := by
      unfold process_previous_field
      simp only [hxl, ne_eq, not_true_eq_false, if_false]
    rw [hp]
    have a := capture_string_append x hx hxk
    have b := process_character_capture 65 (capture_string 65 x) a.1
    rw [b.1, b.2.1, b.2.2.1, b.2.2.2, a.1, a.2.1, a.2.2.1, a.2.2.2, hxl]
    exact ⟨rfl, rfl, rfl, rfl⟩
  unfold parse_byte
  rw [hu]
  cases cfg.ASTERISK_IN_CHECKSUM_INCLUDED
  · simp only [Bool.false_eq_true, if_false]
    have k := checksum_step_capture 65
      (process_character 65 (capture_string 65 (process_previous_field 65 m)))
    rw [k.1, k.2.1, k.2.2.1, k.2.2.2]
    exact hphase m h hlf hk
  · simp only [if_true]
    have k := checksum_step_capture 65 m
    have p := hphase (checksum_step 65 m) (by rw [k.1]; exact h) (by rw [k.2.1]; exact hlf)
      (by rw [k.2.2.1]; exact hk)
    rw [k.2.2.1, k.2.2.2] at p
    exact p

theorem capturing_at_step {W : Type} (env : Collaborators W) (cfg : Config) (k : Nat)
    (m : Machine W) (h : capturing_at k m) (hk : k < 120) :
    capturing_at (k + 1) (gcode_parse_char env cfg 65 m) := by
  obtain ⟨h1, h2, h3, h4, h5⟩ := h
  have s := gcode_parse_char_capture env cfg m h1 h2 (by rw [h3]; exact hk)
  refine ⟨s.1, s.2.1, by rw [s.2.2.1, h3], by rw [s.2.2.2]; simp [h4], ?_⟩
  intro i hi
  rw [s.2.2.2, h3]
  by_cases hik : i = k
  · subst hik
    simp [List.getD_eq_getElem?_getD, List.getElem?_set, h4, hk]
  · have hlt : i < k := by omega
    have := h5 i hlt
    simp only [List.getD_eq_getElem?_getD] at this ⊢
    rw [List.getElem?_set_ne (by omega), List.getElem?_set_ne (by omega)]
    exact this

theorem capturing_at_run {W : Type} (env : Collaborators W) (cfg : Config) (n : Nat) :
    ∀ (k : Nat) (m : Machine W), capturing_at k m → k + n ≤ 120 →
      capturing_at (k + n) (feed env cfg m (List.replicate n 65)) := by
  induction n with
  | zero => intro k m h _; exact h
  | succ n ih =>
    intro k m h hk
    rw [List.replicate_succ, feed_cons]
    have h1 := capturing_at_step env cfg k m h (by omega)
    have h2 := ih (k + 1) _ h1 (by omega)
    have e : k + 1 + n = k + (n + 1) := by omega
    rw [e] at h2
    exact h2

/-- The start of a filename: after `M23 A` capture is on, one byte is stored. -/
theorem capture_started :
    capturing_at 1 (feed Collaborators.quiet Config.source
      (Machine.fresh () (0, 0, 0, 0) (0, 0, 0, 0)) (ascii "M23 A")) := by
  refine ⟨by decide, by decide, by decide, by decide, ?_⟩
  intro i hi
  have : i = 0 := by omega
  subst this
  decide

set_option maxRecDepth 8000 in
/-- C12: a filename of 120 bytes overruns the 120-byte buffer.  After `M23 ` and 119
bytes `A` capture is active with the cursor at 119; the bound test `chpos < 120` admits
the next byte, whose two writes go to index 119 and to index 120, one past the array.
After that append the cursor is 120 and none of the 120 bytes of the array is 0. -/
theorem filename_terminator_written_past_the_buffer :
    (feed Collaborators.quiet Config.source
        (Machine.fresh () (0, 0, 0, 0) (0, 0, 0, 0))
        (ascii "M23 " ++ List.replicate 119 65)).next_target.getting_string = true
      ∧ (feed Collaborators.quiet Config.source
        (Machine.fresh () (0, 0, 0, 0) (0, 0, 0, 0))
        (ascii "M23 " ++ List.replicate 119 65)).next_target.chpos = 119
      ∧ filename_writes (feed Collaborators.quiet Config.source
        (Machine.fresh () (0, 0, 0, 0) (0, 0, 0, 0))
        (ascii "M23 " ++ List.replicate 119 65)).next_target.chpos 65 = [(119, 65), (120, 0)]
      ∧ (feed Collaborators.quiet Config.source
        (Machine.fresh () (0, 0, 0, 0) (0, 0, 0, 0))
        (ascii "M23 " ++ List.replicate 120 65)).next_target.chpos = 120
      ∧ (feed Collaborators.quiet Config.source
        (Machine.fresh () (0, 0, 0, 0) (0, 0, 0, 0))
        (ascii "M23 " ++ List.replicate 120 65)).next_target.filename.length = 120
      ∧ ∀ i, i < 120 → (feed Collaborators.quiet Config.source
        (Machine.fresh () (0, 0, 0, 0) (0, 0, 0, 0))
        (ascii "M23 " ++ List.replicate 120 65)).next_target.filename.getD i 0 = 65 := by
  have e119 : ascii "M23 " ++ List.replicate 119 65
      = ascii "M23 A" ++ List.replicate 118 65 := by decide
  have e120 : ascii "M23 " ++ List.replicate 120 65
      = ascii "M23 A" ++ List.replicate 119 65 := by decide
  have h119 : capturing_at 119 (feed Collaborators.quiet Config.source
      (feed Collaborators.quiet Config.source
        (Machine.fresh () (0, 0, 0, 0) (0, 0, 0, 0)) (ascii "M23 A"))
      (List.replicate 118 65)) :=
    capturing_at_run Collaborators.quiet Config.source 118 1 _ capture_started (by norm_num)
  have h120 : capturing_at 120 (feed Collaborators.quiet Config.source
      (feed Collaborators.quiet Config.source
        (Machine.fresh () (0, 0, 0, 0) (0, 0, 0, 0)) (ascii "M23 A"))
      (List.replicate 119 65)) :=
    capturing_at_run Collaborators.quiet Config.source 119 1 _ capture_started (by norm_num)
  rw [e119, e120, feed_append, feed_append]
  obtain ⟨a1, _, a3, _, _⟩ := h119
  obtain ⟨_, _, b3, b4, b5⟩ := h120
  refine ⟨a1, a3, ?_, b3, b4, b5⟩
  rw [a3]
  rfl

/-! ## Semicolon comments -/

theorem commit_field_checksum {W : Type} (m : Machine W) (v : Nat) :
    commit_field { m with next_target := { m.next_target with checksum_calculated := v } }
      = { commit_field m with checksum_calculated := v } := by
  have e : ({ commit_field m with checksum_calculated := v } : GCODE_COMMAND)
      = (fun nt : GCODE_COMMAND => { nt with checksum_calculated := v }) (commit_field m) := rfl
  rw [e]
  unfold commit_field
  simp only [apply_ite (fun nt : GCODE_COMMAND => { nt with checksum_calculated := v })]

theorem commit_field_comment {W : Type} (m : Machine W) :
    (commit_field m).seen_semi_comment = m.next_target.seen_semi_comment
      ∧ (commit_field m).seen_parens_comment = m.next_target.seen_parens_comment
      ∧ (commit_field m).getting_string
          = (if m.last_field = 71 then m.next_target.getting_string
             else if m.last_field = 77 then
               if m.read_digit.mantissa % 65536 = 23 ∨ m.read_digit.mantissa % 65536 = 28
               then true else m.next_target.getting_string
             else m.next_target.getting_string) := by
  unfold commit_field
  simp only [apply_ite GCODE_COMMAND.seen_semi_comment,
    apply_ite GCODE_COMMAND.seen_parens_comment, apply_ite GCODE_COMMAND.getting_string,
    ite_self, and_self, true_and]

theorem process_previous_field_idle {W : Type} (u : Nat) (m : Machine W)
    (h : m.last_field = 0) : process_previous_field u m = m := by
  unfold process_previous_field
  rw [if_neg (not_not.mpr h)]

theorem process_previous_field_commit {W : Type} (u : Nat) (m : Machine W)
    (h : m.last_field ≠ 0) (hu : (65 ≤ u ∧ u ≤ 90) ∨ u = 42 ∨ u = 10 ∨ u = 13) :
    process_previous_field u m
      = { m with next_target := commit_field m, last_field := 0, read_digit := ⟨false, 0, 0⟩ } := by
  unfold process_previous_field
  rw [if_pos h, if_pos hu]

theorem settled_record_idle {W : Type} (m : Machine W) (h : m.last_field = 0) :
    settled_record m = { m.next_target with checksum_calculated := 0 } := by
  unfold settled_record
  rw [process_previous_field_idle 10 m h]

theorem settled_record_pending {W : Type} (m : Machine W) (h : m.last_field ≠ 0) :
    settled_record m = { commit_field m with checksum_calculated := 0 } := by
  unfold settled_record
  rw [process_previous_field_commit 10 m h (by decide)]

/-- The running checksum does not reach the settled record. -/
theorem settled_record_set_checksum {W : Type} (v : Nat) (m : Machine W) :
    settled_record { m with next_target := { m.next_target with checksum_calculated := v } }
      = settled_record m := by
  by_cases hl : m.last_field = 0
  · rw [settled_record_idle m hl]
    exact settled_record_idle _ hl
  · rw [settled_record_pending m hl]
    have hl2 : ({ m with next_target := { m.next_target with checksum_calculated := v } }
        : Machine W).last_field ≠ 0 := hl
    rw [settled_record_pending _ hl2, commit_field_checksum]

theorem settled_record_checksum_step {W : Type} (b : Nat) (m : Machine W) :
    settled_record (checksum_step b m) = settled_record m := by
  unfold checksum_step
  by_cases h : m.next_target.seen_checksum = false
  · rw [if_pos h]
    exact settled_record_set_checksum _ m
  · rw [if_neg h]

theorem checksum_step_comment {W : Type} (b : Nat) (m : Machine W) :
    (checksum_step b m).next_target.seen_semi_comment = m.next_target.seen_semi_comment
      ∧ (checksum_step b m).next_target.seen_parens_comment = m.next_target.seen_parens_comment
      ∧ (checksum_step b m).next_target.getting_string = m.next_target.getting_string
      ∧ (checksum_step b m).last_field = m.last_field
      ∧ (checksum_step b m).read_digit = m.read_digit := by
  unfold checksum_step
  simp only [apply_ite Machine.next_target, apply_ite Machine.last_field,
    apply_ite Machine.read_digit, apply_ite GCODE_COMMAND.seen_semi_comment,
    apply_ite GCODE_COMMAND.seen_parens_comment, apply_ite GCODE_COMMAND.getting_string,
    ite_self, and_self]

theorem checksum_step_inside_comment {W : Type} (b : Nat) (m : Machine W)
    (h : inside_semicolon_comment m) : inside_semicolon_comment (checksum_step b m) := by
  have k := checksum_step_comment b m
  unfold inside_semicolon_comment semicolon_starts_comment pending_filename_command at h ⊢
  rw [k.1, k.2.1, k.2.2.1, k.2.2.2.1, k.2.2.2.2]
  exact h

theorem checksum_step_starts_comment {W : Type} (b : Nat) (m : Machine W)
    (h : semicolon_starts_comment m) : semicolon_starts_comment (checksum_step b m) := by
  have k := checksum_step_comment b m
  unfold semicolon_starts_comment pending_filename_command at h ⊢
  rw [k.2.1, k.2.2.1, k.2.2.2.1, k.2.2.2.2]
  exact h

/-- Committing a field that is not `M23`/`M28` leaves filename capture off. -/
theorem commit_field_keeps_capture_off {W : Type} (m : Machine W)
    (h : semicolon_starts_comment m) : (commit_field m).getting_string = false := by
  rw [(commit_field_comment m).2.2]
  obtain ⟨_, hg, hp⟩ := h
  unfold pending_filename_command at hp
  by_cases h71 : m.last_field = 71
  · simp only [h71, if_true, hg]
  · by_cases h77 : m.last_field = 77
    · have hq : ¬ (m.read_digit.mantissa % 65536 = 23 ∨ m.read_digit.mantissa % 65536 = 28) :=
        fun q => hp ⟨h77, q⟩
      simp only [h77, Nat.reduceEqDiff, if_false, if_true, hq, hg]
    · simp only [h71, h77, if_false, hg]

/-- Inside a semicolon comment the "process previous field" phase may commit the
pending field; the record the line settles into is the same either way. -/
theorem process_previous_field_inside_comment {W : Type} (u : Nat) (m : Machine W)
    (h : inside_semicolon_comment m) :
    inside_semicolon_comment (process_previous_field u m)
      ∧ settled_record (process_previous_field u m) = settled_record m
      ∧ (u = 10 → (process_previous_field u m).last_field = 0) := by
  by_cases hl : m.last_field = 0
  · rw [process_previous_field_idle u m hl]
    exact ⟨h, rfl, fun _ => hl⟩
  · by_cases hu : (65 ≤ u ∧ u ≤ 90) ∨ u = 42 ∨ u = 10 ∨ u = 13
    · rw [process_previous_field_commit u m hl hu]
      refine ⟨⟨?_, ?_, ?_, ?_⟩, ?_, fun _ => rfl⟩
      · show (commit_field m).seen_semi_comment = true
        rw [(commit_field_comment m).1]
        exact h.1
      · show (commit_field m).seen_parens_comment = false
        rw [(commit_field_comment m).2.1]
        exact h.2.1
      · exact commit_field_keeps_capture_off m h.2
      · intro hp
        exact absurd (show (0 : Nat) = 77 from hp.1) (by decide)
      · rw [settled_record_pending m hl]
        exact settled_record_idle _ rfl
    · have h10 : u ≠ 10 := fun e => hu (Or.inr (Or.inr (Or.inl e)))
      rw [process_previous_field_skip u m hu]
      exact ⟨h, rfl, fun e => absurd e h10⟩

theorem process_character_inside_comment {W : Type} (u : Nat) (m : Machine W)
    (h : inside_semicolon_comment m) : process_character u m = m := by
  unfold process_character
  simp only [h.1, h.2.1, Bool.true_eq_false, Bool.false_eq_true, false_and, and_false,
    if_false]

/-- Inside a semicolon comment a byte changes nothing the line settles into. -/
theorem parse_byte_inside_comment {W : Type} (cfg : Config) (b : Nat) (m : Machine W)
    (h : inside_semicolon_comment m) :
    inside_semicolon_comment (parse_byte cfg b m).2
      ∧ settled_record (parse_byte cfg b m).2 = settled_record m
      ∧ (uppercase b = 10 → (parse_byte cfg b m).2.last_field = 0) := by
  have phases : ∀ x : Machine W, inside_semicolon_comment x →
      process_character (uppercase b) (capture_string (uppercase b)
        (process_previous_field (uppercase b) x)) = process_previous_field (uppercase b) x := by
    intro x hx
    have p := process_previous_field_inside_comment (uppercase b) x hx
    rw [capture_string_off _ _ p.1.2.2.1, process_character_inside_comment _ _ p.1]
  unfold parse_byte
  cases cfg.ASTERISK_IN_CHECKSUM_INCLUDED
  · simp only [Bool.false_eq_true, if_false]
    rw [phases m h]
    have p := process_previous_field_inside_comment (uppercase b) m h
    refine ⟨checksum_step_inside_comment _ _ p.1, ?_, ?_⟩
    · rw [settled_record_checksum_step, p.2.1]
    · intro hb
      rw [(checksum_step_comment _ _).2.2.2.1]
      exact p.2.2 hb
  · simp only [if_true]
    have hx := checksum_step_inside_comment b m h
    rw [phases _ hx]
    have p := process_previous_field_inside_comment (uppercase b) _ hx
    refine ⟨p.1, ?_, p.2.2⟩
    rw [p.2.1, settled_record_checksum_step]

theorem feed_inside_comment {W : Type} (env : Collaborators W) (cfg : Config)
    (text : List Nat) :
    ∀ m : Machine W, inside_semicolon_comment m → (∀ b ∈ text, b ≠ 10 ∧ b ≠ 13) →
      inside_semicolon_comment (feed env cfg m text)
        ∧ settled_record (feed env cfg m text) = settled_record m := by
  induction text with
  | nil => intro m h _; exact ⟨h, rfl⟩
  | cons b bs ih =>
    intro m h hb
    have hb1 := hb b (List.mem_cons_self b bs)
    have hu : uppercase b ≠ 10 ∧ uppercase b ≠ 13 := by
      unfold uppercase
      by_cases hr : 97 ≤ b ∧ b ≤ 122
      · have h1 : b &&& 223 = b - 32 := by
          obtain ⟨l, r⟩ := hr
          interval_cases b <;> rfl
        simp only [hr, and_self, if_true, h1]
        omega
      · simp only [hr, if_false]
        exact hb1
    rw [feed_cons, gcode_parse_char_inline env cfg b m hu]
    have p := parse_byte_inside_comment cfg b m h
    have q := ih _ p.1 (fun x hx => hb x (List.mem_cons_of_mem b hx))
    exact ⟨q.1, by rw [q.2, p.2.1]⟩

/-- The record routed at the end of a line that ends inside a semicolon comment. -/
theorem record_inside_comment {W : Type} (cfg : Config) (m : Machine W)
    (h : inside_semicolon_comment m) :
    { (parse_byte cfg 10 m).2.next_target with checksum_calculated := 0 } = settled_record m := by
  have p := parse_byte_inside_comment cfg 10 m h
  rw [← p.2.1, settled_record_idle _ (p.2.2 rfl)]

/-- The byte `;` opens the comment. -/
theorem semicolon_opens_comment {W : Type} (env : Collaborators W) (cfg : Config)
    (m : Machine W) (h : semicolon_starts_comment m) :
    inside_semicolon_comment (gcode_parse_char env cfg 59 m) := by
  have hu : uppercase 59 = 59 := rfl
  rw [gcode_parse_char_inline env cfg 59 m (by rw [hu]; exact ⟨by norm_num, by norm_num⟩)]
  have phases : ∀ x : Machine W, semicolon_starts_comment x →
      inside_semicolon_comment (process_character 59 (capture_string 59
        (process_previous_field 59 x))) := by
    intro x hx
    rw [process_previous_field_skip 59 x (by decide), capture_string_off 59 x hx.2.1]
    by_cases hs : x.next_target.seen_semi_comment = true
    · rw [process_character_inside_comment 59 x ⟨hs, hx⟩]
      exact ⟨hs, hx⟩
    · have hs0 : x.next_target.seen_semi_comment = false := by
        cases hv : x.next_target.seen_semi_comment
        · rfl
        · exact absurd hv hs
      rw [process_character_live 59 x ⟨hs0, hx.1, hx.2.1⟩ (by decide)]
      exact ⟨rfl, hx.1, hx.2.1, hx.2.2⟩
  unfold parse_byte
  rw [hu]
  cases cfg.ASTERISK_IN_CHECKSUM_INCLUDED
  · simp only [Bool.false_eq_true, if_false]
    exact checksum_step_inside_comment _ _ (phases m h)
  · simp only [if_true]
    exact phases _ (checksum_step_starts_comment 59 m h)

set_option maxRecDepth 8000 in
/-- Three line prefixes after which the text behind a `;` reaches the routed record.
Inside a parenthesis comment the `;` is comment text and a later `)` ends the comment, so
`X1` behind it is parsed.  During filename capture the `;` and what follows it are stored
in the filename.  With `M23` pending, the first letter of the comment commits the field,
which starts filename capture inside the comment. -/
theorem semicolon_text_reaches_the_record :
    (record_at_end_of_line Collaborators.quiet Config.source
        (Machine.fresh () (1000, 0, 0, 0) (0, 0, 0, 0)) (ascii "(" ++ 59 :: ascii ")X1")).seen_X
        = true
      ∧ (record_at_end_of_line Collaborators.quiet Config.source
        (Machine.fresh () (1000, 0, 0, 0) (0, 0, 0, 0)) (ascii "(" ++ 59 :: [])).seen_X = false
      ∧ (record_at_end_of_line Collaborators.quiet Config.source
        (Machine.fresh () (1000, 0, 0, 0) (0, 0, 0, 0)) (ascii "M23 A" ++ 59 :: ascii "B")).chpos
        = 3
      ∧ (record_at_end_of_line Collaborators.quiet Config.source
        (Machine.fresh () (1000, 0, 0, 0) (0, 0, 0, 0)) (ascii "M23 A" ++ 59 :: [])).chpos = 2
      ∧ (record_at_end_of_line Collaborators.quiet Config.source
        (Machine.fresh () (1000, 0, 0, 0) (0, 0, 0, 0)) (ascii "M23" ++ 59 :: ascii "A")).chpos
        = 1
      ∧ (record_at_end_of_line Collaborators.quiet Config.source
        (Machine.fresh () (1000, 0, 0, 0) (0, 0, 0, 0)) (ascii "M23" ++ 59 :: [])).chpos = 0 := by
  decide

/-- C16 (amended): when the prefix `p` leaves the parser outside a parenthesis comment
and outside filename capture, with no `M23`/`M28` field pending, the records at the end
of the lines `p ; c1 LF` and `p ; c2 LF` are equal in every field except the running
checksum, for all comment texts `c1`, `c2` without CR and LF. -/
theorem semicolon_comment_ignored {W : Type} (env : Collaborators W) (cfg : Config)
    (m : Machine W) (p c1 c2 : List Nat)
    (hp : semicolon_starts_comment (feed env cfg m p))
    (h1 : ∀ b ∈ c1, b ≠ 10 ∧ b ≠ 13) (h2 : ∀ b ∈ c2, b ≠ 10 ∧ b ≠ 13) :
    { record_at_end_of_line env cfg m (p ++ 59 :: c1) with checksum_calculated := 0 }
      = { record_at_end_of_line env cfg m (p ++ 59 :: c2) with checksum_calculated := 0 } := by
  have key : ∀ text : List Nat, (∀ b ∈ text, b ≠ 10 ∧ b ≠ 13) →
      { record_at_end_of_line env cfg m (p ++ 59 :: text) with checksum_calculated := 0 }
        = settled_record (gcode_parse_char env cfg 59 (feed env cfg m p)) := by
    intro text ht
    have s := semicolon_opens_comment env cfg (feed env cfg m p) hp
    have f := feed_inside_comment env cfg text _ s ht
    unfold record_at_end_of_line
    rw [feed_append, feed_cons, record_inside_comment cfg _ f.1, f.2]
  rw [key c1 h1, key c2 h2]

set_option maxRecDepth 8000 in
/-- The lines `X1;a` and `X1;G2` settle into the same record. -/
theorem semicolon_comment_ignored_witness :
    semicolon_starts_comment (feed Collaborators.quiet Config.source
        (Machine.fresh () (1000, 0, 0, 0) (0, 0, 0, 0)) (ascii "X1"))
      ∧ ({ record_at_end_of_line Collaborators.quiet Config.source
            (Machine.fresh () (1000, 0, 0, 0) (0, 0, 0, 0)) (ascii "X1" ++ 59 :: ascii "a")
            with checksum_calculated := 0 } : GCODE_COMMAND)
        = { record_at_end_of_line Collaborators.quiet Config.source
            (Machine.fresh () (1000, 0, 0, 0) (0, 0, 0, 0)) (ascii "X1" ++ 59 :: ascii "G2")
            with checksum_calculated := 0 }
      ∧ (record_at_end_of_line Collaborators.quiet Config.source
            (Machine.fresh () (1000, 0, 0, 0) (0, 0, 0, 0))
            (ascii "X1" ++ 59 :: ascii "G2")).target.X = 1 :=
  have hp : semicolon_starts_comment (feed Collaborators.quiet Config.source
      (Machine.fresh () (1000, 0, 0, 0) (0, 0, 0, 0)) (ascii "X1")) :=
    ⟨by decide, by decide, fun h => absurd h.1 (by decide)⟩
  ⟨hp, semicolon_comment_ignored Collaborators.quiet Config.source
      (Machine.fresh () (1000, 0, 0, 0) (0, 0, 0, 0)) (ascii "X1") (ascii "a") (ascii "G2") hp
      (by decide) (by decide), by decide⟩

/-! ## File capture through `gcode_parse_line` -/

theorem storage_writes_append (a b : List Event) :
    storage_writes (a ++ b) = storage_writes a ++ storage_writes b := by
  induction a with
  | nil => rfl
  | cons e es ih =>
    cases e <;> simp [storage_writes, ih]

theorem done_replies_append (a b : List Event) :
    done_replies (a ++ b) = done_replies a + done_replies b := by
  unfold done_replies
  exact List.count_append _ _ _

/-- The loop of `gcode_parse_line` over bytes that are not terminators reads them from
the buffer in order. -/
theorem gcode_parse_line_from_inline {W : Type} (env : Collaborators W) (cfg : Config)
    (n : Nat) (bytes : List Nat) :
    ∀ (j : Nat) (rest : List Nat) (m : Machine W), (∀ b ∈ bytes, b ≠ 10 ∧ b ≠ 13) →
      m.pLine.data.drop j = bytes ++ rest →
      gcode_parse_line_from env cfg (bytes.length + n) j m
        = gcode_parse_line_from env cfg n (j + bytes.length) (feed env cfg m bytes) := by
  induction bytes with
  | nil => intro j rest m _ _; simp [feed]
  | cons b bs ih =>
    intro j rest m hb hd
    have e : (b :: bs).length + n = (bs.length + n) + 1 := by simp; omega
    rw [e]
    show gcode_parse_line_from env cfg (bs.length + n) (j + 1)
        (gcode_parse_char env cfg (m.pLine.data.getD j 0) m) = _
    have hj : m.pLine.data.getD j 0 = b := by
      have h0 : (m.pLine.data.drop j)[0]? = some b := by rw [hd]; simp
      rw [List.getElem?_drop] at h0
      rw [List.getD_eq_getElem?_getD]
      simp only [Nat.add_zero] at h0
      rw [h0]
      rfl
    rw [hj]
    have hp : (gcode_parse_char env cfg b m).pLine = m.pLine :=
      (feed_inline_outside env cfg [b] m (fun x hx => by
        rw [List.mem_singleton] at hx; subst hx; exact hb x (List.mem_cons_self _ _))).2.2.2
    have hd2 : (gcode_parse_char env cfg b m).pLine.data.drop (j + 1) = bs ++ rest := by
      rw [hp, ← List.drop_drop]
      rw [hd]
      rfl
    rw [ih (j + 1) rest _ (fun x hx => hb x (List.mem_cons_of_mem _ hx)) hd2, feed_cons]
    have e2 : j + 1 + bs.length = j + (b :: bs).length := by simp; omega
    rw [e2]

/-- One buffer holding one line: the bytes before the terminator are parsed with the
buffer in place, and the terminator ends the line. -/
theorem gcode_parse_line_single {W : Type} (env : Collaborators W) (cfg : Config)
    (l : List Nat × Nat) (m : Machine W) (hl : ∀ b ∈ l.1, b ≠ 10 ∧ b ≠ 13) :
    gcode_parse_line env cfg (capture_buffer l) m
      = gcode_parse_char env cfg l.2 (feed env cfg { m with pLine := capture_buffer l } l.1) := by
  unfold gcode_parse_line
  have hlen : (capture_buffer l).len = l.1.length + 1 := by
    simp [capture_buffer, line_buffer]
  have hdata : (capture_buffer l).data
      = l.1 ++ (l.2 :: List.replicate (120 - (l.1.length + 1)) 0) := by
    simp [capture_buffer, line_buffer]
  rw [hlen, gcode_parse_line_from_inline env cfg 1 l.1 0 _ _ hl (by
    show (capture_buffer l).data.drop 0 = _
    rw [List.drop_zero, hdata])]
  show gcode_parse_char env cfg _ _ = _
  have hp := (feed_inline_outside env cfg l.1 { m with pLine := capture_buffer l } hl).2.2.2
  rw [hp]
  show gcode_parse_char env cfg ((capture_buffer l).data.getD (0 + l.1.length) 0) _ = _
  have hget : (l.1 ++ (l.2 :: List.replicate (120 - (l.1.length + 1)) 0)).getD
      (0 + l.1.length) 0 = l.2 := by
    rw [Nat.zero_add, List.getD_eq_getElem?_getD, List.getElem?_append_right (le_refl _)]
    simp
  rw [hdata, hget]

/-- What the router hands to storage for a one-line buffer: the bytes of the line and LF,
whether the buffer ended in CR or in LF. -/
theorem capture_buffer_written (l : List Nat × Nat) (ht : l.2 = 10 ∨ l.2 = 13) :
    (if (capture_buffer l).data.getD ((capture_buffer l).len - 1) 0 = 13 then
        { capture_buffer l with
          data := (capture_buffer l).data.set ((capture_buffer l).len - 1) 10 }
      else capture_buffer l).data.take
      (if (capture_buffer l).data.getD ((capture_buffer l).len - 1) 0 = 13 then
        { capture_buffer l with
          data := (capture_buffer l).data.set ((capture_buffer l).len - 1) 10 }
      else capture_buffer l).len = l.1 ++ [10] := by
  obtain ⟨body, t⟩ := l
  have hlen : (capture_buffer (body, t)).len = body.length + 1 := by
    simp [capture_buffer, line_buffer]
  have hdata : (capture_buffer (body, t)).data
      = body ++ (t :: List.replicate (120 - (body.length + 1)) 0) := by
    simp [capture_buffer, line_buffer]
  have hget : (body ++ (t :: List.replicate (120 - (body.length + 1)) 0)).getD
      body.length 0 = t := by
    rw [List.getD_eq_getElem?_getD, List.getElem?_append_right (le_refl _)]
    simp
  simp only [apply_ite tLineBuffer.data, apply_ite tLineBuffer.len, ite_self]
  rw [hlen, hdata, Nat.add_sub_cancel, hget]
  have ht2 : t = 10 ∨ t = 13 := ht
  rcases ht2 with rfl | rfl
  · simp [List.take_append_eq_append_take]
  · simp [List.take_append_eq_append_take, List.set_append]

/-- In file-capture mode the router stores a line without an `M` code in 20..29. -/
theorem route_line_stores {W : Type} (env : Collaborators W) (y : Machine W)
    (l : List Nat × Nat) (ht : l.2 = 10 ∨ l.2 = 13)
    (hsd : y.sd_writing_file = true) (hp : y.pLine = capture_buffer l)
    (hM : ¬ (y.next_target.seen_M = true ∧ 20 ≤ y.next_target.M ∧ y.next_target.M ≤ 29)) :
    (route_line env y).sd_writing_file = true
      ∧ storage_writes (route_line env y).trace = storage_writes y.trace ++ [l.1 ++ [10]]
      ∧ done_replies (route_line env y).trace = done_replies y.trace := by
  have hw := capture_buffer_written l ht
  unfold route_line
  rw [if_pos hsd, if_neg hM, hp]
  refine ⟨hsd, ?_, ?_⟩
  · show storage_writes (y.trace ++ [Event.sd_write_to_file _, Event.serial_writestr _]) = _
    rw [storage_writes_append, hw]
    rfl
  · show done_replies (y.trace ++ [Event.sd_write_to_file _, Event.serial_writestr _]) = _
    rw [done_replies_append, hw]
    cases (env.sd_write_to_file y.world (l.1 ++ [10])).1 <;> rfl

/-- In file-capture mode the router closes the file on `M29`. -/
theorem route_line_closes {W : Type} (env : Collaborators W) (y : Machine W)
    (hsd : y.sd_writing_file = true)
    (hM : y.next_target.seen_M = true ∧ y.next_target.M = 29) :
    (route_line env y).sd_writing_file = false
      ∧ storage_writes (route_line env y).trace = storage_writes y.trace
      ∧ done_replies (route_line env y).trace = done_replies y.trace + 1 := by
  have h1 : y.next_target.seen_M = true ∧ 20 ≤ y.next_target.M ∧ y.next_target.M ≤ 29 :=
    ⟨hM.1, by rw [hM.2]; decide, by rw [hM.2]⟩
  unfold route_line
  rw [if_pos hsd, if_pos h1, if_pos hM]
  refine ⟨rfl, ?_, ?_⟩
  · show storage_writes (y.trace ++ _) = _
    rw [storage_writes_append]
    simp [storage_writes]
  · show done_replies (y.trace ++ _) = _
    rw [done_replies_append]
    rfl

/-- A line that passes both tests goes to the router, and only the router and the reset
touch the state outside the parser. -/
theorem gcode_parse_line_routed {W : Type} (env : Collaborators W) (cfg : Config)
    (l : List Nat × Nat) (m : Machine W) (hw : well_formed_line l)
    (hn : line_number_ok cfg (line_record env cfg m l) = true)
    (hc : checksum_ok cfg (line_record env cfg m l) = true) :
    ∃ y : Machine W, y.next_target = line_record env cfg m l
      ∧ y.trace = m.trace ∧ y.sd_writing_file = m.sd_writing_file
      ∧ y.pLine = capture_buffer l
      ∧ (gcode_parse_line env cfg (capture_buffer l) m).trace = (route_line env y).trace
      ∧ (gcode_parse_line env cfg (capture_buffer l) m).sd_writing_file
          = (route_line env y).sd_writing_file := by
  obtain ⟨hl, ht, _⟩ := hw
  have hn2 := hn
  have hc2 := hc
  unfold line_record at hn2 hc2
  have hx := feed_inline_outside env cfg l.1 { m with pLine := capture_buffer l } hl
  have hy := parse_byte_outside cfg l.2 (feed env cfg { m with pLine := capture_buffer l } l.1)
  refine ⟨(parse_byte cfg l.2 (feed env cfg { m with pLine := capture_buffer l } l.1)).2,
    rfl, hy.1.trans hx.1, hy.2.2.1.trans hx.2.2.1, hy.2.2.2.trans hx.2.2.2, ?_, ?_⟩
  · rw [gcode_parse_line_single env cfg l m hl, gcode_parse_char_terminator env cfg l.2 _ ht]
    unfold check_line
    rw [if_pos hn2, if_pos hc2]
    rfl
  · rw [gcode_parse_line_single env cfg l m hl, gcode_parse_char_terminator env cfg l.2 _ ht]
    unfold check_line
    rw [if_pos hn2, if_pos hc2]
    rfl

/-- One data line in file-capture mode: one write of the line with LF, no
`Done saving file`, file-capture mode stays on. -/
theorem data_line_stored {W : Type} (env : Collaborators W) (cfg : Config)
    (l : List Nat × Nat) (m : Machine W) (hsd : m.sd_writing_file = true)
    (hd : data_line env cfg m l) :
    (gcode_parse_line env cfg (capture_buffer l) m).sd_writing_file = true
      ∧ storage_writes (gcode_parse_line env cfg (capture_buffer l) m).trace
          = storage_writes m.trace ++ [l.1 ++ [10]]
      ∧ done_replies (gcode_parse_line env cfg (capture_buffer l) m).trace
          = done_replies m.trace := by
  obtain ⟨hw, hn, hc, hM⟩ := hd
  obtain ⟨y, hnt, htr, hs, hp, e1, e2⟩ := gcode_parse_line_routed env cfg l m hw hn hc
  have r := route_line_stores env y l hw.2.1 (hs.trans hsd) hp (by rw [hnt]; exact hM)
  rw [e1, e2, r.1, r.2.1, r.2.2, htr]
  exact ⟨rfl, rfl, rfl⟩

/-- The `M29` line in file-capture mode: no write, one `Done saving file`, file-capture
mode off. -/
theorem closing_line_closes {W : Type} (env : Collaborators W) (cfg : Config)
    (l : List Nat × Nat) (m : Machine W) (hsd : m.sd_writing_file = true)
    (hd : closing_line env cfg m l) :
    (gcode_parse_line env cfg (capture_buffer l) m).sd_writing_file = false
      ∧ storage_writes (gcode_parse_line env cfg (capture_buffer l) m).trace
          = storage_writes m.trace
      ∧ done_replies (gcode_parse_line env cfg (capture_buffer l) m).trace
          = done_replies m.trace + 1 := by
  obtain ⟨hw, hn, hc, hM⟩ := hd
  obtain ⟨y, hnt, htr, hs, hp, e1, e2⟩ := gcode_parse_line_routed env cfg l m hw hn hc
  have r := route_line_closes env y (hs.trans hsd) (by rw [hnt]; exact hM)
  rw [e1, e2, r.1, r.2.1, r.2.2, htr]
  exact ⟨rfl, rfl, rfl⟩

theorem feed_buffers_append {W : Type} (env : Collaborators W) (cfg : Config) (m : Machine W)
    (a b : List tLineBuffer) :
    feed_buffers env cfg m (a ++ b) = feed_buffers env cfg (feed_buffers env cfg m a) b := by
  unfold feed_buffers
  rw [List.foldl_append]

/-- A run of data lines in file-capture mode. -/
theorem data_lines_stored {W : Type} (env : Collaborators W) (cfg : Config)
    (lines : List (List Nat × Nat)) :
    ∀ m : Machine W, m.sd_writing_file = true → data_lines env cfg m lines →
      (feed_buffers env cfg m (lines.map capture_buffer)).sd_writing_file = true
        ∧ storage_writes (feed_buffers env cfg m (lines.map capture_buffer)).trace
            = storage_writes m.trace ++ lines.map (fun l => l.1 ++ [10])
        ∧ done_replies (feed_buffers env cfg m (lines.map capture_buffer)).trace
            = done_replies m.trace := by
  induction lines with
  | nil =>
    intro m hsd _
    exact ⟨hsd, by simp [feed_buffers], rfl⟩
  | cons l rest ih =>
    intro m hsd hd
    have s := data_line_stored env cfg l m hsd hd.1
    have t := ih _ s.1 hd.2
    have e : feed_buffers env cfg m ((l :: rest).map capture_buffer)
        = feed_buffers env cfg (gcode_parse_line env cfg (capture_buffer l) m)
            (rest.map capture_buffer) := rfl
    rw [e, t.1, t.2.1, t.2.2, s.2.1, s.2.2]
    exact ⟨rfl, by simp, rfl⟩

set_option maxRecDepth 8000 in
/-- A buffer terminated by CR LF is routed at the CR and again at the LF: one data line
`X1` CR LF followed by `M29` gives two storage writes, each of the whole buffer. -/
theorem crlf_line_is_stored_twice :
    storage_writes (feed_buffers Collaborators.quiet Config.source Machine.capturing
        [line_buffer (ascii "X1" ++ [13, 10]), line_buffer (ascii "M29" ++ [10])]).trace
      = [ascii "X1" ++ [13, 10], ascii "X1" ++ [13, 10]] := by
  decide

/-- C13 (amended): starting in file-capture mode, feeding through `gcode_parse_line` N
buffers that each hold one data line ended by a single CR or a single LF (a line whose
record passes the line-number and checksum tests and has no `M` code in 20..29), followed
by a buffer holding an `M29` line, produces exactly N storage writes, the write for each
line being its bytes followed by LF, exactly one `Done saving file` reply, and leaves
file-capture mode off.  Whether the storage writes succeed plays no part. -/
theorem file_capture_session {W : Type} (env : Collaborators W) (cfg : Config)
    (m : Machine W) (lines : List (List Nat × Nat)) (last : List Nat × Nat)
    (hsd : m.sd_writing_file = true)
    (hd : data_lines env cfg m lines)
    (hc : closing_line env cfg (feed_buffers env cfg m (lines.map capture_buffer)) last) :
    storage_writes
        (feed_buffers env cfg m (lines.map capture_buffer ++ [capture_buffer last])).trace
        = storage_writes m.trace ++ lines.map (fun l => l.1 ++ [10])
      ∧ done_replies
        (feed_buffers env cfg m (lines.map capture_buffer ++ [capture_buffer last])).trace
        = done_replies m.trace + 1
      ∧ (feed_buffers env cfg m
          (lines.map capture_buffer ++ [capture_buffer last])).sd_writing_file = false := by
  have s := data_lines_stored env cfg lines m hsd hd
  have c := closing_line_closes env cfg last _ s.1 hc
  have e : feed_buffers env cfg m (lines.map capture_buffer ++ [capture_buffer last])
      = gcode_parse_line env cfg (capture_buffer last)
          (feed_buffers env cfg m (lines.map capture_buffer)) := by
    rw [feed_buffers_append]
    rfl
  rw [e, c.1, c.2.1, c.2.2, s.2.1, s.2.2]
  exact ⟨rfl, rfl, rfl⟩

set_option maxRecDepth 16000 in
/-- The session `X1` CR, `G1 Y2` LF, `M29` LF stores `X1` LF and `G1 Y2` LF. -/
theorem file_capture_session_witness :
    Machine.capturing.sd_writing_file = true
      ∧ data_lines Collaborators.quiet Config.source Machine.capturing
          [(ascii "X1", 13), (ascii "G1 Y2", 10)]
      ∧ closing_line Collaborators.quiet Config.source
          (feed_buffers Collaborators.quiet Config.source Machine.capturing
            ([(ascii "X1", 13), (ascii "G1 Y2", 10)].map capture_buffer)) (ascii "M29", 10)
      ∧ storage_writes
          (feed_buffers Collaborators.quiet Config.source Machine.capturing
            ([(ascii "X1", 13), (ascii "G1 Y2", 10)].map capture_buffer
              ++ [capture_buffer (ascii "M29", 10)])).trace
          = storage_writes Machine.capturing.trace
              ++ [(ascii "X1", 13), (ascii "G1 Y2", 10)].map (fun l => l.1 ++ [10])
      ∧ done_replies
          (feed_buffers Collaborators.quiet Config.source Machine.capturing
            ([(ascii "X1", 13), (ascii "G1 Y2", 10)].map capture_buffer
              ++ [capture_buffer (ascii "M29", 10)])).trace
          = done_replies Machine.capturing.trace + 1
      ∧ (feed_buffers Collaborators.quiet Config.source Machine.capturing
            ([(ascii "X1", 13), (ascii "G1 Y2", 10)].map capture_buffer
              ++ [capture_buffer (ascii "M29", 10)])).sd_writing_file = false :=
  have hd : data_lines Collaborators.quiet Config.source Machine.capturing
      [(ascii "X1", 13), (ascii "G1 Y2", 10)] :=
    ⟨⟨⟨by decide, by decide, by decide⟩, by decide, by decide, by decide⟩,
      ⟨⟨by decide, by decide, by decide⟩, by decide, by decide, by decide⟩, True.intro⟩
  have hc : closing_line Collaborators.quiet Config.source
      (feed_buffers Collaborators.quiet Config.source Machine.capturing
        ([(ascii "X1", 13), (ascii "G1 Y2", 10)].map capture_buffer)) (ascii "M29", 10) :=
    ⟨⟨by decide, by decide, by decide⟩, by decide, by decide, by decide, by decide⟩
  ⟨rfl, hd, hc, file_capture_session Collaborators.quiet Config.source Machine.capturing
    [(ascii "X1", 13), (ascii "G1 Y2", 10)] (ascii "M29", 10) rfl hd hc⟩


end R2C2
